import Mathlib

/-!
# vld — declarative struct-field validator (`validator.go`)

A shallow embedding of the Go package `vld` and a verification of its
documented behaviour.

Modelling conventions.

* A Go `string` is a Lean `String` (a valid UTF-8 text).  Go's `len(s)` is the
  number of bytes, i.e. `String.utf8ByteSize`.
* Go's `int` is taken to be 64 bits wide, so `int64(x)` is the identity on the
  result of `strconv.Atoi`; `int`/`int64` values are embedded in `Int`, and no
  arithmetic is performed on them by the program (only comparisons).
* A computation that may raise a Go runtime panic returns `Except GoPanic _`.
* The Go `error` interface is `Option Error`, `none` being the `nil` error.
* The diagnostic line printed with `fmt.Println` on a failed `email` check is
  not part of the returned value and is not modelled.
* The escapes of a struct-tag value are decoded to bytes (`strconv.Unquote`)
  and the bytes read back as a text: exactly so when they are the UTF-8
  encoding of a text; a byte outside a valid encoding, which a text cannot
  hold, is kept as U+FFFD, the rune Go reads at that byte.
-/

namespace vld

/-! ## Library functions used by the program -/

namespace strings

/-- The pieces of a text between the occurrences of the separator `sep`;
there is always at least one piece. -/
def splitChars (sep : Char) : List Char → List (List Char)
  | [] => [[]]
  | c :: cs =>
    if c = sep then [] :: splitChars sep cs
    else
      match splitChars sep cs with
      | [] => [[c]]
      | p :: ps => (c :: p) :: ps

/-- Go `strings.Split(s, sep)` for a one-character separator: all the
substrings of `s` separated by `sep` (every occurrence splits). -/
def Split (s : String) (sep : Char) : List String :=
  (splitChars sep s.data).map String.mk

/-- Go `strings.Join(elems, sep)`. -/
def Join (elems : List String) (sep : String) : String :=
  sep.intercalate elems

end strings

namespace strconv

/-- Value of a decimal digit, `none` for any other character. -/
def digitVal (c : Char) : Option Nat :=
  if 48 ≤ c.toNat ∧ c.toNat ≤ 57 then some (c.toNat - 48) else none

/-- Value of a run of decimal digits read left to right, starting from `acc`;
`none` as soon as a character is not a digit. -/
def parseDigits : List Char → Nat → Option Nat
  | [], acc => some acc
  | c :: cs, acc =>
    match digitVal c with
    | none => none
    | some d => parseDigits cs (acc * 10 + d)

/-- The part of Go `strconv.Atoi` after the optional sign: one or more decimal
digits, whose value, negated when `neg`, lies in the `int` range
`[-2^63, 2^63 - 1]`. -/
def atoiDigits (neg : Bool) (ds : List Char) : Option Int :=
  match ds with
  | [] => none
  | _ =>
    match parseDigits ds 0 with
    | none => none
    | some n =>
      if neg then
        if n ≤ 9223372036854775808 then some (-(n : Int)) else none
      else
        if n < 9223372036854775808 then some (n : Int) else none

/-- Go `strconv.Atoi` on a 64-bit platform: an optional sign `+` or `-`
followed by one or more decimal digits, whose value lies in the `int` range.
`none` stands for a non-nil `err` (syntax or range). -/
def Atoi (s : String) : Option Int :=
  match s.data with
  | '-' :: r => atoiDigits true r
  | '+' :: r => atoiDigits false r
  | r => atoiDigits false r

/-- Value of a hexadecimal digit (Go `unhex`). -/
def unhex (c : Char) : Option Nat :=
  if 48 ≤ c.toNat ∧ c.toNat ≤ 57 then some (c.toNat - 48)
  else if 97 ≤ c.toNat ∧ c.toNat ≤ 102 then some (c.toNat - 97 + 10)
  else if 65 ≤ c.toNat ∧ c.toNat ≤ 70 then some (c.toNat - 65 + 10)
  else none

/-- Value of a run of hexadecimal digits, `none` if one is not a hex digit. -/
def hexVal : List Char → Nat → Option Nat
  | [], acc => some acc
  | c :: cs, acc =>
    match unhex c with
    | none => none
    | some x => hexVal cs (acc * 16 + x)

/-- Value of an octal digit, `none` for any other character. -/
def octVal (c : Char) : Option Nat :=
  if 48 ≤ c.toNat ∧ c.toNat ≤ 55 then some (c.toNat - 48) else none

/-- A rune given by its code point, when it is a valid one
(Go `utf8.ValidRune`). -/
def rune (v : Nat) : Option Char :=
  if h : v.isValidChar then some (Char.ofNatAux v h) else none

/-- The UTF-8 encoding of a character, as a list of bytes. -/
def utf8Encode (c : Char) : List Nat :=
  if c.toNat < 128 then [c.toNat]
  else if c.toNat < 2048 then [192 + c.toNat / 64, 128 + c.toNat % 64]
  else if c.toNat < 65536 then
    [224 + c.toNat / 4096, 128 + c.toNat / 64 % 64, 128 + c.toNat % 64]
  else
    [240 + c.toNat / 262144, 128 + c.toNat / 4096 % 64, 128 + c.toNat / 64 % 64,
      128 + c.toNat % 64]

/-- A continuation byte `10xxxxxx`. -/
def isCont (b : Nat) : Bool := decide (128 ≤ b) && decide (b < 192)

/-- The first character a list of bytes encodes in UTF-8 and the bytes after
it (Go `utf8.DecodeRune`); `none` when the list does not start with a valid
encoding (shortest form only, no surrogate, at most U+10FFFF). -/
def decodeRune : List Nat → Option (Char × List Nat)
  | [] => none
  | b0 :: rest =>
    if b0 < 128 then (rune b0).map (fun c => (c, rest))
    else if b0 < 192 then none
    else if b0 < 224 then
      match rest with
      | b1 :: r =>
        if isCont b1 ∧ 128 ≤ (b0 - 192) * 64 + (b1 - 128) then
          (rune ((b0 - 192) * 64 + (b1 - 128))).map (fun c => (c, r))
        else none
      | _ => none
    else if b0 < 240 then
      match rest with
      | b1 :: b2 :: r =>
        if isCont b1 ∧ isCont b2 ∧
            2048 ≤ (b0 - 224) * 4096 + (b1 - 128) * 64 + (b2 - 128) then
          (rune ((b0 - 224) * 4096 + (b1 - 128) * 64 + (b2 - 128))).map (fun c => (c, r))
        else none
      | _ => none
    else if b0 < 248 then
      match rest with
      | b1 :: b2 :: b3 :: r =>
        if isCont b1 ∧ isCont b2 ∧ isCont b3 ∧
            65536 ≤ (b0 - 240) * 262144 + (b1 - 128) * 4096 + (b2 - 128) * 64 + (b3 - 128) then
          (rune ((b0 - 240) * 262144 + (b1 - 128) * 4096 + (b2 - 128) * 64 + (b3 - 128))).map
            (fun c => (c, r))
        else none
      | _ => none
    else none

/-- The runes of a list of bytes, read as Go reads a string rune by rune: a
valid UTF-8 encoding gives its character, and a byte that starts none gives
U+FFFD (`utf8.RuneError`) and is passed over alone.  `fuel` bounds the number
of runes. -/
def utf8DecodeLoop : Nat → List Nat → List Char
  | _, [] => []
  | 0, _ :: _ => []
  | fuel + 1, b :: bs =>
    match decodeRune (b :: bs) with
    | none => Char.ofNat 65533 :: utf8DecodeLoop fuel bs
    | some (c, rest) => c :: utf8DecodeLoop fuel rest

/-- The text of a Go string given by its bytes: the characters the bytes encode
in UTF-8.  A Go string whose bytes are not valid UTF-8 is not a text; each of
its bytes outside a valid encoding is kept as U+FFFD, the rune Go reads
there. -/
def utf8Decode (bs : List Nat) : List Char := utf8DecodeLoop bs.length bs

/-- The bytes of the body of a double-quoted Go string literal, its escape
sequences decoded (the loop of Go `strconv.Unquote` over `UnquoteChar`):
a character stands for its UTF-8 bytes, `\x` and octal escapes for one byte,
`\u` and `\U` for the UTF-8 bytes of a valid rune; `none` is a syntax error. -/
def unquoteBytes : List Char → Option (List Nat)
  | [] => some []
  | '\\' :: 'a' :: r => (unquoteBytes r).map (7 :: ·)
  | '\\' :: 'b' :: r => (unquoteBytes r).map (8 :: ·)
  | '\\' :: 'f' :: r => (unquoteBytes r).map (12 :: ·)
  | '\\' :: 'n' :: r => (unquoteBytes r).map (10 :: ·)
  | '\\' :: 'r' :: r => (unquoteBytes r).map (13 :: ·)
  | '\\' :: 't' :: r => (unquoteBytes r).map (9 :: ·)
  | '\\' :: 'v' :: r => (unquoteBytes r).map (11 :: ·)
  | '\\' :: '\\' :: r => (unquoteBytes r).map (92 :: ·)
  | '\\' :: '"' :: r => (unquoteBytes r).map (34 :: ·)
  | '\\' :: 'x' :: h1 :: h2 :: r =>
    match hexVal [h1, h2] 0, unquoteBytes r with
    | some v, some out => some (v :: out)
    | _, _ => none
  | '\\' :: 'u' :: h1 :: h2 :: h3 :: h4 :: r =>
    match (hexVal [h1, h2, h3, h4] 0).bind rune, unquoteBytes r with
    | some c, some out => some (utf8Encode c ++ out)
    | _, _ => none
  | '\\' :: 'U' :: h1 :: h2 :: h3 :: h4 :: h5 :: h6 :: h7 :: h8 :: r =>
    match (hexVal [h1, h2, h3, h4, h5, h6, h7, h8] 0).bind rune, unquoteBytes r with
    | some c, some out => some (utf8Encode c ++ out)
    | _, _ => none
  | '\\' :: o1 :: o2 :: o3 :: r =>
    match octVal o1, octVal o2, octVal o3, unquoteBytes r with
    | some a, some b, some c, some out =>
      if (a * 8 + b) * 8 + c > 255 then none
      else some (((a * 8 + b) * 8 + c) :: out)
    | _, _, _, _ => none
  | '\\' :: _ => none
  | '"' :: _ => none
  | c :: r => if c = Char.ofNat 10 then none else (unquoteBytes r).map (utf8Encode c ++ ·)

/-- Go `strconv.Unquote` applied to the text `"` ++ body ++ `"`.  A body with
neither a backslash nor a newline is returned as it is (the fast path);
otherwise the escapes are decoded to bytes and the bytes read as a text. -/
def Unquote (body : List Char) : Option String :=
  if !body.contains '\\' && !body.contains (Char.ofNat 10) then some (String.mk body)
  else (unquoteBytes body).map (fun bs => String.mk (utf8Decode bs))

end strconv

namespace reflect

/-- The values of Go `reflect.Kind`. -/
inductive Kind where
  | Invalid | Bool | Int | Int8 | Int16 | Int32 | Int64
  | Uint | Uint8 | Uint16 | Uint32 | Uint64 | Uintptr
  | Float32 | Float64 | Complex64 | Complex128
  | Array | Chan | Func | Interface | Map | Pointer | Slice | String | Struct
  | UnsafePointer
  deriving DecidableEq, Repr

/-- Go `reflect.StructField`, as far as the program reads it: the field name,
whether it is exported (`IsExported()`), and the raw struct tag. -/
structure StructField where
  Name : String
  Exported : Bool
  Tag : String
  deriving DecidableEq, Repr

/-- A character allowed in the key of a struct tag: above the space, and none
of `:`, `"`, DEL. -/
def isKeyChar (c : Char) : Bool :=
  decide (32 < c.toNat) && c != ':' && c != '"' && c != Char.ofNat 127

/-- Scan of a quoted tag value after its opening quote: the body up to the
first unescaped `"` and the text after that quote; `none` when the quote is
never closed. -/
def scanQuoted : List Char → Option (List Char × List Char)
  | [] => none
  | '"' :: rest => some ([], rest)
  | '\\' :: c :: rest => (scanQuoted rest).map (fun qr => ('\\' :: c :: qr.1, qr.2))
  | '\\' :: [] => none
  | c :: rest => (scanQuoted rest).map (fun qr => (c :: qr.1, qr.2))

/-- The loop of Go `reflect.StructTag.Lookup`: skip spaces, read `key:"value"`,
return the unquoted value of the first pair whose key is `key`.  `fuel` bounds
the number of pairs read. -/
def lookupLoop (key : List Char) : Nat → List Char → Option String
  | 0, _ => none
  | fuel + 1, tag =>
    let tag1 := tag.dropWhile (· == ' ')
    let name := tag1.takeWhile isKeyChar
    if name.isEmpty then none
    else
      match tag1.dropWhile isKeyChar with
      | ':' :: '"' :: q =>
        match scanQuoted q with
        | none => none
        | some (body, rest) =>
          if key = name then strconv.Unquote body
          else lookupLoop key fuel rest
      | _ => none

/-- Go `reflect.StructTag.Lookup`. -/
def StructTag.Lookup (tag key : String) : Option String :=
  lookupLoop key.data (tag.length + 1) tag.data

/-- Go `reflect.StructTag.Get`: the value associated with `key` in the tag,
the empty string when there is none. -/
def StructTag.Get (tag key : String) : String :=
  (StructTag.Lookup tag key).getD ""

end reflect

open reflect

/-! ## The data model of `validator.go` -/

/-- Runtime panics the program can raise. -/
inductive GoPanic where
  | indexOutOfRange (index length : Nat)
  | nilPointerDereference
  | valueError (method : String)
  deriving DecidableEq, Repr

/-- The errors built by the package: the three sentinel values and the
messages made with `errors.Errorf`. -/
inductive BaseError where
  | ErrNotStruct
  | ErrInvalidValidatorSyntax
  | ErrValidateForUnexportedFields
  | Errorf (msg : String)
  deriving DecidableEq, Repr

/-- The message of an error (`Error()`). -/
def BaseError.Error : BaseError → String
  | .ErrNotStruct => "wrong argument given, should be a struct"
  | .ErrInvalidValidatorSyntax => "invalid validator syntax"
  | .ErrValidateForUnexportedFields => "struct_validatior for unexported field is not allowed"
  | .Errorf msg => msg

/-- Go `type ValidationError struct { Err error }`. -/
structure ValidationError where
  Err : BaseError
  deriving DecidableEq, Repr

/-- Go `type ValidationErrors []ValidationError`. -/
abbrev ValidationErrors := List ValidationError

/-- Go `func (v ValidationErrors) Error() string`. -/
def ValidationErrors.Error (v : ValidationErrors) : String :=
  strings.Join (v.map (fun e => e.Err.Error)) ", "

/-- A non-nil value of the `error` interface returned by `Validate`: a bare
error, or a `ValidationErrors` aggregate. -/
inductive Error where
  | base (e : BaseError)
  | aggr (v : ValidationErrors)
  deriving DecidableEq, Repr

/-- The value of a struct field as the type switch of `validate` sees it.
`int64` and `string` are fields declared with these types; `ifaceInt64` and
`ifaceString` are fields of an interface type (whose type prints as `typ`)
holding an `int64` or a `string`; the two slice cases are fields whose value
has dynamic type `[]int64` or `[]string`; `other` is anything else. -/
inductive FieldValue where
  | int64 (n : Int)
  | string (s : String)
  | int64Slice (ns : List Int)
  | stringSlice (ss : List String)
  | ifaceInt64 (n : Int)
  | ifaceString (typ : String) (s : String)
  | other
  deriving DecidableEq, Repr

/-- The argument `val any` of `Validate`: the nil interface, a struct with its
fields in declaration order, a pointer, or a value of any other kind. -/
inductive GoAny where
  | nil
  | struct (fields : List (StructField × FieldValue))
  | pointer (elem : GoAny)
  | other (k : Kind) (notStruct : k ≠ Kind.Struct) (notPointer : k ≠ Kind.Pointer)

/-- The kind of the dynamic type of a value (`reflect.TypeOf(val).Kind()`);
the nil interface has no type. -/
def GoAny.kind : GoAny → Option Kind
  | .nil => none
  | .struct _ => some Kind.Struct
  | .pointer _ => some Kind.Pointer
  | .other k _ _ => some k

/-! ## The program -/

/-- Go `%v` of an `int`. -/
def fmtInt (i : Int) : String := toString i

/-- Go `%v` of a `[]string`: the elements separated by a blank, in brackets. -/
def fmtStrings (l : List String) : String := "[" ++ " ".intercalate l ++ "]"

/-- Indexing `params[i]`, with the runtime bounds check. -/
def index (params : List String) (i : Nat) : Except GoPanic String :=
  match params.get? i with
  | some p => .ok p
  | none => .error (.indexOutOfRange i params.length)

/-- The loop over `nums` in the `in` case of `validateInt`: `none` when an
element is not an integer (the early `return ErrInvalidValidatorSyntax`),
otherwise the final value of the flag `in`. -/
def validateInt.inLoop (num : Int) : List String → Bool → Option Bool
  | [], found => some found
  | n :: ns, found =>
    match strconv.Atoi n with
    | none => none
    | some i => validateInt.inLoop num ns (if num = i then true else found)

/-- One iteration of the loop of `validateInt` on the clause `c`:
`.ok (some e)` is `return e`, `.ok none` goes on with the next clause. -/
def validateInt.clause (f : StructField) (num : Int) (c : String) :
    Except GoPanic (Option BaseError) :=
  let params := strings.Split c ':'
  match index params 0 with
  | .error p => .error p
  | .ok p0 =>
    if p0 = "min" then
      match index params 1 with
      | .error p => .error p
      | .ok p1 =>
        match strconv.Atoi p1 with
        | none => .ok (some .ErrInvalidValidatorSyntax)
        | some min =>
          if num < min then
            .ok (some (.Errorf (f.Name ++ ": value is less than " ++ fmtInt min)))
          else .ok none
    else if p0 = "max" then
      match index params 1 with
      | .error p => .error p
      | .ok p1 =>
        match strconv.Atoi p1 with
        | none => .ok (some .ErrInvalidValidatorSyntax)
        | some max =>
          if num > max then
            .ok (some (.Errorf (f.Name ++ ": value is greater than " ++ fmtInt max)))
          else .ok none
    else if p0 = "in" then
      match index params 1 with
      | .error p => .error p
      | .ok p1 =>
        let nums := strings.Split p1 ','
        match validateInt.inLoop num nums false with
        | none => .ok (some .ErrInvalidValidatorSyntax)
        | some found =>
          if !found then
            .ok (some (.Errorf (f.Name ++ ": value is not in " ++ fmtStrings nums)))
          else .ok none
    else .ok none

/-- The loop `for _, c := range conditions` of `validateInt`. -/
def validateInt.loop (f : StructField) (num : Int) :
    List String → Except GoPanic (Option BaseError)
  | [] => .ok none
  | c :: cs =>
    match validateInt.clause f num c with
    | .error p => .error p
    | .ok (some e) => .ok (some e)
    | .ok none => validateInt.loop f num cs

/-- Go `func validateInt(f reflect.StructField, num int64) error`. -/
def validateInt (f : StructField) (num : Int) : Except GoPanic (Option BaseError) :=
  validateInt.loop f num (strings.Split (StructTag.Get f.Tag "validate") ';')

/-- The characters of the local part of the address pattern,
`[a-zA-Z0-9.!#$%&\x27*+\/=?^_\x60\x7b|\x7d~-]`. -/
def isLocalChar (c : Char) : Bool :=
  c.isAlphanum || ".!#$%&\x27*+/=?^_\x60\x7b|\x7d~-".data.contains c

/-- The characters `[a-zA-Z0-9-]` inside a domain label. -/
def isLabelChar (c : Char) : Bool :=
  c.isAlphanum || c == '-'

/-- A domain label, `[a-zA-Z0-9](?:[a-zA-Z0-9-]\x7b0,61\x7d[a-zA-Z0-9])?`:
one alphanumeric character, optionally followed by up to 61 label characters
and one closing alphanumeric character. -/
def isLabel (l : List Char) : Bool :=
  match l with
  | [] => false
  | c :: rest =>
    c.isAlphanum &&
      (rest.isEmpty ||
        (decide (rest.length ≤ 62) && rest.dropLast.all isLabelChar &&
          (rest.getLast?.map Char.isAlphanum).getD false))

/-- The anchored pattern compiled in the `email` case of `validateStr`:
`^local+@label(?:\.label)*$`.  Neither the local part nor a label can hold
`@`, and a label cannot hold `.`, so the text matches exactly when it has one
`@`, a non-empty local part of local characters before it, and after it
labels separated by dots. -/
def emailMatch (str : String) : Bool :=
  match strings.splitChars '@' str.data with
  | [loc, dom] =>
    !loc.isEmpty && loc.all isLocalChar && (strings.splitChars '.' dom).all isLabel
  | _ => false

/-- The loop over `strs` in the `in` case of `validateStr`: the final value of
the flag `in`. -/
def validateStr.inLoop (str : String) : List String → Bool → Bool
  | [], found => found
  | s :: ss, found => validateStr.inLoop str ss (if s = str then true else found)

/-- One iteration of the loop of `validateStr` on the clause `c`:
`.ok (some e)` is `return e`, `.ok none` goes on with the next clause. -/
def validateStr.clause (f : StructField) (str : String) (c : String) :
    Except GoPanic (Option BaseError) :=
  let params := strings.Split c ':'
  match index params 0 with
  | .error p => .error p
  | .ok p0 =>
    if p0 = "len" then
      match index params 1 with
      | .error p => .error p
      | .ok p1 =>
        match strconv.Atoi p1 with
        | none => .ok (some .ErrInvalidValidatorSyntax)
        | some l =>
          if l < 0 ∨ (str.utf8ByteSize : Int) ≠ l then
            .ok (some (.Errorf (f.Name ++ ": len is not equal to " ++ fmtInt l)))
          else .ok none
    else if p0 = "min" then
      match index params 1 with
      | .error p => .error p
      | .ok p1 =>
        match strconv.Atoi p1 with
        | none => .ok (some .ErrInvalidValidatorSyntax)
        | some min =>
          if (str.utf8ByteSize : Int) < min then
            .ok (some (.Errorf (f.Name ++ ": len is less than " ++ fmtInt min)))
          else .ok none
    else if p0 = "max" then
      match index params 1 with
      | .error p => .error p
      | .ok p1 =>
        match strconv.Atoi p1 with
        | none => .ok (some .ErrInvalidValidatorSyntax)
        | some max =>
          if max < 0 ∨ (str.utf8ByteSize : Int) > max then
            .ok (some (.Errorf (f.Name ++ ": len is greater than " ++ fmtInt max)))
          else .ok none
    else if p0 = "in" then
      match index params 1 with
      | .error p => .error p
      | .ok p1 =>
        let strs := strings.Split p1 ','
        if p1.utf8ByteSize = 0 then
          .ok (some (.Errorf (f.Name ++ ": value is not in empty " ++ fmtStrings strs)))
        else if !validateStr.inLoop str strs false then
          .ok (some (.Errorf (f.Name ++ ": value is not in " ++ fmtStrings strs)))
        else .ok none
    else if p0 = "email" then
      if !emailMatch str then
        .ok (some (.Errorf (f.Name ++ ": value is not email address")))
      else .ok none
    else .ok none

/-- The loop `for _, c := range conditions` of `validateStr`. -/
def validateStr.loop (f : StructField) (str : String) :
    List String → Except GoPanic (Option BaseError)
  | [] => .ok none
  | c :: cs =>
    match validateStr.clause f str c with
    | .error p => .error p
    | .ok (some e) => .ok (some e)
    | .ok none => validateStr.loop f str cs

/-- Go `func validateStr(f reflect.StructField, str string) error`. -/
def validateStr (f : StructField) (str : String) : Except GoPanic (Option BaseError) :=
  validateStr.loop f str (strings.Split (StructTag.Get f.Tag "validate") ';')

/-- The loop over the elements of a `[]int64` in `validate`. -/
def validate.intLoop (f : StructField) : List Int → Except GoPanic (Option BaseError)
  | [] => .ok none
  | n :: ns =>
    match validateInt f n with
    | .error p => .error p
    | .ok (some e) => .ok (some e)
    | .ok none => validate.intLoop f ns

/-- The loop over the elements of a `[]string` in `validate`. -/
def validate.strLoop (f : StructField) : List String → Except GoPanic (Option BaseError)
  | [] => .ok none
  | s :: ss =>
    match validateStr f s with
    | .error p => .error p
    | .ok (some e) => .ok (some e)
    | .ok none => validate.strLoop f ss

/-- Go `func validate(f reflect.StructField, v reflect.Value) error`: the type
switch on `v.Interface()`.  On a field of interface type `v.Int()` panics and
`v.String()` is the text `<typ Value>`. -/
def validate (f : StructField) (v : FieldValue) : Except GoPanic (Option BaseError) :=
  match v with
  | .int64 n => validateInt f n
  | .ifaceInt64 _ => .error (.valueError "reflect.Value.Int")
  | .string s => validateStr f s
  | .ifaceString typ _ => validateStr f ("<" ++ typ ++ " Value>")
  | .int64Slice ns => validate.intLoop f ns
  | .stringSlice ss => validate.strLoop f ss
  | .other => .ok none

/-- The loop over the fields in `Validate`, `err` being the failures appended
so far. -/
def Validate.loop : List (StructField × FieldValue) → ValidationErrors →
    Except GoPanic (Option Error)
  | [], err => if err.length = 0 then .ok none else .ok (some (.aggr err))
  | (tf, v) :: rest, err =>
    if !tf.Exported && tf.Tag != "" then
      .ok (some (.aggr (err ++ [⟨.ErrValidateForUnexportedFields⟩])))
    else if tf.Exported && tf.Tag != "" then
      match validate tf v with
      | .error p => .error p
      | .ok (some e) => Validate.loop rest (err ++ [⟨e⟩])
      | .ok none => Validate.loop rest err
    else Validate.loop rest err

/-- Go `func Validate(val any) error`. -/
def Validate (val : GoAny) : Except GoPanic (Option Error) :=
  match val with
  | .nil => .error .nilPointerDereference
  | .struct fields => Validate.loop fields []
  | _ => .ok (some (.base .ErrNotStruct))


/-! ## Notions used to state the behaviour of `Validate` -/

/-- A field the driver rejects: not exported, with a non-empty tag. -/
def hiddenTagged (fv : StructField × FieldValue) : Bool :=
  !fv.1.Exported && fv.1.Tag != ""

/-- A field the driver checks: exported, with a non-empty tag. -/
def checked (fv : StructField × FieldValue) : Bool :=
  fv.1.Exported && fv.1.Tag != ""

/-- The entry a field contributes to the aggregate: the failure returned by
its check when the field is checked and the check returns one. -/
def fieldFailure (fv : StructField × FieldValue) : Option ValidationError :=
  if checked fv then
    match validate fv.1 fv.2 with
    | .ok (some e) => some ⟨e⟩
    | _ => none
  else none

/-- The failures of the checked fields, one entry per failing field, in
field-declaration order. -/
def fieldFailures (fields : List (StructField × FieldValue)) : ValidationErrors :=
  fields.filterMap fieldFailure

/-- The fields declared before the first rejected field (all the fields when
none is rejected). -/
def beforeHidden (fields : List (StructField × FieldValue)) :
    List (StructField × FieldValue) :=
  fields.takeWhile (fun fv => !hiddenTagged fv)

/-- A failing field: a checked field whose check returns a failure. -/
def failing (fv : StructField × FieldValue) : Bool :=
  checked fv &&
    match validate fv.1 fv.2 with
    | .ok (some _) => true
    | _ => false

/-- Running a check over a list in order and stopping at the first element on
which it does not return "no failure": the common shape of the four loops of
`validateInt`, `validateStr` and `validate`. -/
def firstFailure {α : Type} (check : α → Except GoPanic (Option BaseError)) :
    List α → Except GoPanic (Option BaseError)
  | [] => .ok none
  | x :: xs =>
    match check x with
    | .error p => .error p
    | .ok (some e) => .ok (some e)
    | .ok none => firstFailure check xs

/-- The rule name of a clause, `params[0]`: the text before its first `:`. -/
def ruleName (c : String) : String :=
  ((strings.Split c ':').head?).getD ""

/-- The rule names the numeric checker has a case for. -/
def numericRules : List String := ["min", "max", "in"]

/-- The rule names the textual checker has a case for. -/
def textualRules : List String := ["len", "min", "max", "in", "email"]

/-- A failure that names its field: its message is `<name>: <rest>`. -/
def namesField (name : String) (e : BaseError) : Prop :=
  ∃ rest, e = .Errorf (name ++ ": " ++ rest)

/-- The raw argument the checkers read, `params[1]`, from the text `arg` that
follows the rule name and its `:` in a clause: the text of `arg` before its
first `:`, all of `arg` when it holds none. -/
def rawArg (arg : String) : String :=
  ((strings.Split arg ':').head?).getD ""

/-! ## The address pattern of the `email` rule -/

/-- The patterns the address pattern of `validateStr` is built from: a
character class, `ab`, `a?`, `a*`, `a+` and `a\x7b0,n\x7d`. -/
inductive Regex where
  | cls (p : Char → Bool)
  | seq (a b : Regex)
  | opt (a : Regex)
  | star (a : Regex)
  | plus (a : Regex)
  | upto (n : Nat) (a : Regex)

/-- The texts a pattern matches from their first to their last character
(the pattern between `^` and `$`). -/
inductive Regex.Matches : Regex → List Char → Prop
  | cls (p : Char → Bool) (c : Char) : p c = true → Regex.Matches (.cls p) [c]
  | seq {a b : Regex} {x y : List Char} :
      Regex.Matches a x → Regex.Matches b y → Regex.Matches (.seq a b) (x ++ y)
  | optNone {a : Regex} : Regex.Matches (.opt a) []
  | optSome {a : Regex} {x : List Char} : Regex.Matches a x → Regex.Matches (.opt a) x
  | starNil {a : Regex} : Regex.Matches (.star a) []
  | starCons {a : Regex} {x y : List Char} :
      Regex.Matches a x → Regex.Matches (.star a) y → Regex.Matches (.star a) (x ++ y)
  | plus {a : Regex} {x y : List Char} :
      Regex.Matches a x → Regex.Matches (.star a) y → Regex.Matches (.plus a) (x ++ y)
  | uptoNil {n : Nat} {a : Regex} : Regex.Matches (.upto n a) []
  | uptoCons {n : Nat} {a : Regex} {x y : List Char} :
      Regex.Matches a x → Regex.Matches (.upto n a) y → Regex.Matches (.upto (n + 1) a) (x ++ y)

/-- The label pattern `[a-zA-Z0-9](?:[a-zA-Z0-9-]\x7b0,61\x7d[a-zA-Z0-9])?`. -/
def labelPattern : Regex :=
  .seq (.cls Char.isAlphanum)
    (.opt (.seq (.upto 61 (.cls isLabelChar)) (.cls Char.isAlphanum)))

/-- The pattern of the `email` rule, between its `^` and `$`:
`local+@label(?:\.label)*`. -/
def emailPattern : Regex :=
  .seq (.plus (.cls isLocalChar))
    (.seq (.cls (· == '@'))
      (.seq labelPattern (.star (.seq (.cls (· == '.')) labelPattern))))

/-- The pieces `ps` written one after the other, each behind a separator. -/
def sepJoin (sep : Char) : List (List Char) → List Char
  | [] => []
  | p :: ps => sep :: (p ++ sepJoin sep ps)

/-! ## Auxiliary facts -/

theorem strings.splitChars_ne_nil (sep : Char) (l : List Char) :
    strings.splitChars sep l ≠ [] := by
  induction l with
  | nil => simp [strings.splitChars]
  | cons c cs ih =>
    unfold strings.splitChars
    split
    · simp
    · split <;> simp

theorem strings.splitChars_of_not_mem (sep : Char) (l : List Char) (h : sep ∉ l) :
    strings.splitChars sep l = [l] := by
  induction l with
  | nil => simp [strings.splitChars]
  | cons c cs ih =>
    have hc : c ≠ sep := fun e => h (by simp [e])
    have hcs : sep ∉ cs := fun e => h (by simp [e])
    simp [strings.splitChars, hc, ih hcs]

theorem strings.splitChars_append (sep : Char) (a b : List Char) (h : sep ∉ a) :
    strings.splitChars sep (a ++ sep :: b) = a :: strings.splitChars sep b := by
  induction a with
  | nil => simp [strings.splitChars]
  | cons c cs ih =>
    have hc : c ≠ sep := fun e => h (by simp [e])
    have hcs : sep ∉ cs := fun e => h (by simp [e])
    simp [strings.splitChars, hc, ih hcs]

theorem strings.Split_of_not_mem (sep : Char) (s : String) (h : sep ∉ s.data) :
    strings.Split s sep = [s] := by
  simp [strings.Split, strings.splitChars_of_not_mem sep s.data h]

theorem strings.Split_append (sep : Char) (a b : String) (h : sep ∉ a.data) :
    strings.Split (a ++ String.singleton sep ++ b) sep = a :: strings.Split b sep := by
  simp [strings.Split, String.singleton, strings.splitChars_append sep a.data b.data h]


theorem strconv.digitVal_digitChar (m : Nat) (h : m < 10) :
    strconv.digitVal (Nat.digitChar m) = some m := by
  interval_cases m <;> rfl

theorem strconv.parseDigits_append (l r : List Char) (acc : Nat) :
    strconv.parseDigits (l ++ r) acc = (strconv.parseDigits l acc).bind (strconv.parseDigits r) := by
  induction l generalizing acc with
  | nil => rfl
  | cons c cs ih =>
    simp only [List.cons_append, strconv.parseDigits]
    cases strconv.digitVal c with
    | none => rfl
    | some d => exact ih _

theorem strconv.toDigitsCore_spec (fuel n : Nat) (ds : List Char) (h : n < fuel) :
    ∃ l, Nat.toDigitsCore 10 fuel n ds = l ++ ds ∧
      (∀ acc, strconv.parseDigits l acc = some (acc * 10 ^ l.length + n)) ∧
      (∃ c r, l = c :: r ∧ strconv.digitVal c ≠ none) := by
  induction fuel generalizing n ds with
  | zero => omega
  | succ fuel ih =>
    unfold Nat.toDigitsCore
    by_cases h0 : n / 10 = 0
    · have hn : n < 10 := by omega
      have hmod : n % 10 = n := Nat.mod_eq_of_lt hn
      refine ⟨[Nat.digitChar n], ?_, ?_, ?_⟩
      · simp [h0, hmod]
      · intro acc
        simp [strconv.parseDigits, strconv.digitVal_digitChar n hn]
      · exact ⟨_, _, rfl, by rw [strconv.digitVal_digitChar n hn]; simp⟩
    · have hlt : n / 10 < fuel := by omega
      obtain ⟨l, hl, hparse, c, r, hc, hd⟩ := ih (n / 10) (Nat.digitChar (n % 10) :: ds) hlt
      refine ⟨l ++ [Nat.digitChar (n % 10)], ?_, ?_, ?_⟩
      · simp [h0, hl]
      · intro acc
        have hm : n % 10 < 10 := Nat.mod_lt _ (by decide)
        rw [strconv.parseDigits_append, hparse acc]
        simp only [Option.some_bind, strconv.parseDigits, strconv.digitVal_digitChar _ hm,
          List.length_append, List.length_singleton]
        congr 1
        have := Nat.div_add_mod n 10
        rw [pow_succ]
        nlinarith [this]
      · exact ⟨c, r ++ [Nat.digitChar (n % 10)], by simp [hc], hd⟩

theorem strconv.Atoi_digits (c : Char) (r : List Char)
    (hc : strconv.digitVal c ≠ none) :
    strconv.Atoi (String.mk (c :: r)) = strconv.atoiDigits false (c :: r) := by
  have h1 : c ≠ '-' := by
    intro h; subst h; exact hc (by decide)
  have h2 : c ≠ '+' := by
    intro h; subst h; exact hc (by decide)
  unfold strconv.Atoi
  split
  · rename_i heq
    simp only [List.cons.injEq] at heq
    exact absurd heq.1 h1
  · rename_i heq
    simp only [List.cons.injEq] at heq
    exact absurd heq.1 h2
  · rfl

theorem strconv.toDigits_spec (n : Nat) :
    ∃ c r, Nat.toDigits 10 n = c :: r ∧ strconv.digitVal c ≠ none ∧
      strconv.parseDigits (c :: r) 0 = some n := by
  obtain ⟨l, hl, hparse, c, r, hc, hd⟩ := strconv.toDigitsCore_spec (n + 1) n [] (by omega)
  refine ⟨c, r, ?_, hd, ?_⟩
  · rw [Nat.toDigits, hl, hc]; simp
  · rw [← hc, hparse 0]; simp

/-- The decimal text of an `int` value is read back by `strconv.Atoi`: every
integer of the `int` range is the bound of some rule argument. -/
theorem strconv.Atoi_fmtInt (n : Int)
    (hlo : -9223372036854775808 ≤ n) (hhi : n < 9223372036854775808) :
    strconv.Atoi (fmtInt n) = some n := by
  cases n with
  | ofNat m =>
    obtain ⟨c, r, hd, hc, hp⟩ := strconv.toDigits_spec m
    have hs : fmtInt (Int.ofNat m) = String.mk (c :: r) := by
      show (Nat.toDigits 10 m).asString = _
      rw [hd]; rfl
    have hm : m < 9223372036854775808 := by
      have : (m : Int) < 9223372036854775808 := hhi
      omega
    rw [hs, strconv.Atoi_digits c r hc]
    simp [strconv.atoiDigits, hp, hm]
  | negSucc m =>
    obtain ⟨c, r, hd, hc, hp⟩ := strconv.toDigits_spec (m + 1)
    have hs : fmtInt (Int.negSucc m) = String.mk ('-' :: c :: r) := by
      show "-" ++ (Nat.toDigits 10 (m + 1)).asString = _
      rw [hd]; rfl
    have hm : m + 1 ≤ 9223372036854775808 := by
      have : -9223372036854775808 ≤ Int.negSucc m := hlo
      rw [Int.negSucc_eq] at this
      omega
    rw [hs]
    have ha : strconv.Atoi (String.mk ('-' :: c :: r)) = strconv.atoiDigits true (c :: r) := rfl
    rw [ha]
    simp [strconv.atoiDigits, hp, hm, Int.negSucc_eq]

theorem strconv.parseDigits_digits (l : List Char) (acc n : Nat)
    (h : strconv.parseDigits l acc = some n) : ∀ c ∈ l, strconv.digitVal c ≠ none := by
  induction l generalizing acc with
  | nil => simp
  | cons d ds ih =>
    unfold strconv.parseDigits at h
    cases hd : strconv.digitVal d with
    | none => rw [hd] at h; cases h
    | some x =>
      rw [hd] at h
      intro c hc
      rcases List.mem_cons.mp hc with rfl | hmem
      · rw [hd]; simp
      · exact ih _ h c hmem

theorem strconv.atoiDigits_digits (neg : Bool) (ds : List Char) (b : Int)
    (h : strconv.atoiDigits neg ds = some b) : ∀ c ∈ ds, strconv.digitVal c ≠ none := by
  unfold strconv.atoiDigits at h
  split at h
  · cases h
  · cases hp : strconv.parseDigits ds 0 with
    | none => rw [hp] at h; cases h
    | some n => exact strconv.parseDigits_digits ds 0 n hp

/-- A text accepted by `strconv.Atoi` holds none of the separators `:`, `;`
and `,`. -/
theorem strconv.Atoi_no_separator (B : String) (b : Int) (h : strconv.Atoi B = some b) :
    ':' ∉ B.data ∧ ';' ∉ B.data ∧ ',' ∉ B.data := by
  have key : ∀ c ∈ B.data, c = '-' ∨ c = '+' ∨ strconv.digitVal c ≠ none := by
    unfold strconv.Atoi at h
    split at h
    · rename_i r heq
      intro c hc
      rw [heq] at hc
      rcases List.mem_cons.mp hc with rfl | hmem
      · exact Or.inl rfl
      · exact Or.inr (Or.inr (strconv.atoiDigits_digits _ r b h c hmem))
    · rename_i r heq
      intro c hc
      rw [heq] at hc
      rcases List.mem_cons.mp hc with rfl | hmem
      · exact Or.inr (Or.inl rfl)
      · exact Or.inr (Or.inr (strconv.atoiDigits_digits _ r b h c hmem))
    · intro c hc
      exact Or.inr (Or.inr (strconv.atoiDigits_digits _ _ b h c hc))
  refine ⟨?_, ?_, ?_⟩ <;>
  · intro hmem
    rcases key _ hmem with h1 | h1 | h1
    · exact absurd h1 (by decide)
    · exact absurd h1 (by decide)
    · exact h1 (by decide)

theorem strings.Split_rule (name B : String) (hn : ':' ∉ name.data) (hB : ':' ∉ B.data) :
    strings.Split (name ++ ":" ++ B) ':' = [name, B] := by
  have h := strings.Split_append ':' name B hn
  simpa [strings.Split_of_not_mem ':' B hB] using h

theorem validateInt_loop_single (f : StructField) (v : Int) (c : String) :
    validateInt.loop f v [c] = validateInt.clause f v c := by
  simp only [validateInt.loop]
  cases h : validateInt.clause f v c with
  | error p => rfl
  | ok r => cases r <;> rfl

theorem validateStr_loop_single (f : StructField) (s : String) (c : String) :
    validateStr.loop f s [c] = validateStr.clause f s c := by
  simp only [validateStr.loop]
  cases h : validateStr.clause f s c with
  | error p => rfl
  | ok r => cases r <;> rfl

theorem validateInt_single (f : StructField) (v : Int) (c : String)
    (hc : StructTag.Get f.Tag "validate" = c) (hsemi : ';' ∉ c.data) :
    validateInt f v = validateInt.clause f v c := by
  simp [validateInt, hc, strings.Split_of_not_mem ';' c hsemi, validateInt_loop_single]

theorem validateStr_single (f : StructField) (s : String) (c : String)
    (hc : StructTag.Get f.Tag "validate" = c) (hsemi : ';' ∉ c.data) :
    validateStr f s = validateStr.clause f s c := by
  simp [validateStr, hc, strings.Split_of_not_mem ';' c hsemi, validateStr_loop_single]

theorem validateInt_clause_min (f : StructField) (v : Int) (B : String) (hB : ':' ∉ B.data) :
    validateInt.clause f v ("min:" ++ B) =
      match strconv.Atoi B with
      | none => .ok (some .ErrInvalidValidatorSyntax)
      | some b =>
        if v < b then .ok (some (.Errorf (f.Name ++ ": value is less than " ++ fmtInt b)))
        else .ok none := by
  have hs : strings.Split ("min:" ++ B) ':' = ["min", B] :=
    strings.Split_rule "min" B (by decide) hB
  simp [validateInt.clause, hs, index]

theorem validateInt_clause_max (f : StructField) (v : Int) (B : String) (hB : ':' ∉ B.data) :
    validateInt.clause f v ("max:" ++ B) =
      match strconv.Atoi B with
      | none => .ok (some .ErrInvalidValidatorSyntax)
      | some b =>
        if v > b then .ok (some (.Errorf (f.Name ++ ": value is greater than " ++ fmtInt b)))
        else .ok none := by
  have hs : strings.Split ("max:" ++ B) ':' = ["max", B] :=
    strings.Split_rule "max" B (by decide) hB
  simp [validateInt.clause, hs, index]


theorem validateStr_clause_len (f : StructField) (s : String) (B : String) (hB : ':' ∉ B.data) :
    validateStr.clause f s ("len:" ++ B) =
      match strconv.Atoi B with
      | none => .ok (some .ErrInvalidValidatorSyntax)
      | some l =>
        if l < 0 ∨ (s.utf8ByteSize : Int) ≠ l then
          .ok (some (.Errorf (f.Name ++ ": len is not equal to " ++ fmtInt l)))
        else .ok none := by
  have hs : strings.Split ("len:" ++ B) ':' = ["len", B] :=
    strings.Split_rule "len" B (by decide) hB
  simp [validateStr.clause, hs, index]

theorem validateStr_clause_min (f : StructField) (s : String) (B : String) (hB : ':' ∉ B.data) :
    validateStr.clause f s ("min:" ++ B) =
      match strconv.Atoi B with
      | none => .ok (some .ErrInvalidValidatorSyntax)
      | some b =>
        if (s.utf8ByteSize : Int) < b then
          .ok (some (.Errorf (f.Name ++ ": len is less than " ++ fmtInt b)))
        else .ok none := by
  have hs : strings.Split ("min:" ++ B) ':' = ["min", B] :=
    strings.Split_rule "min" B (by decide) hB
  simp [validateStr.clause, hs, index]

theorem validateStr_clause_max (f : StructField) (s : String) (B : String) (hB : ':' ∉ B.data) :
    validateStr.clause f s ("max:" ++ B) =
      match strconv.Atoi B with
      | none => .ok (some .ErrInvalidValidatorSyntax)
      | some b =>
        if b < 0 ∨ (s.utf8ByteSize : Int) > b then
          .ok (some (.Errorf (f.Name ++ ": len is greater than " ++ fmtInt b)))
        else .ok none := by
  have hs : strings.Split ("max:" ++ B) ':' = ["max", B] :=
    strings.Split_rule "max" B (by decide) hB
  simp [validateStr.clause, hs, index]

theorem utf8ByteSize_eq_zero_iff (s : String) : s.utf8ByteSize = 0 ↔ s = "" := by
  constructor
  · intro h
    cases s with
    | mk l =>
      cases l with
      | nil => rfl
      | cons c cs =>
        have hc : 0 < c.utf8Size := Char.utf8Size_pos c
        simp [String.utf8ByteSize, String.utf8ByteSize.go] at h
        omega
  · intro h
    subst h
    rfl

theorem strconv.rune_toNat (c : Char) : strconv.rune c.toNat = some c := by
  unfold strconv.rune
  have h : c.toNat.isValidChar := c.valid
  rw [dif_pos h]
  rfl

theorem strconv.isCont_low (k : Nat) (h : k < 64) : strconv.isCont (128 + k) = true := by
  simp only [strconv.isCont, Bool.and_eq_true, decide_eq_true_eq]
  omega

theorem strconv.decodeRune_encode (c : Char) (rest : List Nat) :
    strconv.decodeRune (strconv.utf8Encode c ++ rest) = some (c, rest) := by
  have hv : c.toNat.isValidChar := c.valid
  have hr := strconv.rune_toNat c
  unfold Nat.isValidChar at hv
  unfold strconv.utf8Encode
  generalize c.toNat = n at hv hr
  by_cases h1 : n < 128
  · simp [h1, strconv.decodeRune, hr]
  · by_cases h2 : n < 2048
    · have e : (192 + n / 64 - 192) * 64 + (128 + n % 64 - 128) = n := by omega
      have c1 : ¬ (192 + n / 64 < 128) := by omega
      have c2 : ¬ (192 + n / 64 < 192) := by omega
      have c3 : 192 + n / 64 < 224 := by omega
      have c4 : strconv.isCont (128 + n % 64) = true := strconv.isCont_low _ (by omega)
      have c5 : 128 ≤ n := by omega
      have e2 : n / 64 * 64 + n % 64 = n := by omega
      simp [h1, h2, strconv.decodeRune, c1, c2, c3, c4, e2, hr, c5]
    · by_cases h3 : n < 65536
      · have e : (224 + n / 4096 - 224) * 4096 + (128 + n / 64 % 64 - 128) * 64 +
            (128 + n % 64 - 128) = n := by omega
        have c1 : ¬ (224 + n / 4096 < 128) := by omega
        have c2 : ¬ (224 + n / 4096 < 192) := by omega
        have c3 : ¬ (224 + n / 4096 < 224) := by omega
        have c4 : 224 + n / 4096 < 240 := by omega
        have c5 : strconv.isCont (128 + n / 64 % 64) = true := strconv.isCont_low _ (by omega)
        have c6 : strconv.isCont (128 + n % 64) = true := strconv.isCont_low _ (by omega)
        have c7 : 2048 ≤ n := by omega
        have e2 : n / 4096 * 4096 + n / 64 % 64 * 64 + n % 64 = n := by omega
        simp [h1, h2, h3, strconv.decodeRune, c1, c2, c3, c4, c5, c6, e2, hr, c7]
      · have e : (240 + n / 262144 - 240) * 262144 + (128 + n / 4096 % 64 - 128) * 4096 +
            (128 + n / 64 % 64 - 128) * 64 + (128 + n % 64 - 128) = n := by omega
        have c1 : ¬ (240 + n / 262144 < 128) := by omega
        have c2 : ¬ (240 + n / 262144 < 192) := by omega
        have c3 : ¬ (240 + n / 262144 < 224) := by omega
        have c4 : ¬ (240 + n / 262144 < 240) := by omega
        have c5 : 240 + n / 262144 < 248 := by omega
        have c6 : strconv.isCont (128 + n / 4096 % 64) = true := strconv.isCont_low _ (by omega)
        have c7 : strconv.isCont (128 + n / 64 % 64) = true := strconv.isCont_low _ (by omega)
        have c8 : strconv.isCont (128 + n % 64) = true := strconv.isCont_low _ (by omega)
        have c9 : 65536 ≤ n := by omega
        have e2 : n / 262144 * 262144 + n / 4096 % 64 * 4096 + n / 64 % 64 * 64 + n % 64 = n := by
          omega
        simp [h1, h2, h3, strconv.decodeRune, c1, c2, c3, c4, c5, c6, c7, c8, e2, hr, c9]

theorem strconv.utf8Encode_ne_nil (c : Char) : strconv.utf8Encode c ≠ [] := by
  unfold strconv.utf8Encode
  split
  · simp
  · split
    · simp
    · split <;> simp

theorem strconv.utf8DecodeLoop_encode (l : List Char) (fuel : Nat) (h : l.length ≤ fuel) :
    strconv.utf8DecodeLoop fuel (l.flatMap strconv.utf8Encode) = l := by
  induction l generalizing fuel with
  | nil => cases fuel <;> rfl
  | cons c cs ih =>
    cases fuel with
    | zero => simp at h
    | succ k =>
      have hk : cs.length ≤ k := by simpa using h
      simp only [List.flatMap_cons]
      cases he : strconv.utf8Encode c with
      | nil => exact absurd he (strconv.utf8Encode_ne_nil c)
      | cons b bs =>
        have hd := strconv.decodeRune_encode c (cs.flatMap strconv.utf8Encode)
        rw [he] at hd
        simp only [List.cons_append] at hd ⊢
        rw [strconv.utf8DecodeLoop, hd]
        simp only []
        rw [ih k hk]

theorem strconv.length_le_flatMap_encode (l : List Char) : l.length ≤ (l.flatMap strconv.utf8Encode).length := by
  induction l with
  | nil => simp
  | cons c cs ih =>
    have h1 : 0 < (strconv.utf8Encode c).length := List.length_pos.mpr (strconv.utf8Encode_ne_nil c)
    simp only [List.flatMap_cons, List.length_append, List.length_cons]
    omega

/-- Decoding the UTF-8 encoding of a text gives the text back. -/
theorem strconv.utf8Decode_encode (l : List Char) : strconv.utf8Decode (l.flatMap strconv.utf8Encode) = l :=
  strconv.utf8DecodeLoop_encode l _ (strconv.length_le_flatMap_encode l)


set_option maxRecDepth 8000 in
theorem strconv.decodeRune_length (l : List Nat) (c : Char) (rest : List Nat)
    (h : strconv.decodeRune l = some (c, rest)) : rest.length < l.length := by
  rcases l with _ | ⟨b0, _ | ⟨b1, _ | ⟨b2, _ | ⟨b3, r3⟩⟩⟩⟩ <;>
    simp only [strconv.decodeRune] at h <;>
    (try split_ifs at h) <;>
    first
      | cases h
      | (simp only [Option.map_eq_some', Prod.mk.injEq] at h
         obtain ⟨_, _, _, rfl⟩ := h
         simp only [List.length_cons]
         omega)

/-- The fuel of `utf8Decode` is enough: every step consumes at least one byte,
so the decoding does not depend on the fuel once it reaches the length. -/
theorem strconv.utf8DecodeLoop_fuel (n : Nat) : ∀ (bs : List Nat) (fuel : Nat),
    bs.length ≤ n → bs.length ≤ fuel → strconv.utf8DecodeLoop fuel bs = strconv.utf8DecodeLoop bs.length bs := by
  induction n with
  | zero =>
    intro bs fuel hn _
    have : bs = [] := List.length_eq_zero.mp (by omega)
    subst this
    cases fuel <;> rfl
  | succ n ih =>
    intro bs fuel hn hf
    cases bs with
    | nil => cases fuel <;> rfl
    | cons b r =>
      cases fuel with
      | zero => simp at hf
      | succ fuel =>
        simp only [List.length_cons] at hn hf ⊢
        unfold strconv.utf8DecodeLoop
        cases hd : strconv.decodeRune (b :: r) with
        | none =>
          simp only
          rw [ih r fuel (by omega) (by omega)]
        | some p =>
          obtain ⟨c, rest⟩ := p
          simp only
          have hl := strconv.decodeRune_length _ _ _ hd
          simp only [List.length_cons] at hl
          rw [ih rest fuel (by omega) (by omega), ih rest r.length (by omega) (by omega)]

/-- One step of `utf8Decode`, free of fuel. -/
theorem strconv.utf8Decode_cons (b : Nat) (bs : List Nat) :
    strconv.utf8Decode (b :: bs) =
      match strconv.decodeRune (b :: bs) with
      | none => Char.ofNat 65533 :: strconv.utf8Decode bs
      | some (c, rest) => c :: strconv.utf8Decode rest := by
  unfold strconv.utf8Decode
  simp only [List.length_cons]
  rw [strconv.utf8DecodeLoop]
  cases hd : strconv.decodeRune (b :: bs) with
  | none => rfl
  | some p =>
    obtain ⟨c, rest⟩ := p
    simp only
    have hl := strconv.decodeRune_length _ _ _ hd
    simp only [List.length_cons] at hl
    rw [strconv.utf8DecodeLoop_fuel bs.length rest bs.length (by omega) (by omega)]

/-- The decoding of `Unquote` is exact on texts: when the bytes the escapes of
`body` stand for are the UTF-8 encoding of a text, `Unquote` returns that
text. -/
theorem strconv.Unquote_text (body l : List Char)
    (hesc : body.contains '\\' = true ∨ body.contains (Char.ofNat 10) = true)
    (h : strconv.unquoteBytes body = some (l.flatMap strconv.utf8Encode)) :
    strconv.Unquote body = some (String.mk l) := by
  unfold strconv.Unquote
  have hc : (!body.contains '\\' && !body.contains (Char.ofNat 10)) = false := by
    rcases hesc with h1 | h1 <;> rw [h1] <;> simp
  rw [hc, h]
  simp [strconv.utf8Decode_encode]

theorem strings.Split_cons_colon (name B : String) (hn : ':' ∉ name.data) :
    strings.Split (name ++ ":" ++ B) ':' = name :: strings.Split B ':' :=
  strings.Split_append ':' name B hn

theorem rawArg_of_not_mem (B : String) (h : ':' ∉ B.data) : rawArg B = B := by
  simp [rawArg, strings.Split_of_not_mem ':' B h]

/-- The raw argument `rawArg B` is what the checkers read as `params[1]` in
the clause `name:B`. -/
theorem index_name_arg (name B : String) (hn : ':' ∉ name.data) :
    index (strings.Split (name ++ ":" ++ B) ':') 0 = .ok name ∧
    index (strings.Split (name ++ ":" ++ B) ':') 1 = .ok (rawArg B) := by
  rw [strings.Split_cons_colon name B hn]
  unfold rawArg strings.Split
  cases h : strings.splitChars ':' B.data with
  | nil => exact absurd h (strings.splitChars_ne_nil ':' B.data)
  | cons x xs => simp [index]

theorem validateInt_clause_min_raw (f : StructField) (v : Int) (B : String) :
    validateInt.clause f v ("min:" ++ B) =
      match strconv.Atoi (rawArg B) with
      | none => .ok (some .ErrInvalidValidatorSyntax)
      | some b =>
        if v < b then .ok (some (.Errorf (f.Name ++ ": value is less than " ++ fmtInt b)))
        else .ok none := by
  have h : index (strings.Split ("min:" ++ B) ':') 0 = .ok "min" ∧
      index (strings.Split ("min:" ++ B) ':') 1 = .ok (rawArg B) :=
    index_name_arg "min" B (by decide)
  simp [validateInt.clause, h.1, h.2]

theorem validateInt_clause_max_raw (f : StructField) (v : Int) (B : String) :
    validateInt.clause f v ("max:" ++ B) =
      match strconv.Atoi (rawArg B) with
      | none => .ok (some .ErrInvalidValidatorSyntax)
      | some b =>
        if v > b then .ok (some (.Errorf (f.Name ++ ": value is greater than " ++ fmtInt b)))
        else .ok none := by
  have h : index (strings.Split ("max:" ++ B) ':') 0 = .ok "max" ∧
      index (strings.Split ("max:" ++ B) ':') 1 = .ok (rawArg B) :=
    index_name_arg "max" B (by decide)
  simp [validateInt.clause, h.1, h.2]

theorem validateInt_clause_in_raw (f : StructField) (v : Int) (L : String) :
    validateInt.clause f v ("in:" ++ L) =
      match validateInt.inLoop v (strings.Split (rawArg L) ',') false with
      | none => .ok (some .ErrInvalidValidatorSyntax)
      | some found =>
        if !found then
          .ok (some (.Errorf
            (f.Name ++ ": value is not in " ++ fmtStrings (strings.Split (rawArg L) ','))))
        else .ok none := by
  have h : index (strings.Split ("in:" ++ L) ':') 0 = .ok "in" ∧
      index (strings.Split ("in:" ++ L) ':') 1 = .ok (rawArg L) :=
    index_name_arg "in" L (by decide)
  simp [validateInt.clause, h.1, h.2]

theorem validateStr_clause_len_raw (f : StructField) (s : String) (B : String) :
    validateStr.clause f s ("len:" ++ B) =
      match strconv.Atoi (rawArg B) with
      | none => .ok (some .ErrInvalidValidatorSyntax)
      | some l =>
        if l < 0 ∨ (s.utf8ByteSize : Int) ≠ l then
          .ok (some (.Errorf (f.Name ++ ": len is not equal to " ++ fmtInt l)))
        else .ok none := by
  have h : index (strings.Split ("len:" ++ B) ':') 0 = .ok "len" ∧
      index (strings.Split ("len:" ++ B) ':') 1 = .ok (rawArg B) :=
    index_name_arg "len" B (by decide)
  simp [validateStr.clause, h.1, h.2]

theorem validateStr_clause_min_raw (f : StructField) (s : String) (B : String) :
    validateStr.clause f s ("min:" ++ B) =
      match strconv.Atoi (rawArg B) with
      | none => .ok (some .ErrInvalidValidatorSyntax)
      | some b =>
        if (s.utf8ByteSize : Int) < b then
          .ok (some (.Errorf (f.Name ++ ": len is less than " ++ fmtInt b)))
        else .ok none := by
  have h : index (strings.Split ("min:" ++ B) ':') 0 = .ok "min" ∧
      index (strings.Split ("min:" ++ B) ':') 1 = .ok (rawArg B) :=
    index_name_arg "min" B (by decide)
  simp [validateStr.clause, h.1, h.2]

theorem validateStr_clause_max_raw (f : StructField) (s : String) (B : String) :
    validateStr.clause f s ("max:" ++ B) =
      match strconv.Atoi (rawArg B) with
      | none => .ok (some .ErrInvalidValidatorSyntax)
      | some b =>
        if b < 0 ∨ (s.utf8ByteSize : Int) > b then
          .ok (some (.Errorf (f.Name ++ ": len is greater than " ++ fmtInt b)))
        else .ok none := by
  have h : index (strings.Split ("max:" ++ B) ':') 0 = .ok "max" ∧
      index (strings.Split ("max:" ++ B) ':') 1 = .ok (rawArg B) :=
    index_name_arg "max" B (by decide)
  simp [validateStr.clause, h.1, h.2]

theorem validateStr_clause_in_raw (f : StructField) (s : String) (L : String) :
    validateStr.clause f s ("in:" ++ L) =
      if (rawArg L).utf8ByteSize = 0 then
        .ok (some (.Errorf
          (f.Name ++ ": value is not in empty " ++ fmtStrings (strings.Split (rawArg L) ','))))
      else if !validateStr.inLoop s (strings.Split (rawArg L) ',') false then
        .ok (some (.Errorf
          (f.Name ++ ": value is not in " ++ fmtStrings (strings.Split (rawArg L) ','))))
      else .ok none := by
  have h : index (strings.Split ("in:" ++ L) ':') 0 = .ok "in" ∧
      index (strings.Split ("in:" ++ L) ':') 1 = .ok (rawArg L) :=
    index_name_arg "in" L (by decide)
  simp [validateStr.clause, h.1, h.2]

/-! ## Numeric checker: `min` and `max` -/

/-- C6 (as the code has it): numeric checker on a single clause `min:B` (field
`fmin`) or `max:B` (field `fmax`) and a value `v`.  The bound the checker reads,
`params[1]`, is `rawArg B`: the text of `B` before its first `:`, which is `B`
itself when `B` holds no `:`, as is the case of every integer text.  For `B`
holding no `;` (a single clause): if `rawArg B` is not an integer for
`strconv.Atoi` the result is `ErrInvalidValidatorSyntax` whatever `v` is; if it
is the integer `b`, `min:B` fails exactly when `v < b` and `max:B` exactly when
`v > b`, so `v = b` passes both, `v = b - 1` fails `min:B` and `v = b + 1` fails
`max:B`, for negative bounds as for the others. -/
theorem C6_validateInt_min_max (fmin fmax : StructField) (v : Int) (B : String)
    (hmin : StructTag.Get fmin.Tag "validate" = "min:" ++ B)
    (hmax : StructTag.Get fmax.Tag "validate" = "max:" ++ B) :
    index (strings.Split ("min:" ++ B) ':') 1 = .ok (rawArg B) ∧
    index (strings.Split ("max:" ++ B) ':') 1 = .ok (rawArg B) ∧
    (':' ∉ B.data → rawArg B = B) ∧
    (∀ b : Int, strconv.Atoi B = some b → ';' ∉ B.data ∧ rawArg B = B) ∧
    (';' ∉ B.data →
      (strconv.Atoi (rawArg B) = none →
        validateInt fmin v = .ok (some .ErrInvalidValidatorSyntax) ∧
        validateInt fmax v = .ok (some .ErrInvalidValidatorSyntax)) ∧
      (∀ b : Int, strconv.Atoi (rawArg B) = some b →
        (validateInt fmin v =
          if v < b then .ok (some (.Errorf (fmin.Name ++ ": value is less than " ++ fmtInt b)))
          else .ok none) ∧
        (validateInt fmax v =
          if v > b then
            .ok (some (.Errorf (fmax.Name ++ ": value is greater than " ++ fmtInt b)))
          else .ok none) ∧
        ((∃ e, validateInt fmin v = .ok (some e)) ↔ v < b) ∧
        ((∃ e, validateInt fmax v = .ok (some e)) ↔ v > b) ∧
        (v = b → validateInt fmin v = .ok none ∧ validateInt fmax v = .ok none) ∧
        (v = b - 1 → ∃ e, validateInt fmin v = .ok (some e)) ∧
        (v = b + 1 → ∃ e, validateInt fmax v = .ok (some e)))) := by
  refine ⟨(index_name_arg "min" B (by decide)).2, (index_name_arg "max" B (by decide)).2,
    rawArg_of_not_mem B, ?_, ?_⟩
  · intro b hB
    obtain ⟨hcolon, hsemi, _⟩ := strconv.Atoi_no_separator B b hB
    exact ⟨hsemi, rawArg_of_not_mem B hcolon⟩
  · intro hsemi
    have hsmin : ';' ∉ ("min:" ++ B).data := by simpa using hsemi
    have hsmax : ';' ∉ ("max:" ++ B).data := by simpa using hsemi
    have emin := validateInt_single fmin v _ hmin hsmin
    have emax := validateInt_single fmax v _ hmax hsmax
    rw [validateInt_clause_min_raw fmin v B] at emin
    rw [validateInt_clause_max_raw fmax v B] at emax
    refine ⟨?_, ?_⟩
    · intro hB
      rw [hB] at emin emax
      exact ⟨emin, emax⟩
    · intro b hB
      rw [hB] at emin emax
      simp only at emin emax
      refine ⟨emin, emax, ?_, ?_, ?_, ?_, ?_⟩
      · rw [emin]; split <;> simp [*]
      · rw [emax]; split <;> simp [*]
      · intro hv
        subst hv
        simp [emin, emax]
      · intro hv
        have : v < b := by omega
        simp [emin, this]
      · intro hv
        have : v > b := by omega
        simp [emax, this]

/-- Witness of C6 on the bound `-10` (`v = -10` passes `min:-10` and `max:-10`,
`v = -11` fails `min:-10`, `v = -9` fails `max:-10`), on the bound written `5-`
and on the argument `1:2`, whose bound is `1`. -/
theorem C6_validateInt_min_max_witness :
    validateInt ⟨"MinIntNeg", true, "validate:\"min:-10\""⟩ (-10) = .ok none ∧
    validateInt ⟨"MaxIntNeg", true, "validate:\"max:-10\""⟩ (-10) = .ok none ∧
    validateInt ⟨"MinIntNeg", true, "validate:\"min:-10\""⟩ (-11) =
      .ok (some (.Errorf "MinIntNeg: value is less than -10")) ∧
    validateInt ⟨"MaxIntNeg", true, "validate:\"max:-10\""⟩ (-9) =
      .ok (some (.Errorf "MaxIntNeg: value is greater than -10")) ∧
    validateInt ⟨"MinC", true, "validate:\"min:5-\""⟩ 12 = .ok (some .ErrInvalidValidatorSyntax) ∧
    validateInt ⟨"MinE", true, "validate:\"min:1:2\""⟩ 0 =
      .ok (some (.Errorf "MinE: value is less than 1")) ∧
    validateInt ⟨"MinE", true, "validate:\"min:x:2\""⟩ 0 =
      .ok (some .ErrInvalidValidatorSyntax) :=
  ⟨(((C6_validateInt_min_max ⟨"MinIntNeg", true, "validate:\"min:-10\""⟩
      ⟨"MaxIntNeg", true, "validate:\"max:-10\""⟩ (-10) "-10" rfl rfl).2.2.2.2
      (by decide)).2 (-10) rfl).2.2.2.2.1 rfl |>.1,
    (((C6_validateInt_min_max ⟨"MinIntNeg", true, "validate:\"min:-10\""⟩
      ⟨"MaxIntNeg", true, "validate:\"max:-10\""⟩ (-10) "-10" rfl rfl).2.2.2.2
      (by decide)).2 (-10) rfl).2.2.2.2.1 rfl |>.2,
    (((C6_validateInt_min_max ⟨"MinIntNeg", true, "validate:\"min:-10\""⟩
      ⟨"MaxIntNeg", true, "validate:\"max:-10\""⟩ (-11) "-10" rfl rfl).2.2.2.2
      (by decide)).2 (-10) rfl).1,
    (((C6_validateInt_min_max ⟨"MinIntNeg", true, "validate:\"min:-10\""⟩
      ⟨"MaxIntNeg", true, "validate:\"max:-10\""⟩ (-9) "-10" rfl rfl).2.2.2.2
      (by decide)).2 (-10) rfl).2.1,
    (((C6_validateInt_min_max ⟨"MinC", true, "validate:\"min:5-\""⟩
      ⟨"MaxD", true, "validate:\"max:5-\""⟩ 12 "5-" rfl rfl).2.2.2.2
      (by decide)).1 rfl).1,
    (((C6_validateInt_min_max ⟨"MinE", true, "validate:\"min:1:2\""⟩
      ⟨"MaxE", true, "validate:\"max:1:2\""⟩ 0 "1:2" rfl rfl).2.2.2.2
      (by decide)).2 1 rfl).1,
    (((C6_validateInt_min_max ⟨"MinE", true, "validate:\"min:x:2\""⟩
      ⟨"MaxE", true, "validate:\"max:x:2\""⟩ 0 "x:2" rfl rfl).2.2.2.2
      (by decide)).1 rfl).1⟩

/-- Counterexample to C6 as stated: `1:2` is not an integer for
`strconv.Atoi`, yet on the single clause `min:1:2` the value 5 passes, and on
`max:1:2` the value 0 passes: the bound read is `1`.  So a bound `B` that is
not an integer does not always give `ErrInvalidValidatorSyntax`. -/
theorem C6_counterexample :
    StructTag.Get "validate:\"min:1:2\"" "validate" = "min:" ++ "1:2" ∧
    ';' ∉ ("1:2" : String).data ∧
    strconv.Atoi "1:2" = none ∧
    validateInt ⟨"N", true, "validate:\"min:1:2\""⟩ 5 = .ok none ∧
    validateInt ⟨"N", true, "validate:\"max:1:2\""⟩ 0 = .ok none ∧
    ¬ (∀ (f : StructField) (v : Int) (B : String),
        StructTag.Get f.Tag "validate" = "min:" ++ B → ';' ∉ B.data →
        strconv.Atoi B = none → validateInt f v = .ok (some .ErrInvalidValidatorSyntax)) := by
  refine ⟨rfl, by decide, rfl, rfl, rfl, ?_⟩
  intro h
  have e := h ⟨"N", true, "validate:\"min:1:2\""⟩ 5 "1:2" rfl (by decide) rfl
  have e2 : validateInt ⟨"N", true, "validate:\"min:1:2\""⟩ 5 = .ok none := rfl
  rw [e2] at e
  cases e

/-! ## Numeric checker: `in` -/

theorem validateInt_inLoop_none (num : Int) (l : List String) (found : Bool)
    (h : ∃ e ∈ l, strconv.Atoi e = none) : validateInt.inLoop num l found = none := by
  induction l generalizing found with
  | nil => simp at h
  | cons n ns ih =>
    unfold validateInt.inLoop
    cases hn : strconv.Atoi n with
    | none => rfl
    | some i =>
      obtain ⟨e, he, hnone⟩ := h
      rcases List.mem_cons.mp he with rfl | hmem
      · rw [hn] at hnone; cases hnone
      · exact ih _ ⟨e, hmem, hnone⟩

theorem validateInt_inLoop_some (num : Int) (l : List String) (found : Bool)
    (h : ∀ e ∈ l, strconv.Atoi e ≠ none) :
    ∃ r, validateInt.inLoop num l found = some r ∧
      (r = true ↔ found = true ∨ ∃ e ∈ l, strconv.Atoi e = some num) := by
  induction l generalizing found with
  | nil => exact ⟨found, rfl, by simp⟩
  | cons n ns ih =>
    unfold validateInt.inLoop
    cases hn : strconv.Atoi n with
    | none => exact absurd hn (h n (by simp))
    | some i =>
      obtain ⟨r, hr, hiff⟩ := ih (if num = i then true else found)
        (fun e he => h e (by simp [he]))
      refine ⟨r, hr, ?_⟩
      rw [hiff]
      by_cases hi : num = i
      · subst hi
        simp [hn]
      · have hne : strconv.Atoi n ≠ some num := by
          rw [hn]; intro hc; exact hi (Option.some.inj hc).symm
        simp [hi, hne]

theorem strings.mem_splitChars (sep c : Char) (l : List Char) (hc : c ∈ l) (hne : c ≠ sep) :
    ∃ p ∈ strings.splitChars sep l, c ∈ p := by
  induction l with
  | nil => simp at hc
  | cons d ds ih =>
    unfold strings.splitChars
    by_cases hd : d = sep
    · rw [if_pos hd]
      have hcd : c ∈ ds := by
        rcases List.mem_cons.mp hc with h | h
        · exact absurd (h.trans hd) hne
        · exact h
      obtain ⟨q, hq, hcq⟩ := ih hcd
      exact ⟨q, List.mem_cons_of_mem _ hq, hcq⟩
    · rw [if_neg hd]
      cases hsp : strings.splitChars sep ds with
      | nil => exact absurd hsp (strings.splitChars_ne_nil sep ds)
      | cons q qs =>
        rcases List.mem_cons.mp hc with h | h
        · exact ⟨d :: q, List.mem_cons_self _ _, by simp [h]⟩
        · obtain ⟨q2, hq2, hcq2⟩ := ih h
          rw [hsp] at hq2
          rcases List.mem_cons.mp hq2 with h2 | h2
          · subst h2
            exact ⟨d :: q2, List.mem_cons_self _ _, List.mem_cons_of_mem _ hcq2⟩
          · exact ⟨q2, List.mem_cons_of_mem _ h2, hcq2⟩

theorem strings.Split_integers_no_separator (L : String)
    (hall : ∀ e ∈ strings.Split L ',', strconv.Atoi e ≠ none) :
    ':' ∉ L.data ∧ ';' ∉ L.data := by
  have key : ∀ c : Char, c ≠ ',' → c ∈ L.data →
      ∃ e b, strconv.Atoi e = some b ∧ c ∈ e.data := by
    intro c hne hc
    obtain ⟨q, hq, hcq⟩ := strings.mem_splitChars ',' c L.data hc hne
    have hmem : String.mk q ∈ strings.Split L ',' := by
      unfold strings.Split
      exact List.mem_map_of_mem _ hq
    cases ha : strconv.Atoi (String.mk q) with
    | none => exact absurd ha (hall _ hmem)
    | some b => exact ⟨String.mk q, b, ha, hcq⟩
  constructor
  · intro hc
    obtain ⟨e, b, ha, hce⟩ := key ':' (by decide) hc
    exact (strconv.Atoi_no_separator e b ha).1 hce
  · intro hc
    obtain ⟨e, b, ha, hce⟩ := key ';' (by decide) hc
    exact (strconv.Atoi_no_separator e b ha).2.1 hce

theorem validateInt_clause_in (f : StructField) (v : Int) (L : String) (hL : ':' ∉ L.data) :
    validateInt.clause f v ("in:" ++ L) =
      match validateInt.inLoop v (strings.Split L ',') false with
      | none => .ok (some .ErrInvalidValidatorSyntax)
      | some found =>
        if !found then
          .ok (some (.Errorf (f.Name ++ ": value is not in " ++ fmtStrings (strings.Split L ','))))
        else .ok none := by
  have hs : strings.Split ("in:" ++ L) ':' = ["in", L] :=
    strings.Split_rule "in" L (by decide) hL
  simp [validateInt.clause, hs, index]

/-- C7 (as the code has it): numeric checker on a single clause `in:L` and a
value `v`.  The list the checker reads, `params[1]`, is `rawArg L`: the text of
`L` before its first `:`, which is `L` itself when `L` holds no `:`, as is the
case when every comma-separated element of `L` is an integer.  For `L` holding
no `;` (a single clause): if some comma-separated element of `rawArg L` is not
an integer for `strconv.Atoi` — as is the one empty element of `in:` — the
result is `ErrInvalidValidatorSyntax`, also when `v` equals an element listed
before it; if all its elements are integers the check passes exactly when `v`
equals one of them, and fails with the message `<field>: value is not in [...]`
otherwise. -/
theorem C7_validateInt_in (f : StructField) (v : Int) (L : String)
    (htag : StructTag.Get f.Tag "validate" = "in:" ++ L) :
    index (strings.Split ("in:" ++ L) ':') 1 = .ok (rawArg L) ∧
    (':' ∉ L.data → rawArg L = L) ∧
    ((∀ e ∈ strings.Split L ',', strconv.Atoi e ≠ none) → ';' ∉ L.data ∧ rawArg L = L) ∧
    (L = "" → validateInt f v = .ok (some .ErrInvalidValidatorSyntax)) ∧
    (';' ∉ L.data →
      ((∃ e ∈ strings.Split (rawArg L) ',', strconv.Atoi e = none) →
        validateInt f v = .ok (some .ErrInvalidValidatorSyntax)) ∧
      ((∀ e ∈ strings.Split (rawArg L) ',', strconv.Atoi e ≠ none) →
        (validateInt f v = .ok none ↔
          ∃ e ∈ strings.Split (rawArg L) ',', strconv.Atoi e = some v) ∧
        ((¬ ∃ e ∈ strings.Split (rawArg L) ',', strconv.Atoi e = some v) →
          validateInt f v = .ok (some (.Errorf
            (f.Name ++ ": value is not in " ++ fmtStrings (strings.Split (rawArg L) ','))))))) := by
  have hclause : ';' ∉ L.data →
      validateInt f v =
        match validateInt.inLoop v (strings.Split (rawArg L) ',') false with
        | none => .ok (some .ErrInvalidValidatorSyntax)
        | some found =>
          if !found then
            .ok (some (.Errorf
              (f.Name ++ ": value is not in " ++ fmtStrings (strings.Split (rawArg L) ','))))
          else .ok none := by
    intro hsemi
    have hs : ';' ∉ ("in:" ++ L).data := by simpa using hsemi
    rw [validateInt_single f v _ htag hs, validateInt_clause_in_raw f v L]
  have hbad : ';' ∉ L.data → (∃ e ∈ strings.Split (rawArg L) ',', strconv.Atoi e = none) →
      validateInt f v = .ok (some .ErrInvalidValidatorSyntax) := by
    intro hsemi h
    rw [hclause hsemi, validateInt_inLoop_none v _ false h]
  refine ⟨(index_name_arg "in" L (by decide)).2, rawArg_of_not_mem L, ?_, ?_, ?_⟩
  · intro hall
    obtain ⟨hcolon, hsemi⟩ := strings.Split_integers_no_separator L hall
    exact ⟨hsemi, rawArg_of_not_mem L hcolon⟩
  · intro hL
    subst hL
    exact hbad (by decide) ⟨"", by decide, by decide⟩
  · intro hsemi
    refine ⟨hbad hsemi, ?_⟩
    intro hall
    have e := hclause hsemi
    obtain ⟨r, hr, hiff⟩ := validateInt_inLoop_some v _ false hall
    rw [hr] at e
    simp only [Bool.false_eq_true, false_or] at hiff
    constructor
    · rw [e, ← hiff]
      cases r <;> simp
    · intro hno
      have hr' : r = false := by
        cases r
        · rfl
        · exact absurd (hiff.mp rfl) hno
      rw [e, hr']
      rfl

/-- Witness of C7 on `in:5,x`, `in:`, `in:-1,-3,5,7` and `in:5:x`, whose list
is `5`. -/
theorem C7_validateInt_in_witness :
    validateInt ⟨"InD", true, "validate:\"in:5,x\""⟩ 5 = .ok (some .ErrInvalidValidatorSyntax) ∧
    validateInt ⟨"InE", true, "validate:\"in:\""⟩ 0 = .ok (some .ErrInvalidValidatorSyntax) ∧
    validateInt ⟨"InC", true, "validate:\"in:-1,-3,5,7\""⟩ (-3) = .ok none ∧
    validateInt ⟨"InC", true, "validate:\"in:-1,-3,5,7\""⟩ 2 =
      .ok (some (.Errorf "InC: value is not in [-1 -3 5 7]")) ∧
    validateInt ⟨"InF", true, "validate:\"in:5:x\""⟩ 6 =
      .ok (some (.Errorf "InF: value is not in [5]")) :=
  ⟨((C7_validateInt_in ⟨"InD", true, "validate:\"in:5,x\""⟩ 5 "5,x" rfl).2.2.2.2
      (by decide)).1 ⟨"x", by decide, by decide⟩,
    (C7_validateInt_in ⟨"InE", true, "validate:\"in:\""⟩ 0 "" rfl).2.2.2.1 rfl,
    (((C7_validateInt_in ⟨"InC", true, "validate:\"in:-1,-3,5,7\""⟩ (-3) "-1,-3,5,7"
      rfl).2.2.2.2 (by decide)).2 (by decide)).1.mpr ⟨"-3", by decide, by decide⟩,
    (((C7_validateInt_in ⟨"InC", true, "validate:\"in:-1,-3,5,7\""⟩ 2 "-1,-3,5,7"
      rfl).2.2.2.2 (by decide)).2 (by decide)).2 (by decide),
    (((C7_validateInt_in ⟨"InF", true, "validate:\"in:5:x\""⟩ 6 "5:x"
      rfl).2.2.2.2 (by decide)).2 (by decide)).2 (by decide)⟩

/-- Counterexample to C7 as stated: the one comma-separated element of `5:x`
is `5:x`, which is not an integer for `strconv.Atoi`, yet on the single clause
`in:5:x` the value 5 passes: the list read is `5`.  So an element of `L` that
is not an integer does not always give `ErrInvalidValidatorSyntax`. -/
theorem C7_counterexample :
    StructTag.Get "validate:\"in:5:x\"" "validate" = "in:" ++ "5:x" ∧
    ';' ∉ ("5:x" : String).data ∧
    strings.Split "5:x" ',' = ["5:x"] ∧
    strconv.Atoi "5:x" = none ∧
    validateInt ⟨"N", true, "validate:\"in:5:x\""⟩ 5 = .ok none ∧
    ¬ (∀ (f : StructField) (v : Int) (L : String),
        StructTag.Get f.Tag "validate" = "in:" ++ L → ';' ∉ L.data →
        (∃ e ∈ strings.Split L ',', strconv.Atoi e = none) →
        validateInt f v = .ok (some .ErrInvalidValidatorSyntax)) := by
  refine ⟨rfl, by decide, by decide, rfl, rfl, ?_⟩
  intro h
  have e := h ⟨"N", true, "validate:\"in:5:x\""⟩ 5 "5:x" rfl (by decide)
    ⟨"5:x", by decide, rfl⟩
  have e2 : validateInt ⟨"N", true, "validate:\"in:5:x\""⟩ 5 = .ok none := rfl
  rw [e2] at e
  cases e

/-! ## Textual checker: `len`, `min`, `max` -/

/-- C8 (as the code has it): textual checker on a single clause `len:N` and a
text `s`.  The length the checker reads, `params[1]`, is `rawArg N`: the text of
`N` before its first `:`, which is `N` itself when `N` holds no `:`, as is the
case of every integer text.  For `N` holding no `;` (a single clause): if
`rawArg N` is the integer `n`, the check passes exactly when `n ≥ 0` and the
length of `s` (Go `len`) equals `n`, and fails with
`<field>: len is not equal to n` otherwise; so a negative `n` fails for every
text and `len:0` passes exactly for the empty text.  If `rawArg N` is not an
integer for `strconv.Atoi` the result is `ErrInvalidValidatorSyntax` whatever
`s` is. -/
theorem C8_validateStr_len (f : StructField) (s : String) (N : String)
    (htag : StructTag.Get f.Tag "validate" = "len:" ++ N) :
    index (strings.Split ("len:" ++ N) ':') 1 = .ok (rawArg N) ∧
    (':' ∉ N.data → rawArg N = N) ∧
    (∀ n : Int, strconv.Atoi N = some n → ';' ∉ N.data ∧ rawArg N = N) ∧
    (';' ∉ N.data →
      (strconv.Atoi (rawArg N) = none →
        validateStr f s = .ok (some .ErrInvalidValidatorSyntax)) ∧
      (∀ n : Int, strconv.Atoi (rawArg N) = some n →
        (validateStr f s = .ok none ↔ 0 ≤ n ∧ (s.utf8ByteSize : Int) = n) ∧
        (¬ (0 ≤ n ∧ (s.utf8ByteSize : Int) = n) →
          validateStr f s =
            .ok (some (.Errorf (f.Name ++ ": len is not equal to " ++ fmtInt n)))) ∧
        (n < 0 → ∃ e, validateStr f s = .ok (some e)) ∧
        (n = 0 → (validateStr f s = .ok none ↔ s = "")))) := by
  refine ⟨(index_name_arg "len" N (by decide)).2, rawArg_of_not_mem N, ?_, ?_⟩
  · intro n hN
    obtain ⟨hcolon, hsemi, _⟩ := strconv.Atoi_no_separator N n hN
    exact ⟨hsemi, rawArg_of_not_mem N hcolon⟩
  · intro hsemi
    have hs : ';' ∉ ("len:" ++ N).data := by simpa using hsemi
    have e := validateStr_single f s _ htag hs
    rw [validateStr_clause_len_raw f s N] at e
    refine ⟨?_, ?_⟩
    · intro hN
      rw [hN] at e
      exact e
    · intro n hN
      rw [hN] at e
      simp only at e
      have hpass : validateStr f s = .ok none ↔ 0 ≤ n ∧ (s.utf8ByteSize : Int) = n := by
        rw [e]
        by_cases hc : n < 0 ∨ (s.utf8ByteSize : Int) ≠ n
        · rw [if_pos hc]
          constructor
          · intro h; cases h
          · intro h; rcases hc with hc | hc
            · omega
            · exact absurd h.2 hc
        · rw [if_neg hc]
          constructor
          · intro _
            constructor
            · by_contra hlt; exact hc (Or.inl (by omega))
            · by_contra hne; exact hc (Or.inr hne)
          · intro _; rfl
      refine ⟨hpass, ?_, ?_, ?_⟩
      · intro hno
        rw [e, if_pos]
        by_contra hc
        apply hno
        constructor
        · by_contra hlt; exact hc (Or.inl (by omega))
        · by_contra hne; exact hc (Or.inr hne)
      · intro hneg
        rw [e, if_pos (Or.inl hneg)]
        exact ⟨_, rfl⟩
      · intro h0
        subst h0
        rw [hpass, ← utf8ByteSize_eq_zero_iff]
        constructor
        · intro h; exact_mod_cast h.2
        · intro h; exact ⟨le_refl _, by exact_mod_cast h⟩

/-- Witness of C8 on `len:5`, `len:0`, `len:-6`, `len:%12` and `len:3:x`, whose
length is `3`. -/
theorem C8_validateStr_len_witness :
    validateStr ⟨"Len", true, "validate:\"len:5\""⟩ "abcde" = .ok none ∧
    validateStr ⟨"Higher", true, "validate:\"len:5\""⟩ "abcdef" =
      .ok (some (.Errorf "Higher: len is not equal to 5")) ∧
    (∃ e, validateStr ⟨"Negative", true, "validate:\"len:-6\""⟩ "abcd" = .ok (some e)) ∧
    validateStr ⟨"LenZ", true, "validate:\"len:0\""⟩ "" = .ok none ∧
    validateStr ⟨"BadSpec", true, "validate:\"len:%12\""⟩ "abc" =
      .ok (some .ErrInvalidValidatorSyntax) ∧
    validateStr ⟨"LenX", true, "validate:\"len:3:x\""⟩ "ab" =
      .ok (some (.Errorf "LenX: len is not equal to 3")) :=
  ⟨(((C8_validateStr_len ⟨"Len", true, "validate:\"len:5\""⟩ "abcde" "5" rfl).2.2.2
      (by decide)).2 5 rfl).1.mpr (by decide),
    (((C8_validateStr_len ⟨"Higher", true, "validate:\"len:5\""⟩ "abcdef" "5" rfl).2.2.2
      (by decide)).2 5 rfl).2.1 (by decide),
    (((C8_validateStr_len ⟨"Negative", true, "validate:\"len:-6\""⟩ "abcd" "-6" rfl).2.2.2
      (by decide)).2 (-6) rfl).2.2.1 (by decide),
    ((((C8_validateStr_len ⟨"LenZ", true, "validate:\"len:0\""⟩ "" "0" rfl).2.2.2
      (by decide)).2 0 rfl).2.2.2 rfl).mpr rfl,
    ((C8_validateStr_len ⟨"BadSpec", true, "validate:\"len:%12\""⟩ "abc" "%12" rfl).2.2.2
      (by decide)).1 rfl,
    (((C8_validateStr_len ⟨"LenX", true, "validate:\"len:3:x\""⟩ "ab" "3:x" rfl).2.2.2
      (by decide)).2 3 rfl).2.1 (by decide)⟩

/-- Counterexample to C8 as stated: `3:x` is not an integer for
`strconv.Atoi`, yet on the single clause `len:3:x` the text `abc` passes: the
length read is `3`.  So a non-integer `N` does not always give
`ErrInvalidValidatorSyntax`. -/
theorem C8_counterexample :
    StructTag.Get "validate:\"len:3:x\"" "validate" = "len:" ++ "3:x" ∧
    ';' ∉ ("3:x" : String).data ∧
    strconv.Atoi "3:x" = none ∧
    validateStr ⟨"F", true, "validate:\"len:3:x\""⟩ "abc" = .ok none ∧
    ¬ (∀ (f : StructField) (s : String) (N : String),
        StructTag.Get f.Tag "validate" = "len:" ++ N → ';' ∉ N.data →
        strconv.Atoi N = none → validateStr f s = .ok (some .ErrInvalidValidatorSyntax)) := by
  refine ⟨rfl, by decide, rfl, rfl, ?_⟩
  intro h
  have e := h ⟨"F", true, "validate:\"len:3:x\""⟩ "abc" "3:x" rfl (by decide) rfl
  have e2 : validateStr ⟨"F", true, "validate:\"len:3:x\""⟩ "abc" = .ok none := rfl
  rw [e2] at e
  cases e

/-- C9 (as the code has it): textual checker on a single clause `min:B` (field
`fmin`) or `max:B` (field `fmax`) and a text `s`.  The bound the checker reads,
`params[1]`, is `rawArg B`: the text of `B` before its first `:`, which is `B`
itself when `B` holds no `:`, as is the case of every integer text.  For `B`
holding no `;` (a single clause): if `rawArg B` is the integer `b`, `min:B`
fails exactly when the length of `s` is below `b`, hence never for a negative
`b`; `max:B` fails exactly when `b < 0` or the length of `s` exceeds `b`, hence
for every text, the empty one included, when `b` is negative.  If `rawArg B` is
not an integer for `strconv.Atoi` both rules give
`ErrInvalidValidatorSyntax`. -/
theorem C9_validateStr_min_max (fmin fmax : StructField) (s : String) (B : String)
    (hmin : StructTag.Get fmin.Tag "validate" = "min:" ++ B)
    (hmax : StructTag.Get fmax.Tag "validate" = "max:" ++ B) :
    index (strings.Split ("min:" ++ B) ':') 1 = .ok (rawArg B) ∧
    index (strings.Split ("max:" ++ B) ':') 1 = .ok (rawArg B) ∧
    (':' ∉ B.data → rawArg B = B) ∧
    (∀ b : Int, strconv.Atoi B = some b → ';' ∉ B.data ∧ rawArg B = B) ∧
    (';' ∉ B.data →
      (strconv.Atoi (rawArg B) = none →
        validateStr fmin s = .ok (some .ErrInvalidValidatorSyntax) ∧
        validateStr fmax s = .ok (some .ErrInvalidValidatorSyntax)) ∧
      (∀ b : Int, strconv.Atoi (rawArg B) = some b →
        (validateStr fmin s =
          if (s.utf8ByteSize : Int) < b then
            .ok (some (.Errorf (fmin.Name ++ ": len is less than " ++ fmtInt b)))
          else .ok none) ∧
        (validateStr fmax s =
          if b < 0 ∨ (s.utf8ByteSize : Int) > b then
            .ok (some (.Errorf (fmax.Name ++ ": len is greater than " ++ fmtInt b)))
          else .ok none) ∧
        ((∃ e, validateStr fmin s = .ok (some e)) ↔ (s.utf8ByteSize : Int) < b) ∧
        ((∃ e, validateStr fmax s = .ok (some e)) ↔ (b < 0 ∨ (s.utf8ByteSize : Int) > b)) ∧
        (b < 0 → validateStr fmin s = .ok none ∧ ∃ e, validateStr fmax s = .ok (some e)))) := by
  refine ⟨(index_name_arg "min" B (by decide)).2, (index_name_arg "max" B (by decide)).2,
    rawArg_of_not_mem B, ?_, ?_⟩
  · intro b hB
    obtain ⟨hcolon, hsemi, _⟩ := strconv.Atoi_no_separator B b hB
    exact ⟨hsemi, rawArg_of_not_mem B hcolon⟩
  · intro hsemi
    have hsmin : ';' ∉ ("min:" ++ B).data := by simpa using hsemi
    have hsmax : ';' ∉ ("max:" ++ B).data := by simpa using hsemi
    have emin := validateStr_single fmin s _ hmin hsmin
    have emax := validateStr_single fmax s _ hmax hsmax
    rw [validateStr_clause_min_raw fmin s B] at emin
    rw [validateStr_clause_max_raw fmax s B] at emax
    refine ⟨?_, ?_⟩
    · intro hB
      rw [hB] at emin emax
      exact ⟨emin, emax⟩
    · intro b hB
      rw [hB] at emin emax
      simp only at emin emax
      refine ⟨emin, emax, ?_, ?_, ?_⟩
      · rw [emin]; split <;> simp [*]
      · rw [emax]; split <;> simp [*]
      · intro hneg
        have hnot : ¬ (s.utf8ByteSize : Int) < b := by
          have : (0 : Int) ≤ (s.utf8ByteSize : Int) := Int.ofNat_nonneg _
          omega
        rw [emin, emax, if_neg hnot, if_pos (Or.inl hneg)]
        exact ⟨rfl, _, rfl⟩

/-- Witness of C9 on the negative bound `-7`, the bound `2`, the bound written
`5-` and the argument `9:-1`, whose bound is `9`. -/
theorem C9_validateStr_min_max_witness :
    validateStr ⟨"MinStrNeg", true, "validate:\"min:-7\""⟩ "" = .ok none ∧
    (∃ e, validateStr ⟨"MaxB", true, "validate:\"max:-7\""⟩ "" = .ok (some e)) ∧
    validateStr ⟨"MaxA", true, "validate:\"max:2\""⟩ "efgh" =
      .ok (some (.Errorf "MaxA: len is greater than 2")) ∧
    validateStr ⟨"MinA", true, "validate:\"min:2\""⟩ "e" =
      .ok (some (.Errorf "MinA: len is less than 2")) ∧
    validateStr ⟨"MaxF", true, "validate:\"max:5-\""⟩ "abc" =
      .ok (some .ErrInvalidValidatorSyntax) ∧
    validateStr ⟨"MinG", true, "validate:\"min:9:-1\""⟩ "abc" =
      .ok (some (.Errorf "MinG: len is less than 9")) :=
  ⟨((((C9_validateStr_min_max ⟨"MinStrNeg", true, "validate:\"min:-7\""⟩
      ⟨"MaxB", true, "validate:\"max:-7\""⟩ "" "-7" rfl rfl).2.2.2.2 (by decide)).2
      (-7) rfl).2.2.2.2 (by decide)).1,
    ((((C9_validateStr_min_max ⟨"MinStrNeg", true, "validate:\"min:-7\""⟩
      ⟨"MaxB", true, "validate:\"max:-7\""⟩ "" "-7" rfl rfl).2.2.2.2 (by decide)).2
      (-7) rfl).2.2.2.2 (by decide)).2,
    (((C9_validateStr_min_max ⟨"MinA", true, "validate:\"min:2\""⟩
      ⟨"MaxA", true, "validate:\"max:2\""⟩ "efgh" "2" rfl rfl).2.2.2.2 (by decide)).2
      2 rfl).2.1,
    (((C9_validateStr_min_max ⟨"MinA", true, "validate:\"min:2\""⟩
      ⟨"MaxA", true, "validate:\"max:2\""⟩ "e" "2" rfl rfl).2.2.2.2 (by decide)).2
      2 rfl).1,
    (((C9_validateStr_min_max ⟨"MinF", true, "validate:\"min:5-\""⟩
      ⟨"MaxF", true, "validate:\"max:5-\""⟩ "abc" "5-" rfl rfl).2.2.2.2 (by decide)).1
      rfl).2,
    (((C9_validateStr_min_max ⟨"MinG", true, "validate:\"min:9:-1\""⟩
      ⟨"MaxG", true, "validate:\"max:9:-1\""⟩ "abc" "9:-1" rfl rfl).2.2.2.2 (by decide)).2
      9 rfl).1⟩

/-- Counterexample to C9 as stated: `9:-1` is not an integer for
`strconv.Atoi`, yet on the single clause `max:9:-1` the text `abc` passes, and
on `min:9:-1` it fails with a length message: the bound read is `9`.  So a
non-integer `B` does not always give `ErrInvalidValidatorSyntax`. -/
theorem C9_counterexample :
    StructTag.Get "validate:\"max:9:-1\"" "validate" = "max:" ++ "9:-1" ∧
    ';' ∉ ("9:-1" : String).data ∧
    strconv.Atoi "9:-1" = none ∧
    validateStr ⟨"F", true, "validate:\"max:9:-1\""⟩ "abc" = .ok none ∧
    validateStr ⟨"F", true, "validate:\"min:9:-1\""⟩ "abc" =
      .ok (some (.Errorf "F: len is less than 9")) ∧
    ¬ (∀ (f : StructField) (s : String) (B : String),
        StructTag.Get f.Tag "validate" = "max:" ++ B → ';' ∉ B.data →
        strconv.Atoi B = none → validateStr f s = .ok (some .ErrInvalidValidatorSyntax)) := by
  refine ⟨rfl, by decide, rfl, rfl, rfl, ?_⟩
  intro h
  have e := h ⟨"F", true, "validate:\"max:9:-1\""⟩ "abc" "9:-1" rfl (by decide) rfl
  have e2 : validateStr ⟨"F", true, "validate:\"max:9:-1\""⟩ "abc" = .ok none := rfl
  rw [e2] at e
  cases e

/-! ## Textual checker: `in` -/

theorem validateStr_inLoop_eq (str : String) (l : List String) (found : Bool) :
    validateStr.inLoop str l found = true ↔ found = true ∨ str ∈ l := by
  induction l generalizing found with
  | nil => simp [validateStr.inLoop]
  | cons x xs ih =>
    unfold validateStr.inLoop
    rw [ih]
    by_cases hx : x = str
    · subst hx
      simp
    · have hx' : ¬ str = x := fun h => hx h.symm
      simp [hx, hx']

theorem validateStr_clause_in (f : StructField) (s : String) (L : String) (hL : ':' ∉ L.data) :
    validateStr.clause f s ("in:" ++ L) =
      if L.utf8ByteSize = 0 then
        .ok (some (.Errorf
          (f.Name ++ ": value is not in empty " ++ fmtStrings (strings.Split L ','))))
      else if !validateStr.inLoop s (strings.Split L ',') false then
        .ok (some (.Errorf (f.Name ++ ": value is not in " ++ fmtStrings (strings.Split L ','))))
      else .ok none := by
  have hs : strings.Split ("in:" ++ L) ':' = ["in", L] :=
    strings.Split_rule "in" L (by decide) hL
  simp [validateStr.clause, hs, index]

/-- C10 (as the code has it): textual checker on a single clause `in:L` and a
text `s`, `L` holding no `;`.  The raw argument the checker reads, `params[1]`,
is `rawArg L`: the text of `L` before its first `:`, which is `L` itself when
`L` holds no `:`.  If the raw argument is empty the check fails for every text,
the empty text included (message `<field>: value is not in empty []`);
otherwise the check passes exactly when `s` is equal to one of the
comma-separated elements of the raw argument, and fails with
`<field>: value is not in [...]` when it is not. -/
theorem C10_validateStr_in (f : StructField) (s : String) (L : String)
    (hsemi : ';' ∉ L.data)
    (htag : StructTag.Get f.Tag "validate" = "in:" ++ L) :
    index (strings.Split ("in:" ++ L) ':') 1 = .ok (rawArg L) ∧
    (':' ∉ L.data → rawArg L = L) ∧
    (rawArg L = "" →
      validateStr f s = .ok (some (.Errorf (f.Name ++ ": value is not in empty []")))) ∧
    (rawArg L ≠ "" →
      (validateStr f s = .ok none ↔ s ∈ strings.Split (rawArg L) ',') ∧
      (s ∉ strings.Split (rawArg L) ',' →
        validateStr f s = .ok (some (.Errorf
          (f.Name ++ ": value is not in " ++ fmtStrings (strings.Split (rawArg L) ',')))))) := by
  have hs : ';' ∉ ("in:" ++ L).data := by simpa using hsemi
  have e := validateStr_single f s _ htag hs
  rw [validateStr_clause_in_raw f s L] at e
  refine ⟨(index_name_arg "in" L (by decide)).2, rawArg_of_not_mem L, ?_, ?_⟩
  · intro hL
    rw [hL] at e
    have h0 : ("" : String).utf8ByteSize = 0 := rfl
    have hf : fmtStrings (strings.Split "" ',') = "[]" := by decide
    rw [e, if_pos h0, hf, String.append_assoc]
    rfl
  · intro hL
    have hsize : (rawArg L).utf8ByteSize ≠ 0 :=
      fun h => hL ((utf8ByteSize_eq_zero_iff (rawArg L)).mp h)
    rw [if_neg hsize] at e
    have hloop := validateStr_inLoop_eq s (strings.Split (rawArg L) ',') false
    simp only [Bool.false_eq_true, false_or] at hloop
    constructor
    · rw [e, ← hloop]
      cases validateStr.inLoop s (strings.Split (rawArg L) ',') false <;> simp
    · intro hno
      have hf : validateStr.inLoop s (strings.Split (rawArg L) ',') false = false := by
        cases h : validateStr.inLoop s (strings.Split (rawArg L) ',') false
        · rfl
        · exact absurd (hloop.mp h) hno
      rw [e, hf]
      rfl

/-- Witness of C10 on `in:`, `in:ab,cd`, `in:a:b,c` (raw argument `a`) and
`in::x` (empty raw argument). -/
theorem C10_validateStr_in_witness :
    validateStr ⟨"InEmpty", true, "validate:\"in:\""⟩ "" =
      .ok (some (.Errorf "InEmpty: value is not in empty []")) ∧
    validateStr ⟨"InA", true, "validate:\"in:ab,cd\""⟩ "cd" = .ok none ∧
    validateStr ⟨"InA", true, "validate:\"in:ab,cd\""⟩ "ef" =
      .ok (some (.Errorf "InA: value is not in [ab cd]")) ∧
    validateStr ⟨"InB", true, "validate:\"in:a:b,c\""⟩ "a" = .ok none ∧
    validateStr ⟨"InB", true, "validate:\"in:a:b,c\""⟩ "c" =
      .ok (some (.Errorf "InB: value is not in [a]")) ∧
    validateStr ⟨"InC", true, "validate:\"in::x\""⟩ "x" =
      .ok (some (.Errorf "InC: value is not in empty []")) :=
  ⟨(C10_validateStr_in ⟨"InEmpty", true, "validate:\"in:\""⟩ "" "" (by decide)
      rfl).2.2.1 rfl,
    ((C10_validateStr_in ⟨"InA", true, "validate:\"in:ab,cd\""⟩ "cd" "ab,cd"
      (by decide) rfl).2.2.2 (by decide)).1.mpr (by decide),
    ((C10_validateStr_in ⟨"InA", true, "validate:\"in:ab,cd\""⟩ "ef" "ab,cd"
      (by decide) rfl).2.2.2 (by decide)).2 (by decide),
    ((C10_validateStr_in ⟨"InB", true, "validate:\"in:a:b,c\""⟩ "a" "a:b,c"
      (by decide) rfl).2.2.2 (by decide)).1.mpr (by decide),
    ((C10_validateStr_in ⟨"InB", true, "validate:\"in:a:b,c\""⟩ "c" "a:b,c"
      (by decide) rfl).2.2.2 (by decide)).2 (by decide),
    (C10_validateStr_in ⟨"InC", true, "validate:\"in::x\""⟩ "x" ":x"
      (by decide) rfl).2.2.1 rfl⟩

/-- Counterexample to C10 as stated: the comma-separated elements of `a:b,c`
are `a:b` and `c`, and the argument is not empty, yet on the single clause
`in:a:b,c` the listed element `c` is rejected and the text `a`, which is not
one of the elements, is accepted: the raw argument read is `a`. -/
theorem C10_counterexample :
    StructTag.Get "validate:\"in:a:b,c\"" "validate" = "in:" ++ "a:b,c" ∧
    ';' ∉ ("a:b,c" : String).data ∧
    strings.Split "a:b,c" ',' = ["a:b", "c"] ∧
    validateStr ⟨"F", true, "validate:\"in:a:b,c\""⟩ "c" =
      .ok (some (.Errorf "F: value is not in [a]")) ∧
    validateStr ⟨"F", true, "validate:\"in:a:b,c\""⟩ "a" = .ok none ∧
    ¬ (∀ (f : StructField) (s : String) (L : String),
        StructTag.Get f.Tag "validate" = "in:" ++ L → ';' ∉ L.data → L ≠ "" →
        (validateStr f s = .ok none ↔ s ∈ strings.Split L ',')) := by
  refine ⟨rfl, by decide, by decide, rfl, rfl, ?_⟩
  intro h
  have e := (h ⟨"F", true, "validate:\"in:a:b,c\""⟩ "a" "a:b,c" rfl (by decide)
    (by decide)).mp rfl
  exact absurd e (by decide)

/-! ## The driver `Validate` -/

theorem StructTag.Get_empty (key : String) : StructTag.Get "" key = "" := by
  simp [StructTag.Get, StructTag.Lookup, lookupLoop]

theorem fieldFailures_cons_none (fv : StructField × FieldValue)
    (rest : List (StructField × FieldValue)) (h : fieldFailure fv = none) :
    fieldFailures (fv :: rest) = fieldFailures rest := by
  simp [fieldFailures, List.filterMap_cons, h]

theorem fieldFailures_cons_some (fv : StructField × FieldValue)
    (rest : List (StructField × FieldValue)) (e : ValidationError)
    (h : fieldFailure fv = some e) :
    fieldFailures (fv :: rest) = e :: fieldFailures rest := by
  simp [fieldFailures, List.filterMap_cons, h]

theorem Validate.loop_spec (fields : List (StructField × FieldValue)) (err : ValidationErrors)
    (hret : ∀ fv ∈ beforeHidden fields, checked fv = true → ∃ r, validate fv.1 fv.2 = .ok r) :
    Validate.loop fields err =
      if fields.any hiddenTagged then
        .ok (some (.aggr (err ++ fieldFailures (beforeHidden fields) ++
          [⟨.ErrValidateForUnexportedFields⟩])))
      else if err ++ fieldFailures fields = [] then .ok none
      else .ok (some (.aggr (err ++ fieldFailures fields))) := by
  induction fields generalizing err with
  | nil =>
    cases err <;> simp [Validate.loop, fieldFailures]
  | cons fv rest ih =>
    obtain ⟨tf, v⟩ := fv
    by_cases hh : hiddenTagged (tf, v) = true
    · have hh' : (!tf.Exported && tf.Tag != "") = true := hh
      simp [Validate.loop, hh', hh, beforeHidden, fieldFailures]
    · have hh' : ¬ (!tf.Exported && tf.Tag != "") = true := hh
      have hbefore : beforeHidden ((tf, v) :: rest) = (tf, v) :: beforeHidden rest := by
        simp [beforeHidden, List.takeWhile, hh]
      have hrest : ∀ fv ∈ beforeHidden rest, checked fv = true →
          ∃ r, validate fv.1 fv.2 = .ok r := by
        intro fv hfv
        exact hret fv (by rw [hbefore]; exact List.mem_cons_of_mem _ hfv)
      have hany : ((tf, v) :: rest).any hiddenTagged = rest.any hiddenTagged := by
        simp [List.any_cons, hh]
      rw [hany, hbefore]
      by_cases hc : checked (tf, v) = true
      · have hc' : (tf.Exported && tf.Tag != "") = true := hc
        obtain ⟨r, hr⟩ := hret (tf, v) (by rw [hbefore]; exact List.mem_cons_self _ _) hc
        have hr' : validate tf v = .ok r := hr
        cases r with
        | none =>
          have hf : fieldFailure (tf, v) = none := by simp [fieldFailure, hc, hr']
          have e1 : Validate.loop ((tf, v) :: rest) err = Validate.loop rest err := by
            simp [Validate.loop, hh', hc', hr']
          rw [e1, ih err hrest, fieldFailures_cons_none _ _ hf, fieldFailures_cons_none _ _ hf]
        | some e =>
          have hf : fieldFailure (tf, v) = some (ValidationError.mk e) := by
            simp [fieldFailure, hc, hr']
          have e1 : Validate.loop ((tf, v) :: rest) err =
              Validate.loop rest (err ++ [ValidationError.mk e]) := by
            simp [Validate.loop, hh', hc', hr']
          rw [e1, ih (err ++ [ValidationError.mk e]) hrest, fieldFailures_cons_some _ _ _ hf,
            fieldFailures_cons_some _ _ _ hf]
          simp
      · have hc' : ¬ (tf.Exported && tf.Tag != "") = true := hc
        have hf : fieldFailure (tf, v) = none := by simp [fieldFailure, hc]
        have e1 : Validate.loop ((tf, v) :: rest) err = Validate.loop rest err := by
          simp [Validate.loop, hh', hc']
        rw [e1, ih err hrest, fieldFailures_cons_none _ _ hf, fieldFailures_cons_none _ _ hf]

theorem fieldFailures_length (fields : List (StructField × FieldValue)) :
    (fieldFailures fields).length = fields.countP failing := by
  induction fields with
  | nil => rfl
  | cons fv rest ih =>
    by_cases hc : checked fv = true
    · cases hv : validate fv.1 fv.2 with
      | error p =>
        have hf : fieldFailure fv = none := by simp [fieldFailure, hc, hv]
        have hg : failing fv = false := by simp [failing, hv]
        rw [fieldFailures_cons_none _ _ hf, ih]
        simp [List.countP_cons, hg]
      | ok r =>
        cases r with
        | none =>
          have hf : fieldFailure fv = none := by simp [fieldFailure, hc, hv]
          have hg : failing fv = false := by simp [failing, hv]
          rw [fieldFailures_cons_none _ _ hf, ih]
          simp [List.countP_cons, hg]
        | some e =>
          have hf : fieldFailure fv = some (ValidationError.mk e) := by
            simp [fieldFailure, hc, hv]
          have hg : failing fv = true := by simp [failing, hc, hv]
          rw [fieldFailures_cons_some _ _ _ hf, List.length_cons, ih]
          simp [List.countP_cons, hg]
    · have hf : fieldFailure fv = none := by simp [fieldFailure, hc]
      have hg : failing fv = false := by simp [failing, hc]
      rw [fieldFailures_cons_none _ _ hf, ih]
      simp [List.countP_cons, hg]

theorem beforeHidden_of_no_hidden (fields : List (StructField × FieldValue))
    (h : ∀ fv ∈ fields, hiddenTagged fv = false) : beforeHidden fields = fields := by
  unfold beforeHidden
  rw [List.takeWhile_eq_self_iff]
  intro fv hfv
  simp [h fv hfv]

theorem any_hidden_of_no_hidden (fields : List (StructField × FieldValue))
    (h : ∀ fv ∈ fields, hiddenTagged fv = false) : fields.any hiddenTagged = false := by
  rw [List.any_eq_false]
  intro fv hfv
  simp [h fv hfv]

theorem hiddenTagged_eq_false (fv : StructField × FieldValue)
    (h : ¬ (fv.1.Exported = false ∧ fv.1.Tag ≠ "")) : hiddenTagged fv = false := by
  unfold hiddenTagged
  cases he : fv.1.Exported
  · have ht : fv.1.Tag = "" := by
      by_contra hne
      exact h ⟨he, hne⟩
    simp [ht]
  · simp

theorem checked_iff (fv : StructField × FieldValue) :
    checked fv = true ↔ fv.1.Exported = true ∧ fv.1.Tag ≠ "" := by
  simp [checked]

theorem Validate.loop_ne_empty (fields : List (StructField × FieldValue))
    (err : ValidationErrors) : Validate.loop fields err ≠ .ok (some (.aggr [])) := by
  induction fields generalizing err with
  | nil =>
    cases err with
    | nil => simp [Validate.loop]
    | cons e es => simp [Validate.loop]
  | cons fv rest ih =>
    obtain ⟨tf, v⟩ := fv
    unfold Validate.loop
    split
    · simp
    · split
      · split
        · simp
        · exact ih _
        · exact ih _
      · exact ih _

theorem Validate_no_hidden (fields : List (StructField × FieldValue))
    (hvis : ∀ fv ∈ fields, ¬ (fv.1.Exported = false ∧ fv.1.Tag ≠ ""))
    (hret : ∀ fv ∈ fields, fv.1.Exported = true → fv.1.Tag ≠ "" →
      ∃ r, validate fv.1 fv.2 = .ok r) :
    Validate (.struct fields) =
      if fieldFailures fields = [] then .ok none
      else .ok (some (.aggr (fieldFailures fields))) := by
  have hnone : ∀ fv ∈ fields, hiddenTagged fv = false :=
    fun fv hfv => hiddenTagged_eq_false fv (hvis fv hfv)
  have hret' : ∀ fv ∈ beforeHidden fields, checked fv = true →
      ∃ r, validate fv.1 fv.2 = .ok r := by
    intro fv hfv hc
    rw [beforeHidden_of_no_hidden fields hnone] at hfv
    exact hret fv hfv ((checked_iff fv).mp hc).1 ((checked_iff fv).mp hc).2
  have hloop := Validate.loop_spec fields [] hret'
  rw [any_hidden_of_no_hidden fields hnone] at hloop
  simp only [Bool.false_eq_true, if_false, List.nil_append] at hloop
  exact hloop

theorem fieldFailures_eq_nil_iff (fields : List (StructField × FieldValue))
    (hret : ∀ fv ∈ fields, fv.1.Exported = true → fv.1.Tag ≠ "" →
      ∃ r, validate fv.1 fv.2 = .ok r) :
    fieldFailures fields = [] ↔
      ∀ fv ∈ fields, fv.1.Exported = true → fv.1.Tag ≠ "" → validate fv.1 fv.2 = .ok none := by
  unfold fieldFailures
  rw [List.filterMap_eq_nil_iff]
  constructor
  · intro h fv hfv he ht
    have hf := h fv hfv
    have hc : checked fv = true := (checked_iff fv).mpr ⟨he, ht⟩
    obtain ⟨r, hr⟩ := hret fv hfv he ht
    cases r with
    | none => exact hr
    | some e => simp [fieldFailure, hc, hr] at hf
  · intro h fv hfv
    by_cases hc : checked fv = true
    · have hr := h fv hfv ((checked_iff fv).mp hc).1 ((checked_iff fv).mp hc).2
      simp [fieldFailure, hc, hr]
    · simp [fieldFailure, hc]

/-- C2: for every struct value that has no non-exported tagged field,
`Validate` returns nil when the check of every exported tagged field returns
nothing; otherwise, the checks having returned, it returns the
`ValidationErrors` made of exactly the failures returned by the checks of the
exported tagged fields, one entry per failing field, in field-declaration
order.  The length of that list is the number of failing fields, and an empty
`ValidationErrors` is never returned. -/
theorem C2_Validate_aggregate (fields : List (StructField × FieldValue))
    (hvis : ∀ fv ∈ fields, ¬ (fv.1.Exported = false ∧ fv.1.Tag ≠ "")) :
    ((∀ fv ∈ fields, fv.1.Exported = true → fv.1.Tag ≠ "" → validate fv.1 fv.2 = .ok none) →
      Validate (.struct fields) = .ok none) ∧
    ((∀ fv ∈ fields, fv.1.Exported = true → fv.1.Tag ≠ "" → ∃ r, validate fv.1 fv.2 = .ok r) →
      ¬ (∀ fv ∈ fields, fv.1.Exported = true → fv.1.Tag ≠ "" → validate fv.1 fv.2 = .ok none) →
      Validate (.struct fields) = .ok (some (.aggr (fieldFailures fields)))) ∧
    (fieldFailures fields).length = fields.countP failing ∧
    Validate (.struct fields) ≠ .ok (some (.aggr [])) := by
  refine ⟨?_, ?_, fieldFailures_length fields, Validate.loop_ne_empty fields []⟩
  · intro h
    have hret : ∀ fv ∈ fields, fv.1.Exported = true → fv.1.Tag ≠ "" →
        ∃ r, validate fv.1 fv.2 = .ok r := fun fv hfv he ht => ⟨none, h fv hfv he ht⟩
    rw [Validate_no_hidden fields hvis hret,
      if_pos ((fieldFailures_eq_nil_iff fields hret).mpr h)]
  · intro hret h
    rw [Validate_no_hidden fields hvis hret,
      if_neg (fun he => h ((fieldFailures_eq_nil_iff fields hret).mp he))]

/-- Witness of C2 on a struct with an untagged hidden field, a failing text
field, a passing numeric field and a numeric field with a malformed bound, and
on a struct whose only tagged field passes. -/
theorem C2_Validate_aggregate_witness :
    Validate (.struct
      [(⟨"f1", false, ""⟩, .string "x"),
       (⟨"MaxA", true, "validate:\"max:2\""⟩, .string "efgh"),
       (⟨"MinInt", true, "validate:\"min:10\""⟩, .int64 15),
       (⟨"MaxD", true, "validate:\"max:5-\""⟩, .int64 12)]) =
      .ok (some (.aggr
        [⟨.Errorf "MaxA: len is greater than 2"⟩, ⟨.ErrInvalidValidatorSyntax⟩])) ∧
    Validate (.struct [(⟨"MinInt", true, "validate:\"min:10\""⟩, .int64 15)]) = .ok none :=
  ⟨(C2_Validate_aggregate
      [(⟨"f1", false, ""⟩, .string "x"),
       (⟨"MaxA", true, "validate:\"max:2\""⟩, .string "efgh"),
       (⟨"MinInt", true, "validate:\"min:10\""⟩, .int64 15),
       (⟨"MaxD", true, "validate:\"max:5-\""⟩, .int64 12)]
      (by decide)).2.1
      (by
        intro fv hfv _ _
        simp only [List.mem_cons, List.mem_singleton, List.not_mem_nil, or_false] at hfv
        rcases hfv with rfl | rfl | rfl | rfl <;> exact ⟨_, rfl⟩)
      (by
        intro h
        have h1 := h (⟨"MaxA", true, "validate:\"max:2\""⟩, .string "efgh")
          (by simp) rfl (by decide)
        have e : validate ⟨"MaxA", true, "validate:\"max:2\""⟩ (.string "efgh") =
            .ok (some (.Errorf "MaxA: len is greater than 2")) := rfl
        rw [e] at h1
        cases h1),
    (C2_Validate_aggregate [(⟨"MinInt", true, "validate:\"min:10\""⟩, .int64 15)]
      (by decide)).1
      (by
        intro fv hfv _ _
        simp only [List.mem_singleton] at hfv
        subst hfv
        rfl)⟩

/-- C1 (as the code has it): for every record that contains a non-exported
field carrying a non-empty tag (so in particular a non-empty `validate`
annotation), provided the checks of the exported tagged fields declared before
the first non-exported tagged field return, `Validate` returns an aggregate
made of the failures of those earlier fields, in declaration order, followed
by `ErrValidateForUnexportedFields` as its last entry; the fields declared
after it play no part.  The aggregate holds exactly that one failure when no
earlier exported tagged field fails. -/
theorem C1_Validate_hidden_field (fields : List (StructField × FieldValue))
    (hhid : ∃ fv ∈ fields, fv.1.Exported = false ∧ fv.1.Tag ≠ "")
    (hret : ∀ fv ∈ beforeHidden fields, fv.1.Exported = true → fv.1.Tag ≠ "" →
      ∃ r, validate fv.1 fv.2 = .ok r) :
    Validate (.struct fields) =
      .ok (some (.aggr (fieldFailures (beforeHidden fields) ++
        [⟨.ErrValidateForUnexportedFields⟩]))) ∧
    ((∀ fv ∈ beforeHidden fields, fv.1.Exported = true → fv.1.Tag ≠ "" →
        validate fv.1 fv.2 = .ok none) →
      Validate (.struct fields) = .ok (some (.aggr [⟨.ErrValidateForUnexportedFields⟩]))) := by
  have hany : fields.any hiddenTagged = true := by
    obtain ⟨fv, hfv, he, ht⟩ := hhid
    rw [List.any_eq_true]
    refine ⟨fv, hfv, ?_⟩
    simp [hiddenTagged, he, ht]
  have hret' : ∀ fv ∈ beforeHidden fields, checked fv = true →
      ∃ r, validate fv.1 fv.2 = .ok r :=
    fun fv hfv hc => hret fv hfv ((checked_iff fv).mp hc).1 ((checked_iff fv).mp hc).2
  have hloop := Validate.loop_spec fields [] hret'
  rw [hany] at hloop
  simp only [if_true, List.nil_append] at hloop
  have hV : Validate (.struct fields) =
      .ok (some (.aggr (fieldFailures (beforeHidden fields) ++
        [⟨.ErrValidateForUnexportedFields⟩]))) := hloop
  refine ⟨hV, ?_⟩
  intro hpass
  have hempty : fieldFailures (beforeHidden fields) = [] := by
    unfold fieldFailures
    rw [List.filterMap_eq_nil_iff]
    intro fv hfv
    by_cases hc : checked fv = true
    · have hr := hpass fv hfv ((checked_iff fv).mp hc).1 ((checked_iff fv).mp hc).2
      simp [fieldFailure, hc, hr]
    · simp [fieldFailure, hc]
  rw [hV, hempty]
  rfl

/-- Witness of C1: a passing exported field, then the hidden tagged field,
then an exported field whose rule is malformed and is never looked at. -/
theorem C1_Validate_hidden_field_witness :
    Validate (.struct
      [(⟨"MinInt", true, "validate:\"min:10\""⟩, .int64 15),
       (⟨"foo", false, "validate:\"len:10\""⟩, .string ""),
       (⟨"Bad", true, "validate:\"min\""⟩, .int64 1)]) =
      .ok (some (.aggr [⟨.ErrValidateForUnexportedFields⟩])) :=
  (C1_Validate_hidden_field
      [(⟨"MinInt", true, "validate:\"min:10\""⟩, .int64 15),
       (⟨"foo", false, "validate:\"len:10\""⟩, .string ""),
       (⟨"Bad", true, "validate:\"min\""⟩, .int64 1)]
      ⟨(⟨"foo", false, "validate:\"len:10\""⟩, .string ""), by simp, rfl, by decide⟩
      (by
        intro fv hfv _ _
        have hb : fv = (⟨"MinInt", true, "validate:\"min:10\""⟩, .int64 15) := by
          simpa [beforeHidden, List.takeWhile, hiddenTagged] using hfv
        subst hb
        exact ⟨_, rfl⟩)).1

/-- Counterexample to C1 as stated: an exported tagged field that fails its
own rule, declared before the hidden tagged field, stays in the aggregate,
which then holds two failures and not `ErrValidateForUnexportedFields` alone. -/
theorem C1_counterexample :
    Validate (.struct
      [(⟨"A", true, "validate:\"min:5\""⟩, .int64 1),
       (⟨"b", false, "validate:\"len:1\""⟩, .string "")]) =
      .ok (some (.aggr
        [⟨.Errorf "A: value is less than 5"⟩, ⟨.ErrValidateForUnexportedFields⟩])) ∧
    Validate (.struct
      [(⟨"A", true, "validate:\"min:5\""⟩, .int64 1),
       (⟨"b", false, "validate:\"len:1\""⟩, .string "")]) ≠
      .ok (some (.aggr [⟨.ErrValidateForUnexportedFields⟩])) := by
  have e : Validate (.struct
      [(⟨"A", true, "validate:\"min:5\""⟩, .int64 1),
       (⟨"b", false, "validate:\"len:1\""⟩, .string "")]) =
      .ok (some (.aggr
        [⟨.Errorf "A: value is less than 5"⟩, ⟨.ErrValidateForUnexportedFields⟩])) := rfl
  refine ⟨e, ?_⟩
  rw [e]
  intro h
  injection h with h
  injection h with h
  injection h with h
  injection h with h1 h2
  injection h1 with h1
  cases h1

/-- C3: for every input that has a dynamic type whose kind is not `Struct` (a
text, a map, a pointer, whatever it points to), `Validate` returns the bare
error `ErrNotStruct`, not an aggregate; no field is looked at. -/
theorem C3_Validate_not_struct (val : GoAny) (k : Kind)
    (hk : val.kind = some k) (hns : k ≠ Kind.Struct) :
    Validate val = .ok (some (.base .ErrNotStruct)) := by
  cases val with
  | nil => simp [GoAny.kind] at hk
  | struct fields =>
    simp only [GoAny.kind, Option.some.injEq] at hk
    exact absurd hk.symm hns
  | pointer elem => rfl
  | other k2 h1 h2 => rfl

/-- Witness of C3: a text, a map, a pointer to the nil interface, and a pointer
to a struct whose only field has a rule that cannot be evaluated. -/
theorem C3_Validate_not_struct_witness :
    Validate (.other Kind.String (by decide) (by decide)) = .ok (some (.base .ErrNotStruct)) ∧
    Validate (.other Kind.Map (by decide) (by decide)) = .ok (some (.base .ErrNotStruct)) ∧
    Validate (.pointer .nil) = .ok (some (.base .ErrNotStruct)) ∧
    Validate (.pointer (.struct [(⟨"Bad", true, "validate:\"min\""⟩, .int64 1)])) =
      .ok (some (.base .ErrNotStruct)) :=
  ⟨C3_Validate_not_struct (.other Kind.String (by decide) (by decide)) Kind.String rfl
      (by decide),
    C3_Validate_not_struct (.other Kind.Map (by decide) (by decide)) Kind.Map rfl (by decide),
    C3_Validate_not_struct (.pointer .nil) Kind.Pointer rfl (by decide),
    C3_Validate_not_struct (.pointer (.struct [(⟨"Bad", true, "validate:\"min\""⟩, .int64 1)]))
      Kind.Pointer rfl (by decide)⟩

/-! ## The rule parser -/

theorem strings.Split_rule_rest (name arg rest : String)
    (hn : ':' ∉ name.data) (ha : ':' ∉ arg.data) :
    strings.Split (name ++ ":" ++ arg ++ ":" ++ rest) ':' =
      name :: arg :: strings.Split rest ':' := by
  have h1 := strings.Split_append ':' name (arg ++ ":" ++ rest) hn
  have h2 := strings.Split_append ':' arg rest ha
  have hsing : String.singleton ':' = ":" := rfl
  rw [hsing] at h1 h2
  rw [h2] at h1
  rw [← h1]
  simp [String.append_assoc]

/-- C4 (as the code has it): a clause is split on every `:`.  The rule name is
the text before the first `:` and the raw argument is the text between the
first and the second `:` (up to the end of the clause when there is no second
one); whatever follows a second `:` is ignored by both checkers. -/
theorem C4_clause_split_on_every_colon (name arg rest : String)
    (hn : ':' ∉ name.data) (ha : ':' ∉ arg.data)
    (f : StructField) (num : Int) (str : String) :
    strings.Split (name ++ ":" ++ arg) ':' = [name, arg] ∧
    strings.Split (name ++ ":" ++ arg ++ ":" ++ rest) ':' =
      name :: arg :: strings.Split rest ':' ∧
    validateInt.clause f num (name ++ ":" ++ arg ++ ":" ++ rest) =
      validateInt.clause f num (name ++ ":" ++ arg) ∧
    validateStr.clause f str (name ++ ":" ++ arg ++ ":" ++ rest) =
      validateStr.clause f str (name ++ ":" ++ arg) := by
  have h1 := strings.Split_rule name arg hn ha
  have h2 := strings.Split_rule_rest name arg rest hn ha
  refine ⟨h1, h2, ?_, ?_⟩
  · simp [validateInt.clause, h1, h2, index]
  · simp [validateStr.clause, h1, h2, index]

/-- Witness of C4 on the clauses `in:a:b,c` and `min:1:2`: their raw arguments
are `a` and `1`. -/
theorem C4_clause_split_on_every_colon_witness :
    strings.Split "in:a:b,c" ':' = ["in", "a", "b,c"] ∧
    validateStr.clause ⟨"F", true, ""⟩ "a" "in:a:b,c" =
      validateStr.clause ⟨"F", true, ""⟩ "a" "in:a" ∧
    validateInt.clause ⟨"N", true, ""⟩ 0 "min:1:2" =
      validateInt.clause ⟨"N", true, ""⟩ 0 "min:1" :=
  ⟨(C4_clause_split_on_every_colon "in" "a" "b,c" (by decide) (by decide)
      ⟨"F", true, ""⟩ 0 "a").2.1,
    (C4_clause_split_on_every_colon "in" "a" "b,c" (by decide) (by decide)
      ⟨"F", true, ""⟩ 0 "a").2.2.2,
    (C4_clause_split_on_every_colon "min" "1" "2" (by decide) (by decide)
      ⟨"N", true, ""⟩ 0 "").2.2.1⟩

/-- Counterexample to C4 as stated: with the clause `in:a:b,c` the text `a:b`
is rejected and the text `a` accepted, and with `min:1:2` the bound is the
integer `1` (5 passes, 0 is below it), not a malformed `1:2`. -/
theorem C4_counterexample :
    (strings.Split "in:a:b,c" ':').get? 1 = some "a" ∧
    validateStr ⟨"F", true, "validate:\"in:a:b,c\""⟩ "a:b" =
      .ok (some (.Errorf "F: value is not in [a]")) ∧
    validateStr ⟨"F", true, "validate:\"in:a:b,c\""⟩ "a" = .ok none ∧
    (strings.Split "min:1:2" ':').get? 1 = some "1" ∧
    validateInt ⟨"N", true, "validate:\"min:1:2\""⟩ 5 = .ok none ∧
    validateInt ⟨"N", true, "validate:\"min:1:2\""⟩ 0 =
      .ok (some (.Errorf "N: value is less than 1")) :=
  ⟨rfl, rfl, rfl, rfl, rfl, rfl⟩

/-- C5 (the code at the failing inputs): a bare `min`, `max` or `in` clause
makes the numeric checker, and a bare `len`, `min`, `max` or `in` clause makes
the textual checker, read `params[1]` of a one-element slice: the run stops
with an index-out-of-range panic and no result is returned, by the checker or
by `Validate`.  A bare `email` clause, which reads no argument, is evaluated. -/
theorem C5_bare_clause_index_out_of_range :
    validateInt ⟨"A", true, "validate:\"min\""⟩ 1 = .error (.indexOutOfRange 1 1) ∧
    validateInt ⟨"A", true, "validate:\"max\""⟩ 1 = .error (.indexOutOfRange 1 1) ∧
    validateInt ⟨"A", true, "validate:\"in\""⟩ 1 = .error (.indexOutOfRange 1 1) ∧
    validateStr ⟨"S", true, "validate:\"len\""⟩ "abc" = .error (.indexOutOfRange 1 1) ∧
    validateStr ⟨"S", true, "validate:\"min\""⟩ "abc" = .error (.indexOutOfRange 1 1) ∧
    validateStr ⟨"S", true, "validate:\"max\""⟩ "abc" = .error (.indexOutOfRange 1 1) ∧
    validateStr ⟨"S", true, "validate:\"in\""⟩ "abc" = .error (.indexOutOfRange 1 1) ∧
    Validate (.struct [(⟨"A", true, "validate:\"min\""⟩, .int64 1)]) =
      .error (.indexOutOfRange 1 1) ∧
    validateStr ⟨"S", true, "validate:\"email\""⟩ "jenny@gmail.com" = .ok none :=
  ⟨rfl, rfl, rfl, rfl, rfl, rfl, rfl, rfl, rfl⟩

/-! ## Records without annotations -/

/-- C16: for every struct with zero fields, and for every struct none of whose
fields, exported or not, carries a tag, `Validate` returns nil. -/
theorem C16_Validate_untagged (fields : List (StructField × FieldValue))
    (hno : ∀ fv ∈ fields, fv.1.Tag = "") :
    Validate (.struct fields) = .ok none ∧ Validate (.struct []) = .ok none := by
  refine ⟨?_, rfl⟩
  have hvis : ∀ fv ∈ fields, ¬ (fv.1.Exported = false ∧ fv.1.Tag ≠ "") :=
    fun fv hfv h => h.2 (hno fv hfv)
  have hret : ∀ fv ∈ fields, fv.1.Exported = true → fv.1.Tag ≠ "" →
      ∃ r, validate fv.1 fv.2 = .ok r := fun fv hfv _ ht => absurd (hno fv hfv) ht
  rw [Validate_no_hidden fields hvis hret, if_pos]
  rw [fieldFailures_eq_nil_iff fields hret]
  exact fun fv hfv _ ht => absurd (hno fv hfv) ht

/-- Witness of C16 on a struct with two untagged fields, one hidden and one
exported. -/
theorem C16_Validate_untagged_witness :
    Validate (.struct [(⟨"f1", false, ""⟩, .string "a"), (⟨"F2", true, ""⟩, .int64 7)]) =
      .ok none :=
  (C16_Validate_untagged [(⟨"f1", false, ""⟩, .string "a"), (⟨"F2", true, ""⟩, .int64 7)]
    (by decide)).1

/-! ## The rendering of an aggregate -/

theorem intercalate_go_append (x y sep : String) (l : List String) :
    String.intercalate.go (x ++ y) sep l = x ++ String.intercalate.go y sep l := by
  induction l generalizing y with
  | nil => rfl
  | cons a as ih =>
    simp only [String.intercalate.go]
    rw [String.append_assoc, String.append_assoc, ← String.append_assoc y sep a]
    exact ih _

/-- C17: `Error()` of a `ValidationErrors` value is the messages of its
failures, in list order, joined by `", "`: the empty string for the empty
aggregate, the failure's own message for a one-element aggregate, and the
first message, `", "`, then the rendering of the rest otherwise. -/
theorem C17_ValidationErrors_Error (e e2 : ValidationError) (rest : ValidationErrors) :
    ValidationErrors.Error [] = "" ∧
    ValidationErrors.Error [e] = e.Err.Error ∧
    ValidationErrors.Error (e :: e2 :: rest) =
      e.Err.Error ++ ", " ++ ValidationErrors.Error (e2 :: rest) := by
  refine ⟨rfl, rfl, ?_⟩
  simp only [ValidationErrors.Error, strings.Join, List.map_cons, String.intercalate,
    String.intercalate.go]
  rw [String.append_assoc, intercalate_go_append, intercalate_go_append, String.append_assoc]

/-! ## Sequences -/

/-- C18: for every annotation, whether its rule argument is malformed, can
never be satisfied, or cannot even be read, the rule engine returns no failure
on an empty `[]int64` and on an empty `[]string`, and so does `Validate` on an
exported field holding one. -/
theorem C18_validate_empty_slice (f : StructField) (hexp : f.Exported = true) :
    validate f (.int64Slice []) = .ok none ∧
    validate f (.stringSlice []) = .ok none ∧
    Validate (.struct [(f, .int64Slice [])]) = .ok none ∧
    Validate (.struct [(f, .stringSlice [])]) = .ok none := by
  refine ⟨rfl, rfl, ?_, ?_⟩
  · by_cases ht : f.Tag = ""
    · simp [Validate, Validate.loop, hexp, ht]
    · simp [Validate, Validate.loop, hexp, ht, validate, validate.intLoop]
  · by_cases ht : f.Tag = ""
    · simp [Validate, Validate.loop, hexp, ht]
    · simp [Validate, Validate.loop, hexp, ht, validate, validate.strLoop]

/-- Witness of C18 on the annotations `min:abc`, `max:-7`, `in:` and the bare
`min`. -/
theorem C18_validate_empty_slice_witness :
    Validate (.struct [(⟨"A", true, "validate:\"min:abc\""⟩, .int64Slice [])]) = .ok none ∧
    Validate (.struct [(⟨"B", true, "validate:\"max:-7\""⟩, .stringSlice [])]) = .ok none ∧
    Validate (.struct [(⟨"C", true, "validate:\"in:\""⟩, .stringSlice [])]) = .ok none ∧
    Validate (.struct [(⟨"D", true, "validate:\"min\""⟩, .int64Slice [])]) = .ok none :=
  ⟨(C18_validate_empty_slice ⟨"A", true, "validate:\"min:abc\""⟩ rfl).2.2.1,
    (C18_validate_empty_slice ⟨"B", true, "validate:\"max:-7\""⟩ rfl).2.2.2,
    (C18_validate_empty_slice ⟨"C", true, "validate:\"in:\""⟩ rfl).2.2.2,
    (C18_validate_empty_slice ⟨"D", true, "validate:\"min\""⟩ rfl).2.2.1⟩

/-! ## Several clauses, several elements -/

theorem firstFailure_fail {α : Type} (check : α → Except GoPanic (Option BaseError))
    (pre post : List α) (x : α) (e : BaseError)
    (hpre : ∀ p ∈ pre, check p = .ok none) (hx : check x = .ok (some e)) :
    firstFailure check (pre ++ x :: post) = .ok (some e) := by
  induction pre with
  | nil => simp [firstFailure, hx]
  | cons p ps ih =>
    have hp : check p = .ok none := hpre p (List.mem_cons_self _ _)
    have hps : ∀ q ∈ ps, check q = .ok none := fun q hq => hpre q (List.mem_cons_of_mem _ hq)
    simp only [List.cons_append, firstFailure, hp]
    exact ih hps

theorem firstFailure_none_iff {α : Type} (check : α → Except GoPanic (Option BaseError))
    (l : List α) : firstFailure check l = .ok none ↔ ∀ x ∈ l, check x = .ok none := by
  induction l with
  | nil => simp [firstFailure]
  | cons x xs ih =>
    unfold firstFailure
    cases hx : check x with
    | error p =>
      constructor
      · intro h; cases h
      · intro h
        have := h x (List.mem_cons_self _ _)
        rw [hx] at this
        cases this
    | ok r =>
      cases r with
      | some e =>
        constructor
        · intro h
          injection h with h
          cases h
        · intro h
          have := h x (List.mem_cons_self _ _)
          rw [hx] at this
          injection this with this
          cases this
      | none =>
        simp only [ih]
        constructor
        · intro h y hy
          rcases List.mem_cons.mp hy with rfl | hmem
          · exact hx
          · exact h y hmem
        · intro h y hy
          exact h y (List.mem_cons_of_mem _ hy)

theorem firstFailure_some {α : Type} (check : α → Except GoPanic (Option BaseError))
    (l : List α) (e : BaseError) (h : firstFailure check l = .ok (some e)) :
    ∃ pre x post, l = pre ++ x :: post ∧ (∀ p ∈ pre, check p = .ok none) ∧
      check x = .ok (some e) := by
  induction l with
  | nil => simp [firstFailure] at h
  | cons y ys ih =>
    unfold firstFailure at h
    cases hy : check y with
    | error p => rw [hy] at h; cases h
    | ok r =>
      rw [hy] at h
      cases r with
      | some e2 =>
        simp only at h
        injection h with h
        injection h with h
        subst h
        exact ⟨[], y, ys, rfl, by simp, hy⟩
      | none =>
        obtain ⟨pre, x, post, hl, hpre, hx⟩ := ih h
        refine ⟨y :: pre, x, post, by simp [hl], ?_, hx⟩
        intro p hp
        rcases List.mem_cons.mp hp with rfl | hmem
        · exact hy
        · exact hpre p hmem

theorem firstFailure_of_returns {α : Type} (check : α → Except GoPanic (Option BaseError))
    (l : List α) (hret : ∀ x ∈ l, ∃ r, check x = .ok r)
    (hfail : ∃ x ∈ l, ∃ e, check x = .ok (some e)) :
    ∃ e, firstFailure check l = .ok (some e) := by
  induction l with
  | nil => simp at hfail
  | cons y ys ih =>
    unfold firstFailure
    obtain ⟨r, hr⟩ := hret y (List.mem_cons_self _ _)
    rw [hr]
    cases r with
    | some e => exact ⟨e, rfl⟩
    | none =>
      apply ih (fun x hx => hret x (List.mem_cons_of_mem _ hx))
      obtain ⟨x, hx, e, he⟩ := hfail
      rcases List.mem_cons.mp hx with rfl | hmem
      · rw [hr] at he
        injection he with he
        cases he
      · exact ⟨x, hmem, e, he⟩

theorem validateInt_loop_eq (f : StructField) (v : Int) (l : List String) :
    validateInt.loop f v l = firstFailure (validateInt.clause f v) l := by
  induction l with
  | nil => rfl
  | cons c cs ih => simp only [validateInt.loop, firstFailure, ih]

theorem validateStr_loop_eq (f : StructField) (s : String) (l : List String) :
    validateStr.loop f s l = firstFailure (validateStr.clause f s) l := by
  induction l with
  | nil => rfl
  | cons c cs ih => simp only [validateStr.loop, firstFailure, ih]

theorem validate_intLoop_eq (f : StructField) (l : List Int) :
    validate.intLoop f l = firstFailure (validateInt f) l := by
  induction l with
  | nil => rfl
  | cons c cs ih => simp only [validate.intLoop, firstFailure, ih]

theorem validate_strLoop_eq (f : StructField) (l : List String) :
    validate.strLoop f l = firstFailure (validateStr f) l := by
  induction l with
  | nil => rfl
  | cons c cs ih => simp only [validate.strLoop, firstFailure, ih]

/-- C12: clauses are evaluated in annotation order and evaluation stops at the
first failing clause.  For the numeric checker on a value `v` and the textual
checker on a text `s`: when the clauses before a clause `c` pass and `c`
fails with `e`, the checker returns `e`, whatever the clauses after `c` are (a
malformed later clause is not reported); a failure returned by the checker is
always that of such a first failing clause; and the checker returns no failure
exactly when every clause passes. -/
theorem C12_first_failing_clause (f : StructField) (v : Int) (s : String) :
    (∀ pre c post e,
      strings.Split (StructTag.Get f.Tag "validate") ';' = pre ++ c :: post →
      (∀ p ∈ pre, validateInt.clause f v p = .ok none) →
      validateInt.clause f v c = .ok (some e) → validateInt f v = .ok (some e)) ∧
    (∀ pre c post e,
      strings.Split (StructTag.Get f.Tag "validate") ';' = pre ++ c :: post →
      (∀ p ∈ pre, validateStr.clause f s p = .ok none) →
      validateStr.clause f s c = .ok (some e) → validateStr f s = .ok (some e)) ∧
    (∀ e, validateInt f v = .ok (some e) →
      ∃ pre c post, strings.Split (StructTag.Get f.Tag "validate") ';' = pre ++ c :: post ∧
        (∀ p ∈ pre, validateInt.clause f v p = .ok none) ∧
        validateInt.clause f v c = .ok (some e)) ∧
    (∀ e, validateStr f s = .ok (some e) →
      ∃ pre c post, strings.Split (StructTag.Get f.Tag "validate") ';' = pre ++ c :: post ∧
        (∀ p ∈ pre, validateStr.clause f s p = .ok none) ∧
        validateStr.clause f s c = .ok (some e)) ∧
    (validateInt f v = .ok none ↔
      ∀ c ∈ strings.Split (StructTag.Get f.Tag "validate") ';',
        validateInt.clause f v c = .ok none) ∧
    (validateStr f s = .ok none ↔
      ∀ c ∈ strings.Split (StructTag.Get f.Tag "validate") ';',
        validateStr.clause f s c = .ok none) := by
  refine ⟨?_, ?_, ?_, ?_, ?_, ?_⟩
  · intro pre c post e hsplit hpre hc
    rw [validateInt, validateInt_loop_eq, hsplit]
    exact firstFailure_fail _ pre post c e hpre hc
  · intro pre c post e hsplit hpre hc
    rw [validateStr, validateStr_loop_eq, hsplit]
    exact firstFailure_fail _ pre post c e hpre hc
  · intro e he
    rw [validateInt, validateInt_loop_eq] at he
    exact firstFailure_some _ _ e he
  · intro e he
    rw [validateStr, validateStr_loop_eq] at he
    exact firstFailure_some _ _ e he
  · rw [validateInt, validateInt_loop_eq]
    exact firstFailure_none_iff _ _
  · rw [validateStr, validateStr_loop_eq]
    exact firstFailure_none_iff _ _

/-- Witness of C12: with `min:5;max:x` the value 1 fails `min:5` and the
malformed `max:x` is not reported; with `max:9;len:3;min:x` the text `ab`
passes `max:9` and fails `len:3`; with `min:1;max:9` the value 5 passes. -/
theorem C12_first_failing_clause_witness :
    validateInt ⟨"A", true, "validate:\"min:5;max:x\""⟩ 1 =
      .ok (some (.Errorf "A: value is less than 5")) ∧
    validateStr ⟨"S", true, "validate:\"max:9;len:3;min:x\""⟩ "ab" =
      .ok (some (.Errorf "S: len is not equal to 3")) ∧
    validateInt ⟨"B", true, "validate:\"min:1;max:9\""⟩ 5 = .ok none :=
  ⟨(C12_first_failing_clause ⟨"A", true, "validate:\"min:5;max:x\""⟩ 1 "").1
      [] "min:5" ["max:x"] (.Errorf "A: value is less than 5") rfl
      (by intro p hp; cases hp) rfl,
    (C12_first_failing_clause ⟨"S", true, "validate:\"max:9;len:3;min:x\""⟩ 0 "ab").2.1
      ["max:9"] "len:3" ["min:x"] (.Errorf "S: len is not equal to 3") rfl
      (by
        intro p hp
        simp only [List.mem_singleton] at hp
        subst hp
        rfl) rfl,
    (C12_first_failing_clause ⟨"B", true, "validate:\"min:1;max:9\""⟩ 5 "").2.2.2.2.1.mpr
      (by
        intro c hc
        have hl : strings.Split (StructTag.Get
            (StructField.mk "B" true "validate:\"min:1;max:9\"").Tag "validate") ';' =
            ["min:1", "max:9"] := rfl
        rw [hl] at hc
        simp only [List.mem_cons, List.mem_singleton, List.not_mem_nil, or_false] at hc
        rcases hc with rfl | rfl <;> rfl)⟩

/-- C13: on a `[]int64` (resp. `[]string`) field value the rule engine applies
the numeric (resp. textual) scalar checker to the elements in index order and
returns the failure of the first element on which it fails: when the elements
before `n` pass and `n` fails with `e` the result is `e`, whatever follows;
the result is no failure exactly when the scalar checker passes on every
element; and, the scalar checks returning, a sequence with at least one
invalid element fails. -/
theorem C13_validate_slices (f : StructField) (ns : List Int) (ss : List String) :
    (∀ pre n post e, ns = pre ++ n :: post →
      (∀ m ∈ pre, validateInt f m = .ok none) → validateInt f n = .ok (some e) →
      validate f (.int64Slice ns) = .ok (some e)) ∧
    (∀ pre x post e, ss = pre ++ x :: post →
      (∀ y ∈ pre, validateStr f y = .ok none) → validateStr f x = .ok (some e) →
      validate f (.stringSlice ss) = .ok (some e)) ∧
    (validate f (.int64Slice ns) = .ok none ↔ ∀ n ∈ ns, validateInt f n = .ok none) ∧
    (validate f (.stringSlice ss) = .ok none ↔ ∀ x ∈ ss, validateStr f x = .ok none) ∧
    ((∀ n ∈ ns, ∃ r, validateInt f n = .ok r) →
      (∃ n ∈ ns, ∃ e, validateInt f n = .ok (some e)) →
      ∃ e, validate f (.int64Slice ns) = .ok (some e)) ∧
    ((∀ x ∈ ss, ∃ r, validateStr f x = .ok r) →
      (∃ x ∈ ss, ∃ e, validateStr f x = .ok (some e)) →
      ∃ e, validate f (.stringSlice ss) = .ok (some e)) := by
  have hi : validate f (.int64Slice ns) = firstFailure (validateInt f) ns :=
    validate_intLoop_eq f ns
  have hs : validate f (.stringSlice ss) = firstFailure (validateStr f) ss :=
    validate_strLoop_eq f ss
  refine ⟨?_, ?_, ?_, ?_, ?_, ?_⟩
  · intro pre n post e hns hpre hn
    rw [hi, hns]
    exact firstFailure_fail _ pre post n e hpre hn
  · intro pre x post e hss hpre hx
    rw [hs, hss]
    exact firstFailure_fail _ pre post x e hpre hx
  · rw [hi]
    exact firstFailure_none_iff _ _
  · rw [hs]
    exact firstFailure_none_iff _ _
  · intro hret hfail
    rw [hi]
    exact firstFailure_of_returns _ _ hret hfail
  · intro hret hfail
    rw [hs]
    exact firstFailure_of_returns _ _ hret hfail

/-- Witness of C13: with `len:5` the texts `abcde`, `abcdef`, `x` fail on the
second element; with `min:10` the numbers 15, 9, 3 fail on 9. -/
theorem C13_validate_slices_witness :
    validate ⟨"Higher", true, "validate:\"len:5\""⟩ (.stringSlice ["abcde", "abcdef", "x"]) =
      .ok (some (.Errorf "Higher: len is not equal to 5")) ∧
    validate ⟨"MinInt", true, "validate:\"min:10\""⟩ (.int64Slice [15, 9, 3]) =
      .ok (some (.Errorf "MinInt: value is less than 10")) :=
  ⟨(C13_validate_slices ⟨"Higher", true, "validate:\"len:5\""⟩ []
      ["abcde", "abcdef", "x"]).2.1 ["abcde"] "abcdef" ["x"]
      (.Errorf "Higher: len is not equal to 5") rfl
      (by
        intro y hy
        simp only [List.mem_singleton] at hy
        subst hy
        rfl) rfl,
    (C13_validate_slices ⟨"MinInt", true, "validate:\"min:10\""⟩ [15, 9, 3] []).1
      [15] 9 [3] (.Errorf "MinInt: value is less than 10") rfl
      (by
        intro m hm
        simp only [List.mem_singleton] at hm
        subst hm
        rfl) rfl⟩

/-! ## Unknown rule names -/

theorem index_ruleName (c : String) : index (strings.Split c ':') 0 = .ok (ruleName c) := by
  unfold ruleName strings.Split
  cases h : strings.splitChars ':' c.data with
  | nil => exact absurd h (strings.splitChars_ne_nil ':' c.data)
  | cons x xs => simp [index]

theorem validateInt_clause_unknown (f : StructField) (v : Int) (c : String)
    (h : ruleName c ∉ numericRules) : validateInt.clause f v c = .ok none := by
  have h1 : ruleName c ≠ "min" := fun e => h (by simp [numericRules, e])
  have h2 : ruleName c ≠ "max" := fun e => h (by simp [numericRules, e])
  have h3 : ruleName c ≠ "in" := fun e => h (by simp [numericRules, e])
  simp [validateInt.clause, index_ruleName, h1, h2, h3]

theorem validateStr_clause_unknown (f : StructField) (s : String) (c : String)
    (h : ruleName c ∉ textualRules) : validateStr.clause f s c = .ok none := by
  have h1 : ruleName c ≠ "len" := fun e => h (by simp [textualRules, e])
  have h2 : ruleName c ≠ "min" := fun e => h (by simp [textualRules, e])
  have h3 : ruleName c ≠ "max" := fun e => h (by simp [textualRules, e])
  have h4 : ruleName c ≠ "in" := fun e => h (by simp [textualRules, e])
  have h5 : ruleName c ≠ "email" := fun e => h (by simp [textualRules, e])
  simp [validateStr.clause, index_ruleName, h1, h2, h3, h4, h5]

theorem firstFailure_skip {α : Type} (check : α → Except GoPanic (Option BaseError))
    (pre post : List α) (x : α) (hx : check x = .ok none) :
    firstFailure check (pre ++ x :: post) = firstFailure check (pre ++ post) := by
  induction pre with
  | nil => simp [firstFailure, hx]
  | cons p ps ih =>
    show firstFailure check (p :: (ps ++ x :: post)) = firstFailure check (p :: (ps ++ post))
    unfold firstFailure
    rw [ih]

theorem validateInt_clause_name (f g : StructField) (h : f.Name = g.Name) (v : Int) :
    validateInt.clause f v = validateInt.clause g v := by
  funext c
  simp only [validateInt.clause, h]

theorem validateStr_clause_name (f g : StructField) (h : f.Name = g.Name) (s : String) :
    validateStr.clause f s = validateStr.clause g s := by
  funext c
  simp only [validateStr.clause, h]

/-- C14: a clause whose rule name the checker has no case for is ignored.  An
annotation all of whose clauses have such names yields no failure, for every
value; `len` and `email` are such names for the numeric checker, and the
empty clause for both.  Two fields of the same name whose annotations differ
only by one such clause, inserted anywhere, get the same result from the
checker. -/
theorem C14_unknown_rules_ignored (f g : StructField) (v : Int) (s : String) :
    ((∀ c ∈ strings.Split (StructTag.Get f.Tag "validate") ';', ruleName c ∉ numericRules) →
      validateInt f v = .ok none) ∧
    ((∀ c ∈ strings.Split (StructTag.Get f.Tag "validate") ';', ruleName c ∉ textualRules) →
      validateStr f s = .ok none) ∧
    (∀ pre c post, f.Name = g.Name →
      strings.Split (StructTag.Get f.Tag "validate") ';' = pre ++ c :: post →
      strings.Split (StructTag.Get g.Tag "validate") ';' = pre ++ post →
      (ruleName c ∉ numericRules → validateInt f v = validateInt g v) ∧
      (ruleName c ∉ textualRules → validateStr f s = validateStr g s)) ∧
    ruleName "len:3" ∉ numericRules ∧ ruleName "email" ∉ numericRules ∧
    ruleName "" ∉ numericRules ∧ ruleName "" ∉ textualRules := by
  refine ⟨?_, ?_, ?_, by decide, by decide, by decide, by decide⟩
  · intro h
    rw [validateInt, validateInt_loop_eq, firstFailure_none_iff]
    exact fun c hc => validateInt_clause_unknown f v c (h c hc)
  · intro h
    rw [validateStr, validateStr_loop_eq, firstFailure_none_iff]
    exact fun c hc => validateStr_clause_unknown f s c (h c hc)
  · intro pre c post hname hf hg
    constructor
    · intro hc
      rw [validateInt, validateInt, validateInt_loop_eq, validateInt_loop_eq, hf, hg,
        validateInt_clause_name f g hname v]
      exact firstFailure_skip _ pre post c (validateInt_clause_unknown g v c hc)
    · intro hc
      rw [validateStr, validateStr, validateStr_loop_eq, validateStr_loop_eq, hf, hg,
        validateStr_clause_name f g hname s]
      exact firstFailure_skip _ pre post c (validateStr_clause_unknown g s c hc)

/-- Witness of C14: the numeric checker ignores `len:3;email;;foo:1`, and gives
the same result with `min:5;len:3;max:9` as with `min:5;max:9`. -/
theorem C14_unknown_rules_ignored_witness :
    validateInt ⟨"A", true, "validate:\"len:3;email;;foo:1\""⟩ 42 = .ok none ∧
    validateInt ⟨"A", true, "validate:\"min:5;len:3;max:9\""⟩ 42 =
      validateInt ⟨"A", true, "validate:\"min:5;max:9\""⟩ 42 :=
  ⟨(C14_unknown_rules_ignored ⟨"A", true, "validate:\"len:3;email;;foo:1\""⟩
      ⟨"A", true, ""⟩ 42 "").1
      (by
        intro c hc
        have hl : strings.Split (StructTag.Get
            (StructField.mk "A" true "validate:\"len:3;email;;foo:1\"").Tag "validate") ';' =
            ["len:3", "email", "", "foo:1"] := rfl
        rw [hl] at hc
        simp only [List.mem_cons, List.mem_singleton, List.not_mem_nil, or_false] at hc
        rcases hc with rfl | rfl | rfl | rfl <;> decide),
    ((C14_unknown_rules_ignored ⟨"A", true, "validate:\"min:5;len:3;max:9\""⟩
      ⟨"A", true, "validate:\"min:5;max:9\""⟩ 42 "").2.2.1
      ["min:5"] "len:3" ["max:9"] rfl rfl rfl).1 (by decide)⟩

/-! ## The messages of the failures -/

theorem msg_head (name lit tail x : String) (hl : lit = ": " ++ tail) :
    name ++ lit ++ x = name ++ ": " ++ (tail ++ x) := by
  subst hl
  simp [String.append_assoc]

theorem msg_head_only (name lit tail : String) (hl : lit = ": " ++ tail) :
    name ++ lit = name ++ ": " ++ tail := by
  subst hl
  simp [String.append_assoc]

theorem namesField_intro (name lit x tail : String) (hl : lit = ": " ++ tail) :
    namesField name (.Errorf (name ++ lit ++ x)) :=
  ⟨tail ++ x, congrArg BaseError.Errorf (msg_head name lit tail x hl)⟩

theorem namesField_intro0 (name lit tail : String) (hl : lit = ": " ++ tail) :
    namesField name (.Errorf (name ++ lit)) :=
  ⟨tail, congrArg BaseError.Errorf (msg_head_only name lit tail hl)⟩

theorem validateInt_clause_attr (f : StructField) (v : Int) (c : String) (e : BaseError)
    (h : validateInt.clause f v c = .ok (some e)) :
    e = .ErrInvalidValidatorSyntax ∨ namesField f.Name e := by
  unfold validateInt.clause at h
  simp only [index_ruleName] at h
  repeat' split at h
  all_goals cases h
  all_goals first
    | exact Or.inl rfl
    | exact Or.inr (namesField_intro _ _ _ "value is less than " rfl)
    | exact Or.inr (namesField_intro _ _ _ "value is greater than " rfl)
    | exact Or.inr (namesField_intro _ _ _ "value is not in " rfl)

theorem validateStr_clause_attr (f : StructField) (s : String) (c : String) (e : BaseError)
    (h : validateStr.clause f s c = .ok (some e)) :
    e = .ErrInvalidValidatorSyntax ∨ namesField f.Name e := by
  unfold validateStr.clause at h
  simp only [index_ruleName] at h
  repeat' split at h
  all_goals cases h
  all_goals first
    | exact Or.inl rfl
    | exact Or.inr (namesField_intro _ _ _ "len is not equal to " rfl)
    | exact Or.inr (namesField_intro _ _ _ "len is less than " rfl)
    | exact Or.inr (namesField_intro _ _ _ "len is greater than " rfl)
    | exact Or.inr (namesField_intro _ _ _ "value is not in empty " rfl)
    | exact Or.inr (namesField_intro _ _ _ "value is not in " rfl)
    | exact Or.inr (namesField_intro0 _ _ "value is not email address" rfl)

theorem validateInt_attr (f : StructField) (v : Int) (e : BaseError)
    (h : validateInt f v = .ok (some e)) :
    e = .ErrInvalidValidatorSyntax ∨ namesField f.Name e := by
  rw [validateInt, validateInt_loop_eq] at h
  obtain ⟨_, c, _, _, _, hc⟩ := firstFailure_some _ _ e h
  exact validateInt_clause_attr f v c e hc

theorem validateStr_attr (f : StructField) (s : String) (e : BaseError)
    (h : validateStr f s = .ok (some e)) :
    e = .ErrInvalidValidatorSyntax ∨ namesField f.Name e := by
  rw [validateStr, validateStr_loop_eq] at h
  obtain ⟨_, c, _, _, _, hc⟩ := firstFailure_some _ _ e h
  exact validateStr_clause_attr f s c e hc

theorem validate_attr (f : StructField) (v : FieldValue) (e : BaseError)
    (h : validate f v = .ok (some e)) :
    e = .ErrInvalidValidatorSyntax ∨ namesField f.Name e := by
  cases v with
  | int64 n => exact validateInt_attr f n e h
  | string s => exact validateStr_attr f s e h
  | int64Slice ns =>
    have h2 : firstFailure (validateInt f) ns = .ok (some e) := by
      rw [← validate_intLoop_eq]; exact h
    obtain ⟨_, n, _, _, _, hn⟩ := firstFailure_some _ _ e h2
    exact validateInt_attr f n e hn
  | stringSlice ss =>
    have h2 : firstFailure (validateStr f) ss = .ok (some e) := by
      rw [← validate_strLoop_eq]; exact h
    obtain ⟨_, x, _, _, _, hx⟩ := firstFailure_some _ _ e h2
    exact validateStr_attr f x e hx
  | ifaceInt64 n => cases h
  | ifaceString typ s => exact validateStr_attr f _ e h
  | other => cases h

theorem Validate_loop_entries (P : ValidationError → Prop)
    (hP0 : P ⟨.ErrValidateForUnexportedFields⟩)
    (fields : List (StructField × FieldValue))
    (hP : ∀ fv ∈ fields, checked fv = true →
      ∀ e, validate fv.1 fv.2 = .ok (some e) → P ⟨e⟩)
    (err : ValidationErrors) (herr : ∀ ve ∈ err, P ve) (l : ValidationErrors)
    (h : Validate.loop fields err = .ok (some (.aggr l))) : ∀ ve ∈ l, P ve := by
  induction fields generalizing err with
  | nil =>
    unfold Validate.loop at h
    split at h
    · cases h
    · cases h
      exact herr
  | cons fv rest ih =>
    obtain ⟨tf, v⟩ := fv
    have hrest : ∀ fv ∈ rest, checked fv = true →
        ∀ e, validate fv.1 fv.2 = .ok (some e) → P ⟨e⟩ :=
      fun fv hfv => hP fv (List.mem_cons_of_mem _ hfv)
    unfold Validate.loop at h
    split at h
    · cases h
      intro ve hve
      rcases List.mem_append.mp hve with h1 | h1
      · exact herr ve h1
      · simp only [List.mem_singleton] at h1
        subst h1
        exact hP0
    · split at h
      · rename_i hc
        split at h
        · cases h
        · rename_i e he
          apply ih hrest (err ++ [⟨e⟩]) _ h
          intro ve hve
          rcases List.mem_append.mp hve with h1 | h1
          · exact herr ve h1
          · simp only [List.mem_singleton] at h1
            subst h1
            exact hP (tf, v) (List.mem_cons_self _ _) hc e he
        · exact ih hrest err herr h
      · exact ih hrest err herr h

/-- C15 (as the code has it): every entry of an aggregate returned by
`Validate` is `ErrValidateForUnexportedFields` or the failure returned by the
check of an exported tagged field of the record; such a failure is either
`ErrInvalidValidatorSyntax`, whose message names no field, or a failure whose
message begins with the name of that field followed by `": "`. -/
theorem C15_failure_message (fields : List (StructField × FieldValue))
    (l : ValidationErrors) (h : Validate (.struct fields) = .ok (some (.aggr l))) :
    ∀ ve ∈ l, ve.Err = .ErrValidateForUnexportedFields ∨
      ∃ fv ∈ fields, fv.1.Exported = true ∧ fv.1.Tag ≠ "" ∧
        validate fv.1 fv.2 = .ok (some ve.Err) ∧
        (ve.Err = .ErrInvalidValidatorSyntax ∨
          ∃ rest, ve.Err.Error = fv.1.Name ++ ": " ++ rest) := by
  refine Validate_loop_entries _ (Or.inl rfl) fields ?_ [] (by simp) l h
  intro fv hfv hc e he
  refine Or.inr ⟨fv, hfv, ((checked_iff fv).mp hc).1, ((checked_iff fv).mp hc).2, he, ?_⟩
  rcases validate_attr fv.1 fv.2 e he with h1 | ⟨rest, h1⟩
  · exact Or.inl h1
  · exact Or.inr ⟨rest, by rw [h1]; rfl⟩

/-- Witness of C15 on a struct with a text that is too long and a malformed
`len` rule: the first entry of the aggregate names the field `MaxA`. -/
theorem C15_failure_message_witness :
    (ValidationError.mk (.Errorf "MaxA: len is greater than 2")).Err =
        .ErrValidateForUnexportedFields ∨
      ∃ fv ∈ [((⟨"MaxA", true, "validate:\"max:2\""⟩ : StructField), FieldValue.string "efgh"),
          (⟨"Foo", true, "validate:\"len:abcdef\""⟩, FieldValue.string "")],
        fv.1.Exported = true ∧ fv.1.Tag ≠ "" ∧
        validate fv.1 fv.2 =
          .ok (some (ValidationError.mk (.Errorf "MaxA: len is greater than 2")).Err) ∧
        ((ValidationError.mk (.Errorf "MaxA: len is greater than 2")).Err =
            .ErrInvalidValidatorSyntax ∨
          ∃ rest, (ValidationError.mk (.Errorf "MaxA: len is greater than 2")).Err.Error =
            fv.1.Name ++ ": " ++ rest) :=
  C15_failure_message
    [(⟨"MaxA", true, "validate:\"max:2\""⟩, .string "efgh"),
     (⟨"Foo", true, "validate:\"len:abcdef\""⟩, .string "")]
    [⟨.Errorf "MaxA: len is greater than 2"⟩, ⟨.ErrInvalidValidatorSyntax⟩] rfl
    ⟨.Errorf "MaxA: len is greater than 2"⟩ (List.mem_cons_self _ _)

/-- Counterexample to C15 as stated: the failure of a field `Foo` with the
malformed rule `len:abcdef` is `ErrInvalidValidatorSyntax`, whose message
`invalid validator syntax` does not begin with `Foo: `. -/
theorem C15_counterexample :
    Validate (.struct [(⟨"Foo", true, "validate:\"len:abcdef\""⟩, .string "")]) =
      .ok (some (.aggr [⟨.ErrInvalidValidatorSyntax⟩])) ∧
    BaseError.ErrInvalidValidatorSyntax.Error = "invalid validator syntax" ∧
    ¬ ∃ rest, BaseError.ErrInvalidValidatorSyntax.Error = "Foo" ++ ": " ++ rest := by
  refine ⟨rfl, rfl, ?_⟩
  rintro ⟨rest, h⟩
  have hd := congrArg String.data h
  simp only [BaseError.Error, String.data_append] at hd
  have h0 := congrArg List.head? hd
  simp only [List.cons_append, List.head?_cons, Option.some.injEq] at h0
  exact absurd h0 (by decide)

/-! ## The tag and the `validate` key -/

theorem Validate_hidden (fields : List (StructField × FieldValue))
    (hhid : ∃ fv ∈ fields, fv.1.Exported = false ∧ fv.1.Tag ≠ "")
    (hpass : ∀ fv ∈ beforeHidden fields, fv.1.Exported = true → fv.1.Tag ≠ "" →
      validate fv.1 fv.2 = .ok none) :
    Validate (.struct fields) = .ok (some (.aggr [⟨.ErrValidateForUnexportedFields⟩])) := by
  have hany : fields.any hiddenTagged = true := by
    obtain ⟨fv, hfv, he, ht⟩ := hhid
    rw [List.any_eq_true]
    exact ⟨fv, hfv, by simp [hiddenTagged, he, ht]⟩
  have hret : ∀ fv ∈ beforeHidden fields, checked fv = true →
      ∃ r, validate fv.1 fv.2 = .ok r :=
    fun fv hfv hc => ⟨none, hpass fv hfv ((checked_iff fv).mp hc).1 ((checked_iff fv).mp hc).2⟩
  have hloop := Validate.loop_spec fields [] hret
  rw [hany] at hloop
  simp only [if_true, List.nil_append] at hloop
  have hempty : fieldFailures (beforeHidden fields) = [] := by
    unfold fieldFailures
    rw [List.filterMap_eq_nil_iff]
    intro fv hfv
    by_cases hc : checked fv = true
    · have hr := hpass fv hfv ((checked_iff fv).mp hc).1 ((checked_iff fv).mp hc).2
      simp [fieldFailure, hc, hr]
    · simp [fieldFailure, hc]
  rw [hempty] at hloop
  exact hloop

theorem validateInt_of_empty (f : StructField) (n : Int)
    (h : StructTag.Get f.Tag "validate" = "") : validateInt f n = .ok none := by
  rw [validateInt, h, validateInt_loop_eq, firstFailure_none_iff]
  intro c hc
  have hc2 : c = "" := by
    have hl : strings.Split "" ';' = [""] := rfl
    rw [hl] at hc
    simpa using hc
  subst hc2
  exact validateInt_clause_unknown f n "" (by decide)

theorem validateStr_of_empty (f : StructField) (s : String)
    (h : StructTag.Get f.Tag "validate" = "") : validateStr f s = .ok none := by
  rw [validateStr, h, validateStr_loop_eq, firstFailure_none_iff]
  intro c hc
  have hc2 : c = "" := by
    have hl : strings.Split "" ';' = [""] := rfl
    rw [hl] at hc
    simpa using hc
  subst hc2
  exact validateStr_clause_unknown f s "" (by decide)

theorem validate_of_empty (f : StructField) (v : FieldValue)
    (h : StructTag.Get f.Tag "validate" = "") (hv : ∀ n, v ≠ .ifaceInt64 n) :
    validate f v = .ok none := by
  cases v with
  | int64 n => exact validateInt_of_empty f n h
  | string s => exact validateStr_of_empty f s h
  | int64Slice ns =>
    show validate.intLoop f ns = .ok none
    rw [validate_intLoop_eq, firstFailure_none_iff]
    exact fun n _ => validateInt_of_empty f n h
  | stringSlice ss =>
    show validate.strLoop f ss = .ok none
    rw [validate_strLoop_eq, firstFailure_none_iff]
    exact fun x _ => validateStr_of_empty f x h
  | ifaceInt64 n => exact absurd rfl (hv n)
  | ifaceString typ s => exact validateStr_of_empty f _ h
  | other => rfl

theorem validate_of_empty_eq (f : StructField) (v : FieldValue)
    (h : StructTag.Get f.Tag "validate" = "") :
    validate f v =
      match v with
      | .ifaceInt64 _ => .error (.valueError "reflect.Value.Int")
      | _ => .ok none := by
  cases v with
  | ifaceInt64 n => rfl
  | int64 n => exact validate_of_empty f _ h (by intro n h; cases h)
  | string s => exact validate_of_empty f _ h (by intro n h; cases h)
  | int64Slice ns => exact validate_of_empty f _ h (by intro n h; cases h)
  | stringSlice ss => exact validate_of_empty f _ h (by intro n h; cases h)
  | ifaceString typ s => exact validate_of_empty f _ h (by intro n h; cases h)
  | other => rfl

theorem Validate_single_exported (f : StructField) (v : FieldValue) (hexp : f.Exported = true) :
    Validate (.struct [(f, v)]) =
      if f.Tag = "" then .ok none
      else match validate f v with
        | .error p => .error p
        | .ok none => .ok none
        | .ok (some e) => .ok (some (.aggr [⟨e⟩])) := by
  by_cases ht : f.Tag = ""
  · simp [Validate, Validate.loop, hexp, ht]
  · rw [if_neg ht]
    cases hval : validate f v with
    | error p => simp [Validate, Validate.loop, hexp, ht, hval]
    | ok r =>
      cases r with
      | none => simp [Validate, Validate.loop, hexp, ht, hval]
      | some e => simp [Validate, Validate.loop, hexp, ht, hval]

theorem Validate_single_hidden (f : StructField) (v : FieldValue) (hexp : f.Exported = false) :
    Validate (.struct [(f, v)]) =
      if f.Tag = "" then .ok none
      else .ok (some (.aggr [⟨.ErrValidateForUnexportedFields⟩])) := by
  by_cases ht : f.Tag = ""
  · simp [Validate, Validate.loop, hexp, ht]
  · simp [Validate, Validate.loop, hexp, ht]

/-- C19 (the code, with the input on which it departs from the claim): the
abort on a hidden field and the decision to run the rule engine depend on the
whole struct tag being non-empty, not on its `validate` entry.  A record with a
non-exported field whose tag is not empty — whether or not the tag has a
`validate` entry — gets `ErrValidateForUnexportedFields` (alone when the
exported tagged fields before it pass), and a non-exported field with an empty
tag is skipped.  An exported field is skipped when its tag is empty and handed
to the rule engine `validate` when its tag is not empty, whatever the tag holds.
When the tag has no `validate` entry, or an empty one, the two checkers return
no failure and the rule engine returns no failure on every field value but one:
on a field of interface type holding an `int64` it calls `v.Int()`, which
panics.  So `Validate` on an exported field with such a tag returns nil, except
that it panics on an interface-typed field holding an `int64` when the tag is
not empty. -/
theorem C19_tag_not_validate_key (fields : List (StructField × FieldValue))
    (f : StructField) (v : FieldValue) :
    ((∃ fv ∈ fields, fv.1.Exported = false ∧ fv.1.Tag ≠ "") →
      (∀ fv ∈ beforeHidden fields, fv.1.Exported = true → fv.1.Tag ≠ "" →
        validate fv.1 fv.2 = .ok none) →
      Validate (.struct fields) = .ok (some (.aggr [⟨.ErrValidateForUnexportedFields⟩]))) ∧
    (f.Exported = false →
      Validate (.struct [(f, v)]) =
        if f.Tag = "" then .ok none
        else .ok (some (.aggr [⟨.ErrValidateForUnexportedFields⟩]))) ∧
    (f.Exported = true →
      Validate (.struct [(f, v)]) =
        if f.Tag = "" then .ok none
        else match validate f v with
          | .error p => .error p
          | .ok none => .ok none
          | .ok (some e) => .ok (some (.aggr [⟨e⟩]))) ∧
    (StructTag.Get f.Tag "validate" = "" →
      (∀ n, validateInt f n = .ok none) ∧ (∀ s, validateStr f s = .ok none) ∧
      (validate f v =
        match v with
        | .ifaceInt64 _ => .error (.valueError "reflect.Value.Int")
        | _ => .ok none) ∧
      (f.Exported = true →
        Validate (.struct [(f, v)]) =
          if f.Tag = "" then .ok none
          else match v with
            | .ifaceInt64 _ => .error (.valueError "reflect.Value.Int")
            | _ => .ok none)) := by
  refine ⟨Validate_hidden fields, Validate_single_hidden f v, Validate_single_exported f v, ?_⟩
  intro hget
  have hval := validate_of_empty_eq f v hget
  refine ⟨fun n => validateInt_of_empty f n hget, fun s => validateStr_of_empty f s hget,
    hval, ?_⟩
  intro hexp
  rw [Validate_single_exported f v hexp, hval]
  cases v <;> rfl

/-- Witness of C19 on the tags `json:"x"`, `validate:""` and the empty tag: a
hidden field with `json:"x"` aborts; an exported `string` or `int64` field with
`json:"x"` or `validate:""` yields nil; an exported field of interface type
holding an `int64` panics with the tag `json:"x"` and yields nil with no
tag. -/
theorem C19_tag_not_validate_key_witness :
    StructTag.Lookup "json:\"x\"" "validate" = none ∧
    Validate (.struct [(⟨"foo", false, "json:\"x\""⟩, .string "abc")]) =
      .ok (some (.aggr [⟨.ErrValidateForUnexportedFields⟩])) ∧
    Validate (.struct [(⟨"Foo", true, "json:\"x\""⟩, .string "abc")]) = .ok none ∧
    Validate (.struct [(⟨"Bar", true, "validate:\"\""⟩, .int64 3)]) = .ok none ∧
    Validate (.struct [(⟨"X", true, "json:\"x\""⟩, .ifaceInt64 1)]) =
      .error (.valueError "reflect.Value.Int") ∧
    Validate (.struct [(⟨"X", true, ""⟩, .ifaceInt64 1)]) = .ok none :=
  ⟨rfl,
    (C19_tag_not_validate_key [(⟨"foo", false, "json:\"x\""⟩, .string "abc")]
      ⟨"Foo", true, "json:\"x\""⟩ (.string "abc")).1
      ⟨(⟨"foo", false, "json:\"x\""⟩, .string "abc"), by simp, rfl, by decide⟩
      (by
        intro fv hfv
        have hb : beforeHidden
            [((⟨"foo", false, "json:\"x\""⟩ : StructField), FieldValue.string "abc")] = [] := rfl
        rw [hb] at hfv
        cases hfv),
    ((C19_tag_not_validate_key [] ⟨"Foo", true, "json:\"x\""⟩ (.string "abc")).2.2.2 rfl).2.2.2
      rfl,
    ((C19_tag_not_validate_key [] ⟨"Bar", true, "validate:\"\""⟩ (.int64 3)).2.2.2 rfl).2.2.2
      rfl,
    ((C19_tag_not_validate_key [] ⟨"X", true, "json:\"x\""⟩ (.ifaceInt64 1)).2.2.2 rfl).2.2.2
      rfl,
    ((C19_tag_not_validate_key [] ⟨"X", true, ""⟩ (.ifaceInt64 1)).2.2.2 rfl).2.2.2 rfl⟩

/-! ## The length of a text -/

theorem utf8ByteSize_go_ge (l : List Char) : l.length ≤ String.utf8ByteSize.go l := by
  induction l with
  | nil => exact Nat.le_refl _
  | cons c cs ih =>
    have hc : 0 < c.utf8Size := Char.utf8Size_pos c
    simp only [String.utf8ByteSize.go, List.length_cons]
    omega

theorem utf8ByteSize_go_gt (l : List Char) (h : ∃ c ∈ l, 1 < c.utf8Size) :
    l.length < String.utf8ByteSize.go l := by
  induction l with
  | nil => simp at h
  | cons d ds ih =>
    have hd : 0 < d.utf8Size := Char.utf8Size_pos d
    have hge := utf8ByteSize_go_ge ds
    simp only [String.utf8ByteSize.go, List.length_cons]
    obtain ⟨c, hc, hlt⟩ := h
    rcases List.mem_cons.mp hc with rfl | hmem
    · omega
    · have := ih ⟨c, hmem, hlt⟩
      omega

theorem utf8ByteSize_gt_length (s : String) (h : ∃ c ∈ s.data, 1 < c.utf8Size) :
    s.length < s.utf8ByteSize := by
  cases s with
  | mk l => exact utf8ByteSize_go_gt l h

/-- C20: the length used by the textual rules `len`, `min` and `max` is the
number of bytes of the UTF-8 encoding of the text, not its number of
characters.  For the integer `n`: `len:n` passes exactly when `n` is the byte
count of `s`, `min:n` fails exactly when the byte count is below `n`, and
`max:n` fails exactly when `n < 0` or the byte count exceeds `n`; so a text of
`n` characters one of which takes several bytes does not pass `len:n`. -/
theorem C20_length_in_bytes (flen fmin fmax : StructField) (s N : String) (n : Int)
    (hN : strconv.Atoi N = some n)
    (hlen : StructTag.Get flen.Tag "validate" = "len:" ++ N)
    (hmin : StructTag.Get fmin.Tag "validate" = "min:" ++ N)
    (hmax : StructTag.Get fmax.Tag "validate" = "max:" ++ N) :
    (validateStr flen s = .ok none ↔ n = (s.toUTF8.size : Int)) ∧
    ((∃ e, validateStr fmin s = .ok (some e)) ↔ (s.toUTF8.size : Int) < n) ∧
    ((∃ e, validateStr fmax s = .ok (some e)) ↔ (n < 0 ∨ (s.toUTF8.size : Int) > n)) ∧
    (n = (s.length : Int) → (∃ c ∈ s.data, 1 < c.utf8Size) →
      ∃ e, validateStr flen s = .ok (some e)) := by
  obtain ⟨hcolon, hsemi, _⟩ := strconv.Atoi_no_separator N n hN
  have hs : ∀ name : String, ';' ∉ name.data → ';' ∉ (name ++ N).data := by
    intro name hname
    simp only [String.data_append, List.mem_append, not_or]
    exact ⟨hname, hsemi⟩
  have elen := validateStr_single flen s _ hlen (hs "len:" (by decide))
  have emin := validateStr_single fmin s _ hmin (hs "min:" (by decide))
  have emax := validateStr_single fmax s _ hmax (hs "max:" (by decide))
  rw [validateStr_clause_len flen s N hcolon, hN] at elen
  rw [validateStr_clause_min fmin s N hcolon, hN] at emin
  rw [validateStr_clause_max fmax s N hcolon, hN] at emax
  simp only at elen emin emax
  rw [String.size_toUTF8]
  have hpass : validateStr flen s = .ok none ↔ n = (s.utf8ByteSize : Int) := by
    rw [elen]
    by_cases hc : n < 0 ∨ (s.utf8ByteSize : Int) ≠ n
    · rw [if_pos hc]
      constructor
      · intro h; cases h
      · intro h
        rcases hc with hc | hc
        · have : (0 : Int) ≤ (s.utf8ByteSize : Int) := Int.ofNat_nonneg _
          omega
        · exact absurd h.symm hc
    · rw [if_neg hc]
      constructor
      · intro _
        by_contra hne
        exact hc (Or.inr (fun h => hne h.symm))
      · intro _; rfl
  refine ⟨hpass, ?_, ?_, ?_⟩
  · rw [emin]; split <;> simp [*]
  · rw [emax]; split <;> simp [*]
  · intro hn hmulti
    have hlt := utf8ByteSize_gt_length s hmulti
    have hne : n < 0 ∨ (s.utf8ByteSize : Int) ≠ n := by
      right
      omega
    rw [elen, if_pos hne]
    exact ⟨_, rfl⟩

/-- Witness of C20: the five letters `ыщшао` take ten bytes; they fail `len:5`
and pass `len:10`. -/
theorem C20_length_in_bytes_witness :
    "ыщшао".length = 5 ∧ "ыщшао".toUTF8.size = 10 ∧
    (∃ e, validateStr ⟨"Higher", true, "validate:\"len:5\""⟩ "ыщшао" = .ok (some e)) ∧
    validateStr ⟨"Ten", true, "validate:\"len:10\""⟩ "ыщшао" = .ok none :=
  ⟨by decide, by rw [String.size_toUTF8]; decide,
    (C20_length_in_bytes ⟨"Higher", true, "validate:\"len:5\""⟩
      ⟨"Lo", true, "validate:\"min:5\""⟩ ⟨"Hi", true, "validate:\"max:5\""⟩ "ыщшао" "5" 5
      rfl rfl rfl rfl).2.2.2 (by decide) ⟨'ы', by decide, by decide⟩,
    (C20_length_in_bytes ⟨"Ten", true, "validate:\"len:10\""⟩
      ⟨"Lo", true, "validate:\"min:10\""⟩ ⟨"Hi", true, "validate:\"max:10\""⟩ "ыщшао" "10" 10
      rfl rfl rfl rfl).1.mpr (by rw [String.size_toUTF8]; decide)⟩

/-! ## The textual rule `email` -/

theorem strings.splitChars_append_all (sep : Char) (a b : List Char) :
    strings.splitChars sep (a ++ sep :: b) =
      strings.splitChars sep a ++ strings.splitChars sep b := by
  induction a with
  | nil => simp [strings.splitChars]
  | cons c cs ih =>
    by_cases hc : c = sep
    · simp [strings.splitChars, hc, ih]
    · have e : strings.splitChars sep (c :: (cs ++ sep :: b)) =
          match strings.splitChars sep (cs ++ sep :: b) with
          | [] => [[c]]
          | p :: ps => (c :: p) :: ps := by
        simp [strings.splitChars, hc]
      have e2 : strings.splitChars sep (c :: cs) =
          match strings.splitChars sep cs with
          | [] => [[c]]
          | p :: ps => (c :: p) :: ps := by
        simp [strings.splitChars, hc]
      rw [List.cons_append, e, e2, ih]
      cases h : strings.splitChars sep cs with
      | nil => exact absurd h (strings.splitChars_ne_nil sep cs)
      | cons p ps => rfl

theorem strings.splitChars_singleton (sep : Char) (l x : List Char)
    (h : strings.splitChars sep l = [x]) : x = l := by
  induction l generalizing x with
  | nil =>
    simp [strings.splitChars] at h
    exact h
  | cons c cs ih =>
    unfold strings.splitChars at h
    by_cases hc : c = sep
    · rw [if_pos hc] at h
      simp only [List.cons.injEq] at h
      exact absurd h.2 (strings.splitChars_ne_nil sep cs)
    · rw [if_neg hc] at h
      cases hsp : strings.splitChars sep cs with
      | nil => exact absurd hsp (strings.splitChars_ne_nil sep cs)
      | cons p ps =>
        rw [hsp] at h
        simp only [List.cons.injEq] at h
        obtain ⟨h1, h2⟩ := h
        subst h2
        rw [← h1, ih p hsp]

theorem validateStr_clause_email (f : StructField) (s : String) :
    validateStr.clause f s "email" =
      if !emailMatch s then .ok (some (.Errorf (f.Name ++ ": value is not email address")))
      else .ok none := by
  have hs : strings.Split "email" ':' = ["email"] := rfl
  simp [validateStr.clause, hs, index]

theorem emailMatch_no_at (s : String) (h : '@' ∉ s.data) : emailMatch s = false := by
  unfold emailMatch
  rw [strings.splitChars_of_not_mem '@' s.data h]

theorem isLabel_bad (l : List Char)
    (h : l = [] ∨ 63 < l.length ∨ l.head? = some '-' ∨ l.getLast? = some '-') :
    isLabel l = false := by
  cases l with
  | nil => rfl
  | cons c rest =>
    rcases h with h | h | h | h
    · cases h
    · have hlen : ¬ rest.length ≤ 62 := by
        simp only [List.length_cons] at h
        omega
      have hne : rest ≠ [] := by
        intro he
        rw [he] at hlen
        exact hlen (by decide)
      simp [isLabel, hlen, hne]
    · simp only [List.head?_cons, Option.some.injEq] at h
      subst h
      simp [isLabel]
    · cases rest with
      | nil =>
        simp only [List.getLast?_singleton, Option.some.injEq] at h
        subst h
        simp [isLabel]
      | cons d ds =>
        have hl : (d :: ds).getLast? = some '-' := by
          rw [List.getLast?_cons_cons] at h
          exact h
        simp [isLabel, hl]

theorem emailMatch_bad_label (s : String) (loc dom : List Char)
    (hs : s.data = loc ++ '@' :: dom)
    (hbad : ∃ l ∈ strings.splitChars '.' dom,
      l = [] ∨ 63 < l.length ∨ l.head? = some '-' ∨ l.getLast? = some '-') :
    emailMatch s = false := by
  unfold emailMatch
  rw [hs, strings.splitChars_append_all]
  cases hA : strings.splitChars '@' loc with
  | nil => exact absurd hA (strings.splitChars_ne_nil _ _)
  | cons a as =>
    cases hB : strings.splitChars '@' dom with
    | nil => exact absurd hB (strings.splitChars_ne_nil _ _)
    | cons b bs =>
      cases as with
      | cons a2 as2 =>
        cases as2 <;> rfl
      | nil =>
        cases bs with
        | cons b2 bs2 => rfl
        | nil =>
          have hb : b = dom := strings.splitChars_singleton '@' dom b hB
          subst hb
          obtain ⟨l, hl, hlbad⟩ := hbad
          have hall : (strings.splitChars '.' b).all isLabel = false := by
            rw [List.all_eq_false]
            exact ⟨l, hl, by simp [isLabel_bad l hlbad]⟩
          simp [hall]

theorem Regex.cls_iff (p : Char → Bool) (l : List Char) :
    Regex.Matches (.cls p) l ↔ ∃ c, l = [c] ∧ p c = true := by
  constructor
  · intro h
    cases h with
    | cls _ c hc => exact ⟨c, rfl, hc⟩
  · rintro ⟨c, rfl, hc⟩
    exact Regex.Matches.cls p c hc

theorem Regex.seq_iff (a b : Regex) (l : List Char) :
    Regex.Matches (.seq a b) l ↔ ∃ x y, l = x ++ y ∧ Regex.Matches a x ∧ Regex.Matches b y := by
  constructor
  · intro h
    cases h with
    | seq ha hb => exact ⟨_, _, rfl, ha, hb⟩
  · rintro ⟨x, y, rfl, ha, hb⟩
    exact Regex.Matches.seq ha hb

theorem Regex.opt_iff (a : Regex) (l : List Char) :
    Regex.Matches (.opt a) l ↔ l = [] ∨ Regex.Matches a l := by
  constructor
  · intro h
    cases h with
    | optNone => exact Or.inl rfl
    | optSome ha => exact Or.inr ha
  · rintro (rfl | ha)
    · exact Regex.Matches.optNone
    · exact Regex.Matches.optSome ha

theorem Regex.plus_iff (a : Regex) (l : List Char) :
    Regex.Matches (.plus a) l ↔
      ∃ x y, l = x ++ y ∧ Regex.Matches a x ∧ Regex.Matches (.star a) y := by
  constructor
  · intro h
    cases h with
    | plus ha hb => exact ⟨_, _, rfl, ha, hb⟩
  · rintro ⟨x, y, rfl, ha, hb⟩
    exact Regex.Matches.plus ha hb

theorem Regex.star_cls_iff (p : Char → Bool) (l : List Char) :
    Regex.Matches (.star (.cls p)) l ↔ ∀ c ∈ l, p c = true := by
  constructor
  · intro h
    generalize hr : Regex.star (.cls p) = r at h
    induction h with
    | starNil => simp
    | starCons hx _ _ ihy =>
      injection hr with hr
      subst hr
      obtain ⟨c, rfl, hc⟩ := (Regex.cls_iff p _).mp hx
      intro d hd
      rcases List.mem_append.mp hd with h1 | h1
      · simp only [List.mem_singleton] at h1
        subst h1
        exact hc
      · exact ihy rfl d h1
    | cls => cases hr
    | seq => cases hr
    | optNone => cases hr
    | optSome => cases hr
    | plus => cases hr
    | uptoNil => cases hr
    | uptoCons => cases hr
  · intro h
    induction l with
    | nil => exact Regex.Matches.starNil
    | cons c cs ih =>
      have h1 : Regex.Matches (.cls p) [c] := Regex.Matches.cls p c (h c (by simp))
      have h2 := ih (fun d hd => h d (List.mem_cons_of_mem _ hd))
      exact Regex.Matches.starCons h1 h2

theorem Regex.upto_cls_iff (p : Char → Bool) (n : Nat) (l : List Char) :
    Regex.Matches (.upto n (.cls p)) l ↔ l.length ≤ n ∧ ∀ c ∈ l, p c = true := by
  constructor
  · intro h
    induction n generalizing l with
    | zero =>
      cases h with
      | uptoNil => simp
    | succ m ih =>
      cases h with
      | uptoNil => simp
      | uptoCons hx hy =>
        obtain ⟨c, rfl, hc⟩ := (Regex.cls_iff p _).mp hx
        obtain ⟨hlen, hall⟩ := ih _ hy
        refine ⟨by simp only [List.singleton_append, List.length_cons]; omega, ?_⟩
        intro d hd
        rcases List.mem_append.mp hd with h1 | h1
        · simp only [List.mem_singleton] at h1
          subst h1
          exact hc
        · exact hall d h1
  · rintro ⟨hlen, hall⟩
    induction l generalizing n with
    | nil => exact Regex.Matches.uptoNil
    | cons c cs ih =>
      cases n with
      | zero => simp at hlen
      | succ m =>
        have h1 : Regex.Matches (.cls p) [c] := Regex.Matches.cls p c (hall c (by simp))
        have h2 := ih m (by simp only [List.length_cons] at hlen; omega)
          (fun d hd => hall d (List.mem_cons_of_mem _ hd))
        exact Regex.Matches.uptoCons h1 h2

theorem isLabel_iff (l : List Char) :
    isLabel l = true ↔
      ∃ c rest, l = c :: rest ∧ c.isAlphanum = true ∧
        (rest = [] ∨ ∃ m d, rest = m ++ [d] ∧ m.length ≤ 61 ∧
          (∀ x ∈ m, isLabelChar x = true) ∧ d.isAlphanum = true) := by
  constructor
  · intro h
    cases l with
    | nil => simp [isLabel] at h
    | cons c rest =>
      simp only [isLabel, Bool.and_eq_true, Bool.or_eq_true, List.isEmpty_iff,
        decide_eq_true_eq, List.all_eq_true] at h
      obtain ⟨hc, hrest⟩ := h
      refine ⟨c, rest, rfl, hc, ?_⟩
      rcases hrest with h0 | ⟨⟨hlen, hall⟩, hlast⟩
      · exact Or.inl h0
      · by_cases hne : rest = []
        · exact Or.inl hne
        · right
          refine ⟨rest.dropLast, rest.getLast hne, (List.dropLast_append_getLast hne).symm, ?_,
            hall, ?_⟩
          · rw [List.length_dropLast]
            omega
          · rw [List.getLast?_eq_getLast rest hne] at hlast
            simpa using hlast
  · rintro ⟨c, rest, rfl, hc, hrest⟩
    rcases hrest with rfl | ⟨m, d, rfl, hlen, hall, hd⟩
    · simp [isLabel, hc]
    · have h1 : (m ++ [d]).length ≤ 62 := by
        simp only [List.length_append, List.length_singleton]
        omega
      simp only [isLabel, hc, Bool.true_and, Bool.or_eq_true, List.isEmpty_iff,
        Bool.and_eq_true, decide_eq_true_eq, List.all_eq_true, List.dropLast_concat,
        List.getLast?_concat, Option.map_some', Option.getD_some]
      exact Or.inr ⟨⟨h1, hall⟩, hd⟩

theorem labelPattern_iff (l : List Char) :
    Regex.Matches labelPattern l ↔ isLabel l = true := by
  rw [isLabel_iff, labelPattern, Regex.seq_iff]
  constructor
  · rintro ⟨x, y, rfl, hx, hy⟩
    obtain ⟨c, rfl, hc⟩ := (Regex.cls_iff _ _).mp hx
    refine ⟨c, y, rfl, hc, ?_⟩
    rcases (Regex.opt_iff _ _).mp hy with h0 | h1
    · exact Or.inl h0
    · obtain ⟨m, z, rfl, hm, hz⟩ := (Regex.seq_iff _ _ _).mp h1
      obtain ⟨d, rfl, hd⟩ := (Regex.cls_iff _ _).mp hz
      obtain ⟨hlen, hall⟩ := (Regex.upto_cls_iff _ _ _).mp hm
      exact Or.inr ⟨m, d, rfl, hlen, hall, hd⟩
  · rintro ⟨c, rest, rfl, hc, hrest⟩
    refine ⟨[c], rest, rfl, Regex.Matches.cls _ c hc, ?_⟩
    rw [Regex.opt_iff]
    rcases hrest with h0 | ⟨m, d, rfl, hlen, hall, hd⟩
    · exact Or.inl h0
    · right
      rw [Regex.seq_iff]
      exact ⟨m, [d], rfl, (Regex.upto_cls_iff _ _ _).mpr ⟨hlen, hall⟩,
        Regex.Matches.cls _ d hd⟩

theorem isLabel_chars (l : List Char) (h : isLabel l = true) :
    ∀ x ∈ l, isLabelChar x = true := by
  obtain ⟨c, rest, rfl, hc, hrest⟩ := (isLabel_iff l).mp h
  have hlc : ∀ x : Char, x.isAlphanum = true → isLabelChar x = true := by
    intro x hx
    simp [isLabelChar, hx]
  intro x hx
  rcases List.mem_cons.mp hx with rfl | hmem
  · exact hlc _ hc
  · rcases hrest with rfl | ⟨m, d, rfl, _, hall, hd⟩
    · cases hmem
    · rcases List.mem_append.mp hmem with h1 | h1
      · exact hall x h1
      · simp only [List.mem_singleton] at h1
        subst h1
        exact hlc _ hd

theorem sepJoin_splitChars (sep : Char) (d p0 : List Char) (ps : List (List Char))
    (h : strings.splitChars sep d = p0 :: ps) : d = p0 ++ sepJoin sep ps := by
  induction d generalizing p0 ps with
  | nil =>
    simp only [strings.splitChars, List.cons.injEq] at h
    obtain ⟨h1, h2⟩ := h
    subst h1 h2
    rfl
  | cons c cs ih =>
    unfold strings.splitChars at h
    cases hsp : strings.splitChars sep cs with
    | nil => exact absurd hsp (strings.splitChars_ne_nil sep cs)
    | cons q qs =>
      rw [hsp] at h
      have hcs := ih q qs hsp
      by_cases hc : c = sep
      · rw [if_pos hc] at h
        simp only [List.cons.injEq] at h
        obtain ⟨h1, h2⟩ := h
        subst h1 h2
        rw [hc, hcs]
        rfl
      · rw [if_neg hc] at h
        simp only [List.cons.injEq] at h
        obtain ⟨h1, h2⟩ := h
        subst h1 h2
        rw [hcs]
        rfl

theorem splitChars_sepJoin (sep : Char) (p0 : List Char) (ps : List (List Char))
    (h0 : sep ∉ p0) (hps : ∀ p ∈ ps, sep ∉ p) :
    strings.splitChars sep (p0 ++ sepJoin sep ps) = p0 :: ps := by
  induction ps generalizing p0 with
  | nil => simp [sepJoin, strings.splitChars_of_not_mem sep p0 h0]
  | cons p1 rest ih =>
    simp only [sepJoin]
    rw [strings.splitChars_append sep p0 _ h0,
      ih p1 (hps p1 (List.mem_cons_self _ _)) (fun p hp => hps p (List.mem_cons_of_mem _ hp))]

theorem star_dot_labels_iff (r : List Char) :
    Regex.Matches (.star (.seq (.cls (· == '.')) labelPattern)) r ↔
      ∃ ps, (∀ p ∈ ps, isLabel p = true) ∧ r = sepJoin '.' ps := by
  constructor
  · intro h
    generalize hr : Regex.star (.seq (.cls (· == '.')) labelPattern) = re at h
    induction h with
    | starNil => exact ⟨[], by simp, rfl⟩
    | starCons hx _ _ ihy =>
      injection hr with hr
      subst hr
      obtain ⟨ps, hps, hy⟩ := ihy rfl
      obtain ⟨x1, x2, rfl, h1, h2⟩ := (Regex.seq_iff _ _ _).mp hx
      obtain ⟨c, rfl, hc⟩ := (Regex.cls_iff _ _).mp h1
      have hcd : c = '.' := by simpa using hc
      subst hcd
      refine ⟨x2 :: ps, ?_, ?_⟩
      · intro p hp
        rcases List.mem_cons.mp hp with rfl | hmem
        · exact (labelPattern_iff _).mp h2
        · exact hps p hmem
      · rw [hy]
        simp [sepJoin]
    | cls => cases hr
    | seq => cases hr
    | optNone => cases hr
    | optSome => cases hr
    | plus => cases hr
    | uptoNil => cases hr
    | uptoCons => cases hr
  · rintro ⟨ps, hps, rfl⟩
    induction ps with
    | nil => exact Regex.Matches.starNil
    | cons p rest ih =>
      have h1 : Regex.Matches (.seq (.cls (· == '.')) labelPattern) ('.' :: p) :=
        (Regex.seq_iff _ _ _).mpr ⟨['.'], p, rfl, Regex.Matches.cls _ '.' (by decide),
          (labelPattern_iff p).mpr (hps p (List.mem_cons_self _ _))⟩
      have h2 := ih (fun q hq => hps q (List.mem_cons_of_mem _ hq))
      have := Regex.Matches.starCons h1 h2
      simpa [sepJoin] using this

theorem isLabel_no_sep (l : List Char) (h : isLabel l = true) : '.' ∉ l ∧ '@' ∉ l := by
  have hch := isLabel_chars l h
  constructor
  · intro hm
    exact absurd (hch _ hm) (by decide)
  · intro hm
    exact absurd (hch _ hm) (by decide)

theorem domain_iff (d : List Char) :
    Regex.Matches (.seq labelPattern (.star (.seq (.cls (· == '.')) labelPattern))) d ↔
      (strings.splitChars '.' d).all isLabel = true := by
  rw [Regex.seq_iff]
  constructor
  · rintro ⟨x, y, rfl, hx, hy⟩
    have hx2 := (labelPattern_iff x).mp hx
    obtain ⟨ps, hps, rfl⟩ := (star_dot_labels_iff y).mp hy
    rw [splitChars_sepJoin '.' x ps (isLabel_no_sep x hx2).1
      (fun p hp => (isLabel_no_sep p (hps p hp)).1)]
    rw [List.all_eq_true]
    intro p hp
    rcases List.mem_cons.mp hp with rfl | hmem
    · exact hx2
    · exact hps p hmem
  · intro h
    rw [List.all_eq_true] at h
    cases hsp : strings.splitChars '.' d with
    | nil => exact absurd hsp (strings.splitChars_ne_nil _ _)
    | cons p0 ps =>
      rw [hsp] at h
      refine ⟨p0, sepJoin '.' ps, sepJoin_splitChars '.' d p0 ps hsp,
        (labelPattern_iff p0).mpr (h p0 (List.mem_cons_self _ _)), ?_⟩
      exact (star_dot_labels_iff _).mpr
        ⟨ps, fun p hp => h p (List.mem_cons_of_mem _ hp), rfl⟩

theorem domain_no_at (d : List Char)
    (h : (strings.splitChars '.' d).all isLabel = true) : '@' ∉ d := by
  intro hm
  obtain ⟨p, hp, hcp⟩ := strings.mem_splitChars '.' '@' d hm (by decide)
  rw [List.all_eq_true] at h
  exact (isLabel_no_sep p (h p hp)).2 hcp

/-- The recogniser `emailMatch` accepts exactly the texts the address pattern
of the `email` rule matches from their first to their last character. -/
theorem emailMatch_iff_pattern (s : String) :
    emailMatch s = true ↔ Regex.Matches emailPattern s.data := by
  constructor
  · intro h
    unfold emailMatch at h
    cases hsp : strings.splitChars '@' s.data with
    | nil => exact absurd hsp (strings.splitChars_ne_nil _ _)
    | cons loc rest =>
      rw [hsp] at h
      cases rest with
      | nil => simp at h
      | cons dom rest2 =>
        cases rest2 with
        | cons x xs => simp at h
        | nil =>
          simp only [Bool.and_eq_true, Bool.not_eq_true', List.isEmpty_eq_false,
            List.all_eq_true] at h
          obtain ⟨⟨hne, hloc⟩, hdom⟩ := h
          have hs : s.data = loc ++ '@' :: dom := by
            have := sepJoin_splitChars '@' s.data loc [dom] hsp
            simpa [sepJoin] using this
          rw [hs, emailPattern]
          cases loc with
          | nil => exact absurd rfl hne
          | cons c cs =>
            refine Regex.Matches.seq (x := c :: cs) (y := '@' :: dom) ?_ ?_
            · exact (Regex.plus_iff _ _).mpr ⟨[c], cs, rfl,
                Regex.Matches.cls _ c (hloc c (List.mem_cons_self _ _)),
                (Regex.star_cls_iff _ _).mpr (fun d hd => hloc d (List.mem_cons_of_mem _ hd))⟩
            · refine Regex.Matches.seq (x := ['@']) (y := dom) ?_ ?_
              · exact Regex.Matches.cls _ '@' (by decide)
              · exact (domain_iff dom).mpr (by rw [List.all_eq_true]; exact hdom)
  · intro h
    rw [emailPattern, Regex.seq_iff] at h
    obtain ⟨loc, r, hs, hloc, hr⟩ := h
    obtain ⟨a, dom, rfl, ha, hdom⟩ := (Regex.seq_iff _ _ _).mp hr
    obtain ⟨c, rfl, hc⟩ := (Regex.cls_iff _ _).mp ha
    have hcat : c = '@' := by simpa using hc
    subst hcat
    obtain ⟨x, y, rfl, hx, hy⟩ := (Regex.plus_iff _ _).mp hloc
    obtain ⟨c0, rfl, hc0⟩ := (Regex.cls_iff _ _).mp hx
    have hy2 := (Regex.star_cls_iff _ _).mp hy
    have hall : ∀ d ∈ c0 :: y, isLocalChar d = true := by
      intro d hd
      rcases List.mem_cons.mp hd with rfl | hmem
      · exact hc0
      · exact hy2 d hmem
    have hdom2 := (domain_iff dom).mp hdom
    have hnoat : '@' ∉ c0 :: y := fun hm => absurd (hall _ hm) (by decide)
    have hsplit : strings.splitChars '@' s.data = [c0 :: y, dom] := by
      rw [hs]
      have := strings.splitChars_append '@' (c0 :: y) dom hnoat
      simp only [List.singleton_append, List.cons_append, List.nil_append] at this ⊢
      rw [this, strings.splitChars_of_not_mem '@' dom (domain_no_at dom hdom2)]
    unfold emailMatch
    rw [hsplit]
    simp only [Bool.and_eq_true, Bool.not_eq_true', List.isEmpty_eq_false, List.all_eq_true]
    refine ⟨⟨by simp, hall⟩, ?_⟩
    rw [List.all_eq_true] at hdom2
    exact hdom2

/-- C11: textual rule `email`.  The rule passes exactly on the texts the
address pattern matches.  The text `jenny@gmail.com` yields no failure;
every text that holds no `@` (so `invalid_email` and the empty text), and
every text `loc@dom` whose domain `dom` has a dot-separated label that is
empty, longer than 63 characters, or begins or ends with `-`, yields the
failure `<field>: value is not email address`. -/
theorem C11_email_rule (f : StructField) (s : String)
    (htag : StructTag.Get f.Tag "validate" = "email") :
    (validateStr f s = .ok none ↔ Regex.Matches emailPattern s.data) ∧
    (s = "jenny@gmail.com" → validateStr f s = .ok none) ∧
    ('@' ∉ s.data →
      validateStr f s = .ok (some (.Errorf (f.Name ++ ": value is not email address")))) ∧
    (∀ loc dom : String, s = loc ++ "@" ++ dom →
      (∃ l ∈ strings.splitChars '.' dom.data,
        l = [] ∨ 63 < l.length ∨ l.head? = some '-' ∨ l.getLast? = some '-') →
      validateStr f s = .ok (some (.Errorf (f.Name ++ ": value is not email address")))) := by
  have e := validateStr_single f s "email" htag (by decide)
  rw [validateStr_clause_email] at e
  refine ⟨?_, ?_, ?_, ?_⟩
  · rw [← emailMatch_iff_pattern, e]
    cases emailMatch s <;> simp
  · intro hs
    subst hs
    rw [e]
    rfl
  · intro hno
    rw [e, emailMatch_no_at s hno]
    rfl
  · intro loc dom hs hbad
    have hd : s.data = loc.data ++ '@' :: dom.data := by
      rw [hs]
      simp [String.data_append]
    rw [e, emailMatch_bad_label s loc.data dom.data hd hbad]
    rfl

/-- Witness of C11 on `jenny@gmail.com`, `invalid_email`, the empty text, and
the domains `-b.com`, `b..c` and `b-.c`. -/
theorem C11_email_rule_witness :
    validateStr ⟨"EmailStr", true, "validate:\"email\""⟩ "jenny@gmail.com" = .ok none ∧
    validateStr ⟨"EmailStr1", true, "validate:\"email\""⟩ "invalid_email" =
      .ok (some (.Errorf "EmailStr1: value is not email address")) ∧
    validateStr ⟨"EmailStr2", true, "validate:\"email\""⟩ "" =
      .ok (some (.Errorf "EmailStr2: value is not email address")) ∧
    validateStr ⟨"E", true, "validate:\"email\""⟩ "a@-b.com" =
      .ok (some (.Errorf "E: value is not email address")) ∧
    validateStr ⟨"E", true, "validate:\"email\""⟩ "a@b..c" =
      .ok (some (.Errorf "E: value is not email address")) ∧
    validateStr ⟨"E", true, "validate:\"email\""⟩ "a@b-.c" =
      .ok (some (.Errorf "E: value is not email address")) :=
  ⟨(C11_email_rule ⟨"EmailStr", true, "validate:\"email\""⟩ "jenny@gmail.com" rfl).2.1 rfl,
    (C11_email_rule ⟨"EmailStr1", true, "validate:\"email\""⟩ "invalid_email" rfl).2.2.1
      (by decide),
    (C11_email_rule ⟨"EmailStr2", true, "validate:\"email\""⟩ "" rfl).2.2.1 (by decide),
    (C11_email_rule ⟨"E", true, "validate:\"email\""⟩ "a@-b.com" rfl).2.2.2 "a" "-b.com" rfl
      ⟨['-', 'b'], by decide, Or.inr (Or.inr (Or.inl rfl))⟩,
    (C11_email_rule ⟨"E", true, "validate:\"email\""⟩ "a@b..c" rfl).2.2.2 "a" "b..c" rfl
      ⟨[], by decide, Or.inl rfl⟩,
    (C11_email_rule ⟨"E", true, "validate:\"email\""⟩ "a@b-.c" rfl).2.2.2 "a" "b-.c" rfl
      ⟨['b', '-'], by decide, Or.inr (Or.inr (Or.inr rfl))⟩⟩

end vld
